import Mathlib

/-!
# Agora server wire framing and fan-out

A shallow embedding of `Collaboration/AgoraServer.cpp`: the six protocol hooks
of `AgoraServer` (`receiveConnectRequest`, `receiveClientUpdate`,
`sendClientConnect`, `sendServerUpdate`, `beforeServerUpdate`,
`afterServerUpdate`) as functions over an explicit client state and an explicit
byte pipe.  C++ exceptions are the `Except` component of an outcome; the state
reached when the exception is thrown is the other component.
-/

namespace Agora

/-! ## Bytes and fixed-width values on the wire -/

/-- One octet of the byte-oriented pipe. -/
abbrev Byte := Fin 256

/-- Wire image of an unsigned value in `n` bytes, least significant byte first. -/
def encodeLE : Nat → Nat → List Byte
  | 0, _ => []
  | n + 1, v => ⟨v % 256, Nat.mod_lt v (by decide)⟩ :: encodeLE n (v / 256)

/-- Value of a block of bytes read as an unsigned number, least significant byte first. -/
def decodeLE : List Byte → Nat
  | [] => 0
  | b :: bs => b.val + 256 * decodeLE bs

/-- Sizes of the host types whose declarations are outside `AgoraServer.cpp`:
`sizeof(Scalar)` and the number of bytes of a tracker state on the pipe. -/
structure Platform where
  sizeofScalar : Nat
  trackerStateSize : Nat
  deriving DecidableEq, Repr

/-- Width of `size_t` in bits (LP64). -/
def sizeTBits : Nat := 64

/-- Exceptions and undefined accesses an operation can end in. -/
inductive Error where
  /-- the pipe ended before a read was complete -/
  | pipeError
  /-- `Misc::throwStdErr` after a failed `dynamic_cast`, with its message -/
  | stdErr (msg : String)
  /-- an access outside a locked batch or past the end of a memory block -/
  | outOfRange
  deriving DecidableEq, Repr

/-- Equality of outcomes can be decided, so that closed instances evaluate. -/
instance instDecidableEqExcept {ε α : Type} [DecidableEq ε] [DecidableEq α] :
    DecidableEq (Except ε α)
  | Except.ok a, Except.ok b =>
    if h : a = b then isTrue (by rw [h]) else isFalse (fun h2 => h (Except.ok.inj h2))
  | Except.error a, Except.error b =>
    if h : a = b then isTrue (by rw [h]) else isFalse (fun h2 => h (Except.error.inj h2))
  | Except.ok _, Except.error _ => isFalse (fun h => nomatch h)
  | Except.error _, Except.ok _ => isFalse (fun h => nomatch h)

/-- Modelled from the spec: `CollaborationPipe` (Collaboration/CollaborationPipe.h is not
among the sources), "a byte-oriented pipe with typed read/write of fixed-width ints,
scalars, and tracker states".  `incoming` holds the bytes still to be read, `outgoing`
the bytes written so far. -/
structure Pipe where
  incoming : List Byte
  outgoing : List Byte
  deriving DecidableEq, Repr

/-! ## The two buffer classes -/

/-- One fixed-size segment of a dropout buffer: an audio packet. -/
abbrev Segment := List Byte

/-- Modelled from the spec: `Threads::DropoutBuffer<char>` (Threads/DropoutBuffer.h is not
among the sources), section 4.1: "a bounded FIFO of N fixed-size segments of S bytes".
`queue` holds the committed segments, oldest first; `numLocked` is the count `k` captured
by `lockQueue`, the locked segments being the first `k` of `queue`. -/
structure DropoutBuffer where
  segmentSize : Nat
  maxQueueSize : Nat
  queue : List Segment
  writeSegment : Segment
  locked : Bool
  numLocked : Nat
  deriving DecidableEq, Repr

namespace DropoutBuffer

/-- Modelled from the spec: the constructor `DropoutBuffer(S, N)`: an empty, unlocked
queue of capacity `N`. -/
def new (segmentSize maxQueueSize : Nat) : DropoutBuffer :=
  { segmentSize := segmentSize, maxQueueSize := maxQueueSize, queue := [],
    writeSegment := List.replicate segmentSize 0, locked := false, numLocked := 0 }

/-- Modelled from the spec: `resize(S, N)` re-creates the buffer with segment size `S`
and capacity `N`. -/
def resize (_b : DropoutBuffer) (segmentSize maxQueueSize : Nat) : DropoutBuffer :=
  new segmentSize maxQueueSize

/-- Modelled from the spec: filling the slot returned by `getWriteSegment()`, "a pointer
to the next write slot". -/
def setWriteSegment (b : DropoutBuffer) (s : Segment) : DropoutBuffer :=
  { b with writeSegment := s }

/-- Modelled from the spec: `pushSegment()` "commits it. If the queue already held N
committed segments, the oldest is discarded"; "pushes during a lock that would displace
a locked segment are dropped". -/
def pushSegment (b : DropoutBuffer) : DropoutBuffer :=
  if b.queue.length < b.maxQueueSize then
    { b with queue := b.queue ++ [b.writeSegment] }
  else if b.locked && decide (0 < b.numLocked) then
    b
  else
    { b with queue := (b.queue ++ [b.writeSegment]).drop 1 }

/-- Modelled from the spec: `lockQueue()` "atomically captures the current committed
count k and freezes those k segments against further eviction"; returns `k`. -/
def lockQueue (b : DropoutBuffer) : Nat × DropoutBuffer :=
  (b.queue.length, { b with locked := true, numLocked := b.queue.length })

/-- Modelled from the spec: `getLockedSegment(i)` "for i<k returns a pointer"; nothing is
defined for `i ≥ k`. -/
def getLockedSegment (b : DropoutBuffer) (i : Nat) : Option Segment :=
  if i < b.numLocked then b.queue.get? i else none

/-- Modelled from the spec: `unlockQueue()` "releases them, allowing overwrite": the
locked segments leave the queue. -/
def unlockQueue (b : DropoutBuffer) : DropoutBuffer :=
  { b with queue := b.queue.drop b.numLocked, locked := false, numLocked := 0 }

end DropoutBuffer

/-- Modelled from the spec: `Threads::TripleBuffer<T>` (Threads/TripleBuffer.h is not among
the sources), section 4.2: "three slots {producing, ready, consuming}"; `posted` records
that `ready` has been posted since the last `lockNewValue`. -/
structure TripleBuffer (α : Type) where
  producing : α
  ready : α
  consuming : α
  posted : Bool
  deriving DecidableEq, Repr

namespace TripleBuffer

/-- Modelled from the spec: a default-constructed triple buffer, nothing posted. -/
def new {α : Type} (a : α) : TripleBuffer α :=
  { producing := a, ready := a, consuming := a, posted := false }

/-- Modelled from the spec: writing through the reference returned by `startNewValue()`,
"the producer's current slot". -/
def setNewValue {α : Type} (t : TripleBuffer α) (a : α) : TripleBuffer α :=
  { t with producing := a }

/-- Modelled from the spec: `postNewValue()` "atomically exchanges it with ready". -/
def postNewValue {α : Type} (t : TripleBuffer α) : TripleBuffer α :=
  { t with producing := t.ready, ready := t.producing, posted := true }

/-- Modelled from the spec: `lockNewValue()`: "if ready has been posted since last call,
atomically exchange ready and consuming and return true; else return false". -/
def lockNewValue {α : Type} (t : TripleBuffer α) : Bool × TripleBuffer α :=
  if t.posted then
    (true, { t with ready := t.consuming, consuming := t.ready, posted := false })
  else
    (false, t)

/-- Modelled from the spec: `getLockedValue()` "returns a reference to consuming". -/
def getLockedValue {α : Type} (t : TripleBuffer α) : α :=
  t.consuming

end TripleBuffer

/-! ## Client state -/

/-- Modelled from the spec: `VideoPacket` (its class is not among the sources), on the
wire "u32 len + bytes". -/
structure VideoPacket where
  data : List Byte
  deriving DecidableEq, Repr

/-- A `Point` of three `Scalar` components, each held as its bit pattern. -/
structure Point where
  c0 : Nat
  c1 : Nat
  c2 : Nat
  deriving DecidableEq, Repr

/-- The members of `AgoraServer::ClientState` that `AgoraServer.cpp` uses.  The class
declaration (Collaboration/AgoraServer.h) is not among the sources: the sizes and counts
are taken as `size_t`, the type of the loop indices they are compared with.  Scalars and
the tracker state are held as the bit patterns that travel on the pipe;
`theoraHeaders` is `none` for the null pointer. -/
structure ClientState where
  speexFrameSize : Nat
  speexPacketSize : Nat
  speexPacketBuffer : DropoutBuffer
  numSpeexPackets : Nat
  headPosition : Point
  hasTheora : Bool
  theoraHeadersSize : Nat
  theoraHeaders : Option (List Byte)
  theoraPacketBuffer : TripleBuffer VideoPacket
  hasTheoraPacket : Bool
  videoTransform : Nat
  videoSize0 : Nat
  videoSize1 : Nat
  deriving DecidableEq, Repr

/-- The constructor `ClientState::ClientState`: its initialiser list sets
`speexFrameSize(0)`, `speexPacketSize(0)`, `speexPacketBuffer(0,0)` and
`theoraHeaders(0)`; the triple buffer is default-constructed; every other member keeps
the indeterminate value `indet` supplies. -/
def ClientState.new (indet : ClientState) : ClientState :=
  { indet with
    speexFrameSize := 0
    speexPacketSize := 0
    speexPacketBuffer := DropoutBuffer.new 0 0
    theoraHeaders := none
    theoraPacketBuffer := TripleBuffer.new ⟨[]⟩ }

/-- A `ProtocolServer::ClientState*`: the state of an Agora client, or the state object
of some other protocol, on which `dynamic_cast<ClientState*>` yields null. -/
inductive ProtocolClientState where
  | agora (cs : ClientState)
  | other (tag : Nat)
  deriving DecidableEq, Repr

/-! ## Operations as state transformers -/

/-- What an operation works on: the Agora client state it has a handle on and the pipe. -/
structure World where
  cs : ClientState
  pipe : Pipe
  deriving DecidableEq, Repr

/-- An operation: from a world to its result, or the exception it throws, and the world
it leaves behind in either case. -/
def Act (α : Type) : Type := World → Except Error α × World

namespace Act

/-- Return a value, leaving the world as it is. -/
def ret {α : Type} (a : α) : Act α := fun w => (Except.ok a, w)

/-- Run `m`, then `f` on its result; an exception of `m` ends the sequence. -/
def andThen {α β : Type} (m : Act α) (f : α → Act β) : Act β := fun w =>
  match m w with
  | (Except.ok a, w1) => f a w1
  | (Except.error e, w1) => (Except.error e, w1)

/-- Throw an exception. -/
def fail {α : Type} (e : Error) : Act α := fun w => (Except.error e, w)

/-- Update the client state. -/
def modifyCs (f : ClientState → ClientState) : Act Unit := fun w =>
  (Except.ok (), { w with cs := f w.cs })

/-- Read the client state. -/
def getCs : Act ClientState := fun w => (Except.ok w.cs, w)

end Act

instance : Monad Act where
  pure := Act.ret
  bind := Act.andThen

/-- Modelled from the spec: `pipe.read<T>(ptr, n)` for byte-sized `T`: the next `n` bytes
of the pipe; a pipe that ends before them is drained and the read throws. -/
def readBytes (n : Nat) : Act (List Byte) := fun w =>
  if n ≤ w.pipe.incoming.length then
    (Except.ok (w.pipe.incoming.take n),
      { w with pipe := { w.pipe with incoming := w.pipe.incoming.drop n } })
  else
    (Except.error Error.pipeError, { w with pipe := { w.pipe with incoming := [] } })

/-- Modelled from the spec: `pipe.read<T>()` for an unsigned `T` of `n` bytes. -/
def readUInt (n : Nat) : Act Nat := do
  let bs ← readBytes n
  pure (decodeLE bs)

/-- Modelled from the spec: `pipe.read<Scalar>()`, the scalar kept as its bit pattern. -/
def readScalar (pf : Platform) : Act Nat :=
  readUInt pf.sizeofScalar

/-- Modelled from the spec: `pipe.readTrackerState()`, "opaque, host-defined": a block of
`trackerStateSize` bytes kept as its bit pattern. -/
def readTrackerState (pf : Platform) : Act Nat :=
  readUInt pf.trackerStateSize

/-- Modelled from the spec: `pipe.write` of a block of bytes. -/
def writeBytes (bs : List Byte) : Act Unit := fun w =>
  (Except.ok (), { w with pipe := { w.pipe with outgoing := w.pipe.outgoing ++ bs } })

/-- Modelled from the spec: `pipe.write<T>(v)` for an unsigned `T` of `n` bytes; the value
is converted to `T` first. -/
def writeUInt (n : Nat) (v : Nat) : Act Unit :=
  writeBytes (encodeLE n (v % 2 ^ (8 * n)))

/-- Modelled from the spec: `pipe.write<T>(ptr, n)` for byte-sized `T`: `n` bytes starting
at the beginning of the memory block `mem`; reading past its end is undefined. -/
def writeBlock (mem : List Byte) (n : Nat) : Act Unit :=
  if n ≤ mem.length then writeBytes (mem.take n) else Act.fail Error.outOfRange

/-- Modelled from the spec: `pipe.write<Scalar>(v)`. -/
def writeScalar (pf : Platform) (v : Nat) : Act Unit :=
  writeUInt pf.sizeofScalar v

/-- Modelled from the spec: `pipe.writeTrackerState(t)`. -/
def writeTrackerState (pf : Platform) (v : Nat) : Act Unit :=
  writeUInt pf.trackerStateSize v

/-- Modelled from the spec: `VideoPacket::read(pipe)`, "u32 len + bytes". -/
def VideoPacket.read : Act VideoPacket := do
  let len ← readUInt 4
  let data ← readBytes len
  pure ⟨data⟩

/-- Modelled from the spec: `VideoPacket::write(pipe)`, "u32 len + bytes". -/
def VideoPacket.write (p : VideoPacket) : Act Unit := do
  writeUInt 4 p.data.length
  writeBytes p.data

/-! ## `AgoraServer` -/

/-- The body of `AgoraServer::receiveConnectRequest` up to the length check, run on the
freshly constructed `newClientState`; its result is `readMessageLength`. -/
def receiveConnectRequestRead (pf : Platform) : Act Nat := do
  let speexFrameSize ← readUInt 4
  Act.modifyCs fun c => { c with speexFrameSize := speexFrameSize }
  let speexPacketSize ← readUInt 4
  Act.modifyCs fun c => { c with speexPacketSize := speexPacketSize }
  let speexPacketBufferSize ← readUInt 4
  Act.modifyCs fun c =>
    { c with speexPacketBuffer := c.speexPacketBuffer.resize c.speexPacketSize speexPacketBufferSize }
  let readMessageLength := 4 * 3
  let flag ← readUInt 1
  Act.modifyCs fun c => { c with hasTheora := decide (flag ≠ 0) }
  let readMessageLength := (readMessageLength + 1) % 2 ^ sizeTBits
  let c ← Act.getCs
  if c.hasTheora then
    let theoraHeadersSize ← readUInt 4
    Act.modifyCs fun c => { c with theoraHeadersSize := theoraHeadersSize }
    let readMessageLength := (readMessageLength + 4) % 2 ^ sizeTBits
    let headers ← readBytes theoraHeadersSize
    Act.modifyCs fun c => { c with theoraHeaders := some headers }
    let readMessageLength := (readMessageLength + theoraHeadersSize) % 2 ^ sizeTBits
    let v0 ← readScalar pf
    Act.modifyCs fun c => { c with videoSize0 := v0 }
    let v1 ← readScalar pf
    Act.modifyCs fun c => { c with videoSize1 := v1 }
    let readMessageLength := (readMessageLength + pf.sizeofScalar * 2) % 2 ^ sizeTBits
    pure readMessageLength
  else
    pure readMessageLength

/-- `AgoraServer::receiveConnectRequest`: the new client state, or `none` for the null
pointer returned on a length mismatch; `indet` supplies the indeterminate initial values
of the members the constructor does not set. -/
def receiveConnectRequest (pf : Platform) (indet : ClientState) (protocolMessageLength : Nat)
    (pipe : Pipe) : Except Error (Option ClientState) × Pipe :=
  match receiveConnectRequestRead pf { cs := ClientState.new indet, pipe := pipe } with
  | (Except.ok readMessageLength, w) =>
    if protocolMessageLength ≠ readMessageLength then (Except.ok none, w.pipe)
    else (Except.ok (some w.cs), w.pipe)
  | (Except.error e, w) => (Except.error e, w.pipe)

/-- The loop of `AgoraServer::receiveClientUpdate` over the SPEEX frames the client sent:
each packet is read into the write segment of the packet buffer and pushed. -/
def readSpeexPackets : Nat → Act Unit
  | 0 => pure ()
  | n + 1 => do
    let c ← Act.getCs
    let speexPacket ← readBytes c.speexPacketSize
    Act.modifyCs fun c =>
      { c with speexPacketBuffer := (c.speexPacketBuffer.setWriteSegment speexPacket).pushSegment }
    readSpeexPackets n

/-- The body of `AgoraServer::receiveClientUpdate` after the `dynamic_cast`. -/
def receiveClientUpdateBody (pf : Platform) : Act Unit := do
  let myCs ← Act.getCs
  if 0 < myCs.speexFrameSize then
    let numSpeexFrames ← readUInt 2
    readSpeexPackets numSpeexFrames
    let c0 ← readScalar pf
    let c1 ← readScalar pf
    let c2 ← readScalar pf
    Act.modifyCs fun c => { c with headPosition := ⟨c0, c1, c2⟩ }
  if myCs.hasTheora then
    let flag ← readUInt 1
    if flag ≠ 0 then
      let theoraPacket ← VideoPacket.read
      Act.modifyCs fun c =>
        { c with theoraPacketBuffer := (c.theoraPacketBuffer.setNewValue theoraPacket).postNewValue }
    let videoTransform ← readTrackerState pf
    Act.modifyCs fun c => { c with videoTransform := videoTransform }

/-- The body of `AgoraServer::sendClientConnect` after the `dynamic_cast`. -/
def sendClientConnectBody (pf : Platform) : Act Unit := do
  let mySourceCs ← Act.getCs
  writeUInt 4 mySourceCs.speexFrameSize
  writeUInt 4 mySourceCs.speexPacketSize
  if mySourceCs.hasTheora then
    writeUInt 1 1
    writeUInt 4 mySourceCs.theoraHeadersSize
    writeBlock (mySourceCs.theoraHeaders.getD []) mySourceCs.theoraHeadersSize
    writeScalar pf mySourceCs.videoSize0
    writeScalar pf mySourceCs.videoSize1
  else
    writeUInt 1 0

/-- The loop of `AgoraServer::sendServerUpdate` over the locked SPEEX packets: `count`
iterations starting at index `i`. -/
def writeSpeexPackets (mySourceCs : ClientState) : Nat → Nat → Act Unit
  | _, 0 => pure ()
  | i, count + 1 => do
    match mySourceCs.speexPacketBuffer.getLockedSegment i with
    | some speexPacket => writeBlock speexPacket mySourceCs.speexPacketSize
    | none => Act.fail Error.outOfRange
    writeSpeexPackets mySourceCs (i + 1) count

/-- The body of `AgoraServer::sendServerUpdate` after the `dynamic_cast`. -/
def sendServerUpdateBody (pf : Platform) : Act Unit := do
  let mySourceCs ← Act.getCs
  if 0 < mySourceCs.speexFrameSize then
    writeUInt 2 mySourceCs.numSpeexPackets
    writeSpeexPackets mySourceCs 0 mySourceCs.numSpeexPackets
    writeScalar pf mySourceCs.headPosition.c0
    writeScalar pf mySourceCs.headPosition.c1
    writeScalar pf mySourceCs.headPosition.c2
  if mySourceCs.hasTheora then
    if mySourceCs.hasTheoraPacket then
      writeUInt 1 1
      mySourceCs.theoraPacketBuffer.getLockedValue.write
    else
      writeUInt 1 0
    writeTrackerState pf mySourceCs.videoTransform

/-- The body of `AgoraServer::beforeServerUpdate` after the `dynamic_cast`. -/
def beforeServerUpdateBody (myCs : ClientState) : ClientState :=
  let locked :=
    if 0 < myCs.speexFrameSize then myCs.speexPacketBuffer.lockQueue
    else (0, myCs.speexPacketBuffer)
  let myCs := { myCs with numSpeexPackets := locked.1, speexPacketBuffer := locked.2 }
  let fresh :=
    if myCs.hasTheora then myCs.theoraPacketBuffer.lockNewValue
    else (false, myCs.theoraPacketBuffer)
  { myCs with hasTheoraPacket := fresh.1, theoraPacketBuffer := fresh.2 }

/-- The body of `AgoraServer::afterServerUpdate` after the `dynamic_cast`. -/
def afterServerUpdateBody (myCs : ClientState) : ClientState :=
  if 0 < myCs.speexFrameSize then
    { myCs with speexPacketBuffer := myCs.speexPacketBuffer.unlockQueue }
  else
    myCs

/-- What a hook that takes a pipe leaves behind: its result or exception, the client
state object it was handed, and the pipe. -/
structure Outcome where
  result : Except Error Unit
  cs : ProtocolClientState
  pipe : Pipe
  deriving DecidableEq, Repr

/-- The common entry of the hooks: `dynamic_cast<ClientState*>(cs)`, the exception with
message `msg` when it yields null, and `body` on the Agora state otherwise. -/
def withAgoraState (msg : String) (body : Act Unit) (cs : ProtocolClientState) (pipe : Pipe) :
    Outcome :=
  match cs with
  | ProtocolClientState.agora myCs =>
    match body { cs := myCs, pipe := pipe } with
    | (r, w) => { result := r, cs := ProtocolClientState.agora w.cs, pipe := w.pipe }
  | ProtocolClientState.other _ =>
    { result := Except.error (Error.stdErr msg), cs := cs, pipe := pipe }

/-- `AgoraServer::receiveClientUpdate`. -/
def receiveClientUpdate (pf : Platform) (cs : ProtocolClientState) (pipe : Pipe) : Outcome :=
  withAgoraState "AgoraServer::receiveClientUpdate: Client state object has mismatching type"
    (receiveClientUpdateBody pf) cs pipe

/-- `AgoraServer::sendClientConnect`; the destination state is not used. -/
def sendClientConnect (pf : Platform) (sourceCs _destCs : ProtocolClientState) (pipe : Pipe) :
    Outcome :=
  withAgoraState "AgoraServer::sendClientConnect: Client state object has mismatching type"
    (sendClientConnectBody pf) sourceCs pipe

/-- `AgoraServer::sendServerUpdate`; the destination state is not used. -/
def sendServerUpdate (pf : Platform) (sourceCs _destCs : ProtocolClientState) (pipe : Pipe) :
    Outcome :=
  withAgoraState "AgoraServer::sendServerUpdate: Client state object has mismatching type"
    (sendServerUpdateBody pf) sourceCs pipe

/-- `AgoraServer::beforeServerUpdate`. -/
def beforeServerUpdate (cs : ProtocolClientState) : Except Error Unit × ProtocolClientState :=
  match cs with
  | ProtocolClientState.agora myCs =>
    (Except.ok (), ProtocolClientState.agora (beforeServerUpdateBody myCs))
  | ProtocolClientState.other _ =>
    (Except.error
      (Error.stdErr "AgoraServer::beforeServerUpdate: Client state object has mismatching type"),
      cs)

/-- `AgoraServer::afterServerUpdate`. -/
def afterServerUpdate (cs : ProtocolClientState) : Except Error Unit × ProtocolClientState :=
  match cs with
  | ProtocolClientState.agora myCs =>
    (Except.ok (), ProtocolClientState.agora (afterServerUpdateBody myCs))
  | ProtocolClientState.other _ =>
    (Except.error
      (Error.stdErr "AgoraServer::afterServerUpdate: Client state object has mismatching type"),
      cs)

/-! ## Wire formats of the specification -/

/-- Number of bytes of the connect-request body that starts the stream `bs`, by the
layout of section 4.7: three `u32` and the `hasTheora` byte, and when that byte is
non-zero a `u32` headers length, the headers and two scalars. -/
def connectRequestLength (pf : Platform) (bs : List Byte) : Nat :=
  if decodeLE ((bs.drop 12).take 1) = 0 then 3 * 4 + 1
  else 3 * 4 + 1 + 4 + decodeLE ((bs.drop 13).take 4) + 2 * pf.sizeofScalar

/-- The client state that the fields of the connect-request body at the head of `bs`
describe, on top of a freshly constructed state. -/
def connectState (pf : Platform) (indet : ClientState) (bs : List Byte) : ClientState :=
  let len := decodeLE ((bs.drop 13).take 4)
  let base : ClientState :=
    { ClientState.new indet with
      speexFrameSize := decodeLE (bs.take 4)
      speexPacketSize := decodeLE ((bs.drop 4).take 4)
      speexPacketBuffer :=
        DropoutBuffer.new (decodeLE ((bs.drop 4).take 4)) (decodeLE ((bs.drop 8).take 4))
      hasTheora := decide (decodeLE ((bs.drop 12).take 1) ≠ 0) }
  if decodeLE ((bs.drop 12).take 1) = 0 then base
  else
    { base with
      theoraHeadersSize := len
      theoraHeaders := some ((bs.drop 17).take len)
      videoSize0 := decodeLE ((bs.drop (17 + len)).take pf.sizeofScalar)
      videoSize1 := decodeLE ((bs.drop (17 + len + pf.sizeofScalar)).take pf.sizeofScalar) }

/-- The values a client puts into a connect request. -/
structure ConnectRequest where
  speexFrameSize : Nat
  speexPacketSize : Nat
  speexPacketBufferCapacity : Nat
  hasTheora : Bool
  theoraHeaders : List Byte
  videoSize0 : Nat
  videoSize1 : Nat
  deriving DecidableEq, Repr

/-- Modelled from the spec: the connect-request body of section 4.7 as the client writes
it (`AgoraClient::sendConnectRequest` is not among the sources): three `u32`, the
`hasTheora` byte, and when it is set the `u32` headers length, the headers and the two
`videoSize` scalars. -/
def connectRequestBody (pf : Platform) (r : ConnectRequest) : List Byte :=
  encodeLE 4 r.speexFrameSize ++ (encodeLE 4 r.speexPacketSize ++
    (encodeLE 4 r.speexPacketBufferCapacity ++ ((if r.hasTheora then 1 else 0) ::
      (if r.hasTheora then
        encodeLE 4 r.theoraHeaders.length ++ (r.theoraHeaders ++
          (encodeLE pf.sizeofScalar r.videoSize0 ++ encodeLE pf.sizeofScalar r.videoSize1))
      else []))))

/-- The values of a connect request fit their wire types: the three sizes and the headers
length are `u32`, the scalars are `sizeof(Scalar)` bytes wide. -/
def ConnectRequest.Valid (pf : Platform) (r : ConnectRequest) : Prop :=
  r.speexFrameSize < 2 ^ 32 ∧ r.speexPacketSize < 2 ^ 32 ∧ r.speexPacketBufferCapacity < 2 ^ 32 ∧
    (r.hasTheora = true → r.theoraHeaders.length < 2 ^ 32 ∧
      r.videoSize0 < 256 ^ pf.sizeofScalar ∧ r.videoSize1 < 256 ^ pf.sizeofScalar)

instance instDecidableConnectRequestValid (pf : Platform) (r : ConnectRequest) :
    Decidable (r.Valid pf) := by
  unfold ConnectRequest.Valid; infer_instance

/-- The connect-forward body that belongs to the connect-request body at the head of
`bs`, by section 4.7 "identical layout to connect-request minus
`speexPacketBufferCapacity`": the bytes of `speexFrameSize` and of `speexPacketSize`, the
flag as 0 or 1, and when it is set the bytes of the headers length, of the headers and of
the two `videoSize` scalars. -/
def connectForwardBody (pf : Platform) (bs : List Byte) : List Byte :=
  let len := decodeLE ((bs.drop 13).take 4)
  bs.take 4 ++ ((bs.drop 4).take 4 ++
    (if decodeLE ((bs.drop 12).take 1) = 0 then [0]
    else 1 :: ((bs.drop 13).take 4 ++ ((bs.drop 17).take len ++
      ((bs.drop (17 + len)).take pf.sizeofScalar ++
        (bs.drop (17 + len + pf.sizeofScalar)).take pf.sizeofScalar)))))

/-- Wire image of a value written as an unsigned type of `n` bytes. -/
def wireUInt (n v : Nat) : List Byte :=
  encodeLE n (v % 2 ^ (8 * n))

/-- The packets of the locked batch as they go out: from each of the first
`numSpeexPackets` segments of the queue, in index order, `speexPacketSize` bytes. -/
def lockedPackets (S : ClientState) : List Byte :=
  ((S.speexPacketBuffer.queue.take S.numSpeexPackets).map
    fun s => s.take S.speexPacketSize).flatten

/-- Server-update body, audio packets: "u16 numSpeexPackets" and the packets, when
`speexFrameSize > 0`.  The count field is `numSpeexPackets` as `write<unsigned short>`
converts it. -/
def audioBatchBytes (S : ClientState) : List Byte :=
  if 0 < S.speexFrameSize then wireUInt 2 S.numSpeexPackets ++ lockedPackets S else []

/-- Server-update body, "Scalar headPosition[3]", when `speexFrameSize > 0`. -/
def headPositionBytes (pf : Platform) (S : ClientState) : List Byte :=
  if 0 < S.speexFrameSize then
    wireUInt pf.sizeofScalar S.headPosition.c0 ++ (wireUInt pf.sizeofScalar S.headPosition.c1 ++
      wireUInt pf.sizeofScalar S.headPosition.c2)
  else []

/-- Server-update body, "u8 hasNewPacket" and "if hasNewPacket: VideoPacket", when
`hasTheora` is set. -/
def videoPacketBytes (S : ClientState) : List Byte :=
  if S.hasTheora then
    if S.hasTheoraPacket then
      1 :: (wireUInt 4 S.theoraPacketBuffer.getLockedValue.data.length ++
        S.theoraPacketBuffer.getLockedValue.data)
    else [0]
  else []

/-- Server-update body, "TrackerState videoTransform", when `hasTheora` is set. -/
def videoTransformBytes (pf : Platform) (S : ClientState) : List Byte :=
  if S.hasTheora then wireUInt pf.trackerStateSize S.videoTransform else []

/-- The bytes of a server update for the source state `S`, in the layout of section 4.7
and with the count field as `write<unsigned short>` converts it. -/
def serverUpdateBody (pf : Platform) (S : ClientState) : List Byte :=
  audioBatchBytes S ++ (headPositionBytes pf S ++ (videoPacketBytes S ++ videoTransformBytes pf S))

/-- An unsigned field of `n` bytes that holds the value `v`: its bytes, least significant
first; there is no such field when `v` does not fit in `n` bytes. -/
def wireField (n v : Nat) : Option (List Byte) :=
  if v < 256 ^ n then some (encodeLE n v) else none

/-- The server-update body of section 4.7 in the words of the specification, for the
source state `S`: with audio, a `u16` field that holds `numSpeexPackets`, then the
`numSpeexPackets` packets of `speexPacketSize` bytes from the locked segments in index
order and the three head-position scalars; with video, the `hasNewPacket` byte, the
video packet when that byte is 1, and the video transform; nothing for a section whose
condition is false.  There is no such body when `numSpeexPackets` is not a `u16`
value. -/
def serverUpdateWire (pf : Platform) (S : ClientState) : Option (List Byte) :=
  if 0 < S.speexFrameSize then
    (wireField 2 S.numSpeexPackets).map fun count =>
      count ++ (lockedPackets S ++
        (headPositionBytes pf S ++ (videoPacketBytes S ++ videoTransformBytes pf S)))
  else some (videoPacketBytes S ++ videoTransformBytes pf S)

/-- The values a client puts into one client update. -/
structure ClientUpdate where
  packets : List Segment
  headPosition : Point
  hasNewPacket : Byte
  videoPacket : VideoPacket
  videoTransform : Nat
  deriving DecidableEq, Repr

/-- Modelled from the spec: the client-update body of section 4.7 as a client whose
connect request fixed `speexFrameSize` and `hasTheora` writes it
(`AgoraClient::sendClientUpdate` is not among the sources). -/
def clientUpdateBody (pf : Platform) (S : ClientState) (u : ClientUpdate) : List Byte :=
  (if 0 < S.speexFrameSize then
    encodeLE 2 u.packets.length ++ (u.packets.flatten ++
      (encodeLE pf.sizeofScalar u.headPosition.c0 ++ (encodeLE pf.sizeofScalar u.headPosition.c1 ++
        encodeLE pf.sizeofScalar u.headPosition.c2)))
  else []) ++
  (if S.hasTheora then
    u.hasNewPacket :: ((if u.hasNewPacket ≠ 0 then
      encodeLE 4 u.videoPacket.data.length ++ u.videoPacket.data else []) ++
        encodeLE pf.trackerStateSize u.videoTransform)
  else [])

/-- The values of a client update fit the wire types of the sections that are sent: a
`u16` count of packets of `speexPacketSize` bytes and scalars of `sizeof(Scalar)` bytes
when there is audio; a `u32` packet length and a tracker state of `trackerStateSize`
bytes when there is video. -/
def ClientUpdate.Valid (pf : Platform) (S : ClientState) (u : ClientUpdate) : Prop :=
  (0 < S.speexFrameSize →
    u.packets.length < 2 ^ 16 ∧ (∀ p ∈ u.packets, p.length = S.speexPacketSize) ∧
      u.headPosition.c0 < 256 ^ pf.sizeofScalar ∧ u.headPosition.c1 < 256 ^ pf.sizeofScalar ∧
      u.headPosition.c2 < 256 ^ pf.sizeofScalar) ∧
  (S.hasTheora = true →
    u.videoPacket.data.length < 2 ^ 32 ∧ u.videoTransform < 256 ^ pf.trackerStateSize)

instance instDecidableClientUpdateValid (pf : Platform) (S : ClientState) (u : ClientUpdate) :
    Decidable (u.Valid pf S) := by
  unfold ClientUpdate.Valid; infer_instance

/-- Committing a list of packets in order: each is written into the next write segment
and pushed. -/
def pushPackets (b : DropoutBuffer) (packets : List Segment) : DropoutBuffer :=
  packets.foldl (fun b p => (b.setWriteSegment p).pushSegment) b

/-- The effect of a client update on the server-side state, by section 4.7: with audio,
the packets are committed in wire order and the head position is stored; with video, a
packet that is present is posted to the triple buffer and the video transform is
stored. -/
def applyClientUpdate (S : ClientState) (u : ClientUpdate) : ClientState :=
  let S1 : ClientState :=
    if 0 < S.speexFrameSize then
      { S with
        speexPacketBuffer := pushPackets S.speexPacketBuffer u.packets
        headPosition := u.headPosition }
    else S
  if S.hasTheora then
    { S1 with
      theoraPacketBuffer :=
        if u.hasNewPacket ≠ 0 then (S1.theoraPacketBuffer.setNewValue u.videoPacket).postNewValue
        else S1.theoraPacketBuffer
      videoTransform := u.videoTransform }
  else S1

/-- All audio packets of a list of client updates, in wire order: the order in which
`receiveClientUpdate` pushes them. -/
def pushedPackets (us : List ClientUpdate) : List Segment :=
  (us.map fun u => u.packets).flatten

/-- The pipe contents of a list of client updates of the client with state `S`, one pipe
for each update. -/
def updatePipes (pf : Platform) (S : ClientState) (us : List ClientUpdate) : List Pipe :=
  us.map fun u => (⟨clientUpdateBody pf S u, []⟩ : Pipe)

/-- The video packet of the most recent update, among those processed after `acc` was
the most recent, that carries one. -/
def latestVideoFrom (acc : Option VideoPacket) (us : List ClientUpdate) : Option VideoPacket :=
  us.foldl (fun acc u => if u.hasNewPacket ≠ 0 then some u.videoPacket else acc) acc

/-- The video packet of the most recent update in `us` that carries one, `none` when no
update of `us` carries a video packet. -/
def latestVideo (us : List ClientUpdate) : Option VideoPacket :=
  latestVideoFrom none us

/-! ## Ticks and what they keep -/

/-- The batch that `numSpeexPackets` counts is locked in the packet buffer and each of
its segments holds a whole packet, as between `beforeServerUpdate` and
`afterServerUpdate`. -/
def ClientState.BatchLocked (S : ClientState) : Prop :=
  S.numSpeexPackets ≤ S.speexPacketBuffer.numLocked ∧
    S.speexPacketBuffer.numLocked ≤ S.speexPacketBuffer.queue.length ∧
    ∀ s ∈ S.speexPacketBuffer.queue.take S.numSpeexPackets, S.speexPacketSize ≤ s.length

instance instDecidableBatchLocked (S : ClientState) : Decidable S.BatchLocked := by
  unfold ClientState.BatchLocked; infer_instance

/-- An operation keeps a property of the client state: whatever the pipe holds and
whether it returns or throws, the state it leaves has the property if the state it
started from had it. -/
def Act.Keeps {α : Type} (P : ClientState → Prop) (m : Act α) : Prop :=
  ∀ w : World, P w.cs → P (m w).2.cs

/-- The members that `receiveConnectRequest` fixes: `speexFrameSize`, `speexPacketSize`,
`hasTheora`, `theoraHeadersSize`, the headers bytes and the two `videoSize` scalars. -/
def connectFields (S : ClientState) :
    Nat × Nat × Bool × Nat × Option (List Byte) × Nat × Nat :=
  (S.speexFrameSize, S.speexPacketSize, S.hasTheora, S.theoraHeadersSize, S.theoraHeaders,
    S.videoSize0, S.videoSize1)

/-- The connect-fixed members of a client state object, `none` for the state object of
another protocol. -/
def ProtocolClientState.connectFields :
    ProtocolClientState → Option (Nat × Nat × Bool × Nat × Option (List Byte) × Nat × Nat)
  | ProtocolClientState.agora S => some (Agora.connectFields S)
  | ProtocolClientState.other _ => none

/-- A run of `receiveClientUpdate` calls on one state object, one for each of the given
pipe contents, whatever each call ends in. -/
def receiveAll (pf : Platform) (cs : ProtocolClientState) (pipes : List Pipe) :
    ProtocolClientState :=
  pipes.foldl (fun c p => (receiveClientUpdate pf c p).cs) cs

/-- The audio batch that `lockQueue` captures on the state `S0`, as it goes on the wire:
the count of committed segments and those segments, oldest first. -/
def capturedAudio (S0 : ClientState) : List Byte :=
  if 0 < S0.speexFrameSize then
    wireUInt 2 S0.speexPacketBuffer.queue.length ++
      (S0.speexPacketBuffer.queue.map fun s => s.take S0.speexPacketSize).flatten
  else []

/-- The video packet that `lockNewValue` captures on the state `S0`, as it goes on the
wire: the flag 1 and the posted packet, or the flag 0 when nothing was posted. -/
def capturedVideo (S0 : ClientState) : List Byte :=
  if S0.hasTheora then
    if S0.theoraPacketBuffer.posted then
      1 :: (wireUInt 4 S0.theoraPacketBuffer.ready.data.length ++
        S0.theoraPacketBuffer.ready.data)
    else [0]
  else []

/-- The state `S` still carries the snapshot of the state `S1`: the connect-time sizes
and flag, the locked count, the video flag and the locked video packet are those of
`S1`, and with audio the buffer is locked on the same segments. -/
def Frozen (S1 S : ClientState) : Prop :=
  S.speexFrameSize = S1.speexFrameSize ∧ S.speexPacketSize = S1.speexPacketSize ∧
    S.hasTheora = S1.hasTheora ∧ S.numSpeexPackets = S1.numSpeexPackets ∧
    S.hasTheoraPacket = S1.hasTheoraPacket ∧
    S.theoraPacketBuffer.consuming = S1.theoraPacketBuffer.consuming ∧
    (0 < S1.speexFrameSize →
      S.speexPacketBuffer.locked = true ∧
      S.speexPacketBuffer.numLocked = S1.speexPacketBuffer.numLocked ∧
      S.speexPacketBuffer.numLocked ≤ S.speexPacketBuffer.queue.length ∧
      S.speexPacketBuffer.queue.take S.speexPacketBuffer.numLocked =
        S1.speexPacketBuffer.queue.take S1.speexPacketBuffer.numLocked)

/-! ## Concrete instances -/

/-- A platform with two-byte scalars and three-byte tracker states. -/
def pfSmall : Platform := ⟨2, 3⟩

/-- Some values for the members a constructor leaves indeterminate. -/
def indetSample : ClientState :=
  { speexFrameSize := 7, speexPacketSize := 7, speexPacketBuffer := DropoutBuffer.new 1 1,
    numSpeexPackets := 9, headPosition := ⟨1, 2, 3⟩, hasTheora := true, theoraHeadersSize := 5,
    theoraHeaders := some [1], theoraPacketBuffer := TripleBuffer.new ⟨[9]⟩,
    hasTheoraPacket := true, videoTransform := 4, videoSize0 := 5, videoSize1 := 6 }

/-- A pipe whose connect body declares ten header bytes (31 bytes in all), followed by
the first byte of the next message. -/
def pipeTenHeaders : Pipe :=
  { incoming := [160, 0, 0, 0, 2, 0, 0, 0, 3, 0, 0, 0, 1, 10, 0, 0, 0,
      1, 2, 3, 4, 5, 6, 7, 8, 9, 10, 1, 0, 2, 0, 99],
    outgoing := [] }

/-- A connect request of a client with audio and video. -/
def requestSample : ConnectRequest :=
  { speexFrameSize := 160, speexPacketSize := 2, speexPacketBufferCapacity := 3,
    hasTheora := true, theoraHeaders := [7, 8], videoSize0 := 1, videoSize1 := 2 }

/-- The state of the client that sent the sample request, right after connect. -/
def connectedSample : ClientState :=
  connectState pfSmall indetSample (connectRequestBody pfSmall requestSample)

/-- A client update with two audio packets and a one-byte video packet. -/
def updateSample : ClientUpdate :=
  { packets := [[1, 2], [3, 4]], headPosition := ⟨1, 2, 3⟩, hasNewPacket := 1,
    videoPacket := ⟨[42]⟩, videoTransform := 9 }

/-- The sample client after its first update: two packets committed, a video packet
posted, nothing locked yet. -/
def updatedSample : ClientState :=
  applyClientUpdate connectedSample updateSample

/-- A second update body of the sample client: one audio packet `[5, 6]` and the video
packet 43. -/
def secondUpdatePipe : Pipe :=
  ⟨[1, 0, 5, 6, 4, 0, 5, 0, 6, 0, 1, 1, 0, 0, 0, 43, 8, 0, 0], []⟩

/-- Four updates of the sample client with one, two, no and two audio packets. -/
def updatesSample : List ClientUpdate :=
  [{ packets := [[1, 1]], headPosition := ⟨1, 2, 3⟩, hasNewPacket := 0, videoPacket := ⟨[]⟩,
     videoTransform := 9 },
   { packets := [[2, 2], [3, 3]], headPosition := ⟨1, 2, 3⟩, hasNewPacket := 1,
     videoPacket := ⟨[42]⟩, videoTransform := 9 },
   { packets := [], headPosition := ⟨1, 2, 3⟩, hasNewPacket := 7, videoPacket := ⟨[43, 44]⟩,
     videoTransform := 9 },
   { packets := [[4, 4], [5, 5]], headPosition := ⟨4, 5, 6⟩, hasNewPacket := 0,
     videoPacket := ⟨[45]⟩, videoTransform := 8 }]

/-- A source in the middle of a tick: two packets locked, a video packet locked. -/
def sourceSample : ClientState :=
  { speexFrameSize := 160, speexPacketSize := 2,
    speexPacketBuffer :=
      { segmentSize := 2, maxQueueSize := 3, queue := [[1, 2], [3, 4], [5, 6]],
        writeSegment := [5, 6], locked := true, numLocked := 2 },
    numSpeexPackets := 2, headPosition := ⟨1, 2, 3⟩, hasTheora := true, theoraHeadersSize := 2,
    theoraHeaders := some [7, 8],
    theoraPacketBuffer := { producing := ⟨[]⟩, ready := ⟨[43]⟩, consuming := ⟨[42]⟩, posted := true },
    hasTheoraPacket := true, videoTransform := 9, videoSize0 := 1, videoSize1 := 2 }

/-- A connect request of an audio-only client that asks for a packet buffer of 65536
one-byte packets. -/
def overflowRequest : ConnectRequest :=
  { speexFrameSize := 160, speexPacketSize := 1, speexPacketBufferCapacity := 65536,
    hasTheora := false, theoraHeaders := [], videoSize0 := 0, videoSize1 := 0 }

/-- The state of that client right after connect. -/
def overflowClient : ClientState :=
  connectState pfSmall indetSample (connectRequestBody pfSmall overflowRequest)

/-- A client update of that client with 32768 audio packets. -/
def overflowUpdate : ClientUpdate :=
  { packets := List.replicate 32768 [7], headPosition := ⟨1, 2, 3⟩, hasNewPacket := 0,
    videoPacket := ⟨[]⟩, videoTransform := 0 }

/-- A body for source `S` that carries no video packet: the server-update body with the
video section left out, or with its `hasNewPacket` byte at 0. -/
def NoVideoPacket (pf : Platform) (S : ClientState) (body : List Byte) : Prop :=
  body = audioBatchBytes S ++ headPositionBytes pf S ∨
    body = audioBatchBytes S ++ (headPositionBytes pf S ++ (0 :: videoTransformBytes pf S))

instance instDecidableNoVideoPacket (pf : Platform) (S : ClientState) (body : List Byte) :
    Decidable (NoVideoPacket pf S body) := by
  unfold NoVideoPacket; infer_instance

/-- A connect request of a client with audio and no video. -/
def audioOnlyRequest : ConnectRequest :=
  { speexFrameSize := 160, speexPacketSize := 2, speexPacketBufferCapacity := 3,
    hasTheora := false, theoraHeaders := [], videoSize0 := 0, videoSize1 := 0 }

/-- The state of that client in the middle of a tick, one audio packet locked. -/
def audioOnlySample : ClientState :=
  beforeServerUpdateBody (applyClientUpdate
    (connectState pfSmall indetSample (connectRequestBody pfSmall audioOnlyRequest))
    { packets := [[8, 9]], headPosition := ⟨7, 7, 7⟩, hasNewPacket := 0, videoPacket := ⟨[]⟩,
      videoTransform := 0 })

/-- The sample client with video in the middle of its first tick. -/
def videoSample : ClientState :=
  beforeServerUpdateBody updatedSample

/-- An operation never throws the `Misc::throwStdErr` exception, whatever the state and
the pipe. -/
def Act.NeverStdErr {α : Type} (m : Act α) : Prop :=
  ∀ (w : World) (msg : String), (m w).1 ≠ Except.error (Error.stdErr msg)

/-- One call of a hook on a client's state object, with what the call is handed. -/
inductive Hook where
  | receive (pipe : Pipe)
  | send (dest : ProtocolClientState) (pipe : Pipe)
  | before
  | after
  deriving DecidableEq, Repr

/-- The state object after the call of a hook, whether the hook returns or throws. -/
def Hook.run (pf : Platform) (cs : ProtocolClientState) : Hook → ProtocolClientState
  | Hook.receive pipe => (receiveClientUpdate pf cs pipe).cs
  | Hook.send dest pipe => (sendServerUpdate pf cs dest pipe).cs
  | Hook.before => (beforeServerUpdate cs).2
  | Hook.after => (afterServerUpdate cs).2

/-- The state object after a sequence of hook calls. -/
def runHooks (pf : Platform) (cs : ProtocolClientState) (hooks : List Hook) :
    ProtocolClientState :=
  hooks.foldl (Hook.run pf) cs

/-- The calls that move data: `receiveClientUpdate` and `sendServerUpdate`. -/
def Hook.isTransfer : Hook → Bool
  | Hook.receive _ => true
  | Hook.send _ _ => true
  | Hook.before => false
  | Hook.after => false

/-- A complete tick on one state object: `beforeServerUpdate`, the calls in between,
`afterServerUpdate`. -/
def tick (mid : List Hook) : List Hook :=
  Hook.before :: (mid ++ [Hook.after])

/-- The state object is that of a client with audio, `speexFrameSize > 0`. -/
def ProtocolClientState.audio : ProtocolClientState → Bool
  | ProtocolClientState.agora S => decide (0 < S.speexFrameSize)
  | ProtocolClientState.other _ => false

/-- The packet buffer of the state object is locked. -/
def ProtocolClientState.queueLocked : ProtocolClientState → Bool
  | ProtocolClientState.agora S => S.speexPacketBuffer.locked
  | ProtocolClientState.other _ => false

/-- Along a sequence of hook calls, every `lockQueue` call (made by `beforeServerUpdate`
on a client with audio) finds the queue unlocked and every `unlockQueue` call (made by
`afterServerUpdate` on a client with audio) finds it locked. -/
def lockCallsPaired (pf : Platform) : ProtocolClientState → List Hook → Bool
  | _, [] => true
  | cs, h :: hs =>
    (match h with
      | Hook.before => !(cs.audio && cs.queueLocked)
      | Hook.after => !cs.audio || cs.queueLocked
      | _ => true) && lockCallsPaired pf (h.run pf cs) hs

/-- Two ticks on the sample client: in the first a client update arrives between two
sends, the second has one send. -/
def ticksSample : List (List Hook) :=
  [[Hook.send (ProtocolClientState.other 1) ⟨[], []⟩, Hook.receive secondUpdatePipe,
    Hook.send (ProtocolClientState.other 2) ⟨[], []⟩],
   [Hook.send (ProtocolClientState.other 1) ⟨[], []⟩]]

/-- Wire image of a `Point`: its three scalars. -/
def pointBytes (pf : Platform) (p : Point) : List Byte :=
  wireUInt pf.sizeofScalar p.c0 ++ (wireUInt pf.sizeofScalar p.c1 ++
    wireUInt pf.sizeofScalar p.c2)

/-- The head position of the most recent of the updates `us`, `init` when there is none. -/
def latestHeadPosition (init : Point) (us : List ClientUpdate) : Point :=
  us.foldl (fun _ u => u.headPosition) init

/-- The video transform of the most recent of the updates `us`, `init` when there is
none. -/
def latestVideoTransform (init : Nat) (us : List ClientUpdate) : Nat :=
  us.foldl (fun _ u => u.videoTransform) init

/-- A client update of the sample client that arrives within a tick: one audio packet,
a video packet, the head position (4, 5, 6) and the video transform 8. -/
def headUpdateFirst : ClientUpdate :=
  { packets := [[5, 6]], headPosition := ⟨4, 5, 6⟩, hasNewPacket := 1,
    videoPacket := ⟨[43]⟩, videoTransform := 8 }

/-- A later client update within the same tick: no audio packet, no video packet, the
head position (7, 8, 9) and the video transform 7. -/
def headUpdateLater : ClientUpdate :=
  { packets := [], headPosition := ⟨7, 8, 9⟩, hasNewPacket := 0,
    videoPacket := ⟨[]⟩, videoTransform := 7 }

/-- A connect request of a client with video and without audio. -/
def videoOnlyRequest : ConnectRequest :=
  { speexFrameSize := 0, speexPacketSize := 0, speexPacketBufferCapacity := 0,
    hasTheora := true, theoraHeaders := [7], videoSize0 := 1, videoSize1 := 2 }

/-- The state of that client right after connect. -/
def videoOnlySample : ClientState :=
  connectState pfSmall indetSample (connectRequestBody pfSmall videoOnlyRequest)

/-- A client update of the video-only client arrives, then a tick starts. -/
def videoOnlyHooks : List Hook :=
  [Hook.receive ⟨[1, 1, 0, 0, 0, 42, 9, 0, 0], []⟩, Hook.before]

/-! ## Lemmas on the wire encoding -/

theorem length_encodeLE (n v : Nat) : (encodeLE n v).length = n := by
  induction n generalizing v with
  | zero => rfl
  | succ n ih => simp [encodeLE, ih]

theorem decodeLE_lt (bs : List Byte) : decodeLE bs < 256 ^ bs.length := by
  induction bs with
  | nil => simp [decodeLE]
  | cons b bs ih =>
    have hb := b.isLt
    simp only [decodeLE, List.length_cons, pow_succ]
    omega

theorem decodeLE_encodeLE (n v : Nat) : decodeLE (encodeLE n v) = v % 256 ^ n := by
  induction n generalizing v with
  | zero => simp [encodeLE, decodeLE, Nat.mod_one]
  | succ n ih =>
    simp only [encodeLE, decodeLE, ih, pow_succ]
    rw [Nat.mul_comm (256 ^ n) 256, Nat.mod_mul]

theorem encodeLE_decodeLE (bs : List Byte) : encodeLE bs.length (decodeLE bs) = bs := by
  induction bs with
  | nil => rfl
  | cons b bs ih =>
    have hb := b.isLt
    simp only [List.length_cons, encodeLE, decodeLE]
    congr 1
    · apply Fin.ext; simp [Nat.add_mul_mod_self_left, Nat.mod_eq_of_lt hb]
    · rw [Nat.add_mul_div_left _ _ (by decide : 0 < 256), Nat.div_eq_of_lt hb, Nat.zero_add, ih]

theorem decodeLE_take_lt (n : Nat) (bs : List Byte) : decodeLE (bs.take n) < 256 ^ n :=
  calc decodeLE (bs.take n) < 256 ^ (bs.take n).length := decodeLE_lt _
    _ ≤ 256 ^ n := Nat.pow_le_pow_right (by decide) (by simp)

/-! ## Running operations -/

@[simp] theorem Act.bind_run {α β : Type} (m : Act α) (f : α → Act β) (w : World) :
    (m >>= f) w = match m w with
      | (Except.ok a, w1) => f a w1
      | (Except.error e, w1) => (Except.error e, w1) := rfl

@[simp] theorem Act.pure_run {α : Type} (a : α) (w : World) :
    (pure a : Act α) w = (Except.ok a, w) := rfl

@[simp] theorem Act.modifyCs_run (f : ClientState → ClientState) (w : World) :
    Act.modifyCs f w = (Except.ok (), { w with cs := f w.cs }) := rfl

@[simp] theorem Act.getCs_run (w : World) : Act.getCs w = (Except.ok w.cs, w) := rfl

@[simp] theorem Act.fail_run {α : Type} (e : Error) (w : World) :
    (Act.fail e : Act α) w = (Except.error e, w) := rfl

theorem readBytes_ok (n : Nat) (c : ClientState) (l o : List Byte) (h : n ≤ l.length) :
    readBytes n ⟨c, ⟨l, o⟩⟩ = (Except.ok (l.take n), ⟨c, ⟨l.drop n, o⟩⟩) := by
  simp [readBytes, h]

theorem readBytes_short (n : Nat) (c : ClientState) (l o : List Byte) (h : ¬ n ≤ l.length) :
    readBytes n ⟨c, ⟨l, o⟩⟩ = (Except.error Error.pipeError, ⟨c, ⟨[], o⟩⟩) := by
  simp [readBytes, h]

theorem readUInt_ok (n : Nat) (c : ClientState) (l o : List Byte) (h : n ≤ l.length) :
    readUInt n ⟨c, ⟨l, o⟩⟩ = (Except.ok (decodeLE (l.take n)), ⟨c, ⟨l.drop n, o⟩⟩) := by
  simp [readUInt, readBytes_ok n c l o h]

theorem readUInt_short (n : Nat) (c : ClientState) (l o : List Byte) (h : ¬ n ≤ l.length) :
    readUInt n ⟨c, ⟨l, o⟩⟩ = (Except.error Error.pipeError, ⟨c, ⟨[], o⟩⟩) := by
  simp [readUInt, readBytes_short n c l o h]

/-! ## The connect request -/

/-- On a stream that holds a whole connect body, the reads of `receiveConnectRequest`
consume exactly that body, count its length and leave the state its fields describe. -/
theorem receiveConnectRequestRead_ok (pf : Platform) (indet : ClientState) (l o : List Byte)
    (hsc : pf.sizeofScalar < 2 ^ 32) (h : connectRequestLength pf l ≤ l.length) :
    receiveConnectRequestRead pf ⟨ClientState.new indet, ⟨l, o⟩⟩ =
      (Except.ok (connectRequestLength pf l),
        ⟨connectState pf indet l, ⟨l.drop (connectRequestLength pf l), o⟩⟩) := by
  unfold connectRequestLength at *
  have hl : decodeLE ((l.drop 13).take 4) < 2 ^ 32 := decodeLE_take_lt 4 _
  split at h
  · rename_i hf
    have h1 : 4 ≤ l.length := by omega
    have h2 : 4 ≤ l.length - 4 := by omega
    have h3 : 4 ≤ l.length - 8 := by omega
    have h4 : 1 ≤ l.length - 12 := by omega
    simp [receiveConnectRequestRead, readUInt_ok, h1, h2, h3, h4, hf, sizeTBits, connectState,
      ClientState.new, DropoutBuffer.resize]
  · rename_i hf
    have h1 : 4 ≤ l.length := by omega
    have h2 : 4 ≤ l.length - 4 := by omega
    have h3 : 4 ≤ l.length - 8 := by omega
    have h4 : 1 ≤ l.length - 12 := by omega
    have h5 : 4 ≤ l.length - 13 := by omega
    have h6 : decodeLE ((l.drop 13).take 4) ≤ l.length - 17 := by omega
    have h7 : pf.sizeofScalar ≤ l.length - (17 + decodeLE ((l.drop 13).take 4)) := by omega
    have h8 : pf.sizeofScalar ≤
        l.length - (17 + decodeLE ((l.drop 13).take 4) + pf.sizeofScalar) := by omega
    simp [receiveConnectRequestRead, readUInt_ok, readBytes_ok, readScalar, h1, h2, h3, h4, h5,
      h6, h7, h8, hf, sizeTBits, connectState, ClientState.new, DropoutBuffer.resize]
    refine ⟨?_, ?_⟩
    · rw [Nat.mod_eq_of_lt (by omega)]; omega
    · congr 1; omega

/-- On a stream that ends inside the connect body, a read of `receiveConnectRequest`
throws. -/
theorem receiveConnectRequestRead_short (pf : Platform) (c : ClientState) (l o : List Byte)
    (h : ¬ connectRequestLength pf l ≤ l.length) :
    (receiveConnectRequestRead pf ⟨c, ⟨l, o⟩⟩).1 = Except.error Error.pipeError := by
  unfold connectRequestLength at h
  by_cases h1 : 4 ≤ l.length
  swap
  · simp [receiveConnectRequestRead, readUInt_short, h1]
  by_cases h2 : 4 ≤ l.length - 4
  swap
  · simp [receiveConnectRequestRead, readUInt_ok, readUInt_short, h1, h2]
  by_cases h3 : 4 ≤ l.length - 8
  swap
  · simp [receiveConnectRequestRead, readUInt_ok, readUInt_short, h1, h2, h3]
  by_cases h4 : 1 ≤ l.length - 12
  swap
  · simp [receiveConnectRequestRead, readUInt_ok, readUInt_short, h1, h2, h3, h4]
  by_cases hf : decodeLE ((l.drop 12).take 1) = 0
  · rw [if_pos hf] at h; omega
  rw [if_neg hf] at h
  by_cases h5 : 4 ≤ l.length - 13
  swap
  · simp [receiveConnectRequestRead, readUInt_ok, readUInt_short, h1, h2, h3, h4, h5, hf]
  by_cases h6 : decodeLE ((l.drop 13).take 4) ≤ l.length - 17
  swap
  · simp [receiveConnectRequestRead, readUInt_ok, readUInt_short, readBytes_short, h1, h2, h3, h4, h5, h6, hf]
  by_cases h7 : pf.sizeofScalar ≤ l.length - (17 + decodeLE ((l.drop 13).take 4))
  swap
  · simp [receiveConnectRequestRead, readUInt_ok, readUInt_short, readBytes_ok, readScalar, h1, h2, h3, h4, h5, h6, h7, hf]
  have h8 : ¬ pf.sizeofScalar ≤
        l.length - (17 + decodeLE ((l.drop 13).take 4) + pf.sizeofScalar) := by omega
  simp [receiveConnectRequestRead, readUInt_ok, readUInt_short, readBytes_ok, readScalar, h1, h2, h3, h4, h5, h6, h7, h8, hf]

/-- The result of `receiveConnectRequest` on a stream that holds a whole connect body. -/
theorem receiveConnectRequest_eq (pf : Platform) (indet : ClientState) (len : Nat) (pipe : Pipe)
    (hsc : pf.sizeofScalar < 2 ^ 32)
    (h : connectRequestLength pf pipe.incoming ≤ pipe.incoming.length) :
    receiveConnectRequest pf indet len pipe =
      (if len ≠ connectRequestLength pf pipe.incoming then Except.ok none
        else Except.ok (some (connectState pf indet pipe.incoming)),
       { pipe with incoming := pipe.incoming.drop (connectRequestLength pf pipe.incoming) }) := by
  obtain ⟨l, o⟩ := pipe
  simp only [receiveConnectRequest, receiveConnectRequestRead_ok pf indet l o hsc h]
  split <;> rfl

/-- No state is returned when the stream ends inside the connect body. -/
theorem receiveConnectRequest_short (pf : Platform) (indet : ClientState) (len : Nat) (pipe : Pipe)
    (h : ¬ connectRequestLength pf pipe.incoming ≤ pipe.incoming.length) :
    (receiveConnectRequest pf indet len pipe).1 = Except.error Error.pipeError := by
  obtain ⟨l, o⟩ := pipe
  have := receiveConnectRequestRead_short pf (ClientState.new indet) l o h
  unfold receiveConnectRequest
  split
  · rename_i heq; rw [heq] at this; cases this
  · rename_i heq; rw [heq] at this; simpa using this

/-- C1: on every pipe that supplies the bytes the connect body declares, and for every
`protocolMessageLength`, `receiveConnectRequest` consumes exactly
`connectRequestLength` bytes (13 when the `hasTheora` byte is 0, and
`17 + theoraHeadersLen + 2 * sizeof(Scalar)` otherwise), returns a client state if and
only if `protocolMessageLength` equals that number, and returns null in every other
case. -/
theorem receiveConnectRequest_length_check (pf : Platform) (indet : ClientState) (len : Nat)
    (pipe : Pipe) (hsc : pf.sizeofScalar < 2 ^ 32)
    (havail : connectRequestLength pf pipe.incoming ≤ pipe.incoming.length) :
    (receiveConnectRequest pf indet len pipe).2 =
        { pipe with incoming := pipe.incoming.drop (connectRequestLength pf pipe.incoming) } ∧
      ((∃ cs, (receiveConnectRequest pf indet len pipe).1 = Except.ok (some cs)) ↔
        len = connectRequestLength pf pipe.incoming) ∧
      (len ≠ connectRequestLength pf pipe.incoming →
        (receiveConnectRequest pf indet len pipe).1 = Except.ok none) := by
  rw [receiveConnectRequest_eq pf indet len pipe hsc havail]
  refine ⟨rfl, ?_, ?_⟩
  · by_cases hl : len = connectRequestLength pf pipe.incoming <;> simp [hl]
  · intro hl; simp [hl]

/-- Instance of C1: a body that declares ten header bytes is 31 bytes long; announced
with a message length of 30, which accounts for nine of them, it is rejected. -/
theorem receiveConnectRequest_length_check_witness :
    pfSmall.sizeofScalar < 2 ^ 32 ∧
      connectRequestLength pfSmall pipeTenHeaders.incoming ≤ pipeTenHeaders.incoming.length ∧
      connectRequestLength pfSmall pipeTenHeaders.incoming = 31 ∧
      (receiveConnectRequest pfSmall indetSample 30 pipeTenHeaders).1 = Except.ok none :=
  ⟨by decide, by decide, by decide,
    (receiveConnectRequest_length_check pfSmall indetSample 30 pipeTenHeaders (by decide)
      (by decide)).2.2 (by decide)⟩

theorem readBytes_append (n : Nat) (c : ClientState) (bs rest o : List Byte)
    (h : bs.length = n) :
    readBytes n ⟨c, ⟨bs ++ rest, o⟩⟩ = (Except.ok bs, ⟨c, ⟨rest, o⟩⟩) := by
  subst h
  simp [readBytes]

theorem readUInt_encodeLE (n v : Nat) (c : ClientState) (rest o : List Byte) :
    readUInt n ⟨c, ⟨encodeLE n v ++ rest, o⟩⟩ = (Except.ok (v % 256 ^ n), ⟨c, ⟨rest, o⟩⟩) := by
  simp [readUInt, readBytes_append n c _ rest o (length_encodeLE n v), decodeLE_encodeLE]

theorem readUInt_one (b : Byte) (c : ClientState) (rest o : List Byte) :
    readUInt 1 ⟨c, ⟨b :: rest, o⟩⟩ = (Except.ok b.val, ⟨c, ⟨rest, o⟩⟩) := by
  simp [readUInt, readBytes, decodeLE]

/-- C2: a connect body laid out from the values of a request and passed with its true
length is accepted, nothing but the body is consumed, and the returned client state
holds `speexFrameSize`, `speexPacketSize`, `hasTheora` and, when `hasTheora` is set,
the headers size, the headers bytes and both `videoSize` scalars of the request; its
packet buffer has segment size `speexPacketSize` and the capacity the request asks
for, whatever that is. -/
theorem receiveConnectRequest_roundtrip (pf : Platform) (indet : ClientState)
    (r : ConnectRequest) (rest o : List Byte)
    (hv : r.Valid pf) (hlen : (connectRequestBody pf r).length < 2 ^ 32) :
    ∃ S, receiveConnectRequest pf indet (connectRequestBody pf r).length
          ⟨connectRequestBody pf r ++ rest, o⟩ = (Except.ok (some S), ⟨rest, o⟩) ∧
      S.speexFrameSize = r.speexFrameSize ∧ S.speexPacketSize = r.speexPacketSize ∧
      S.hasTheora = r.hasTheora ∧
      (r.hasTheora = true → S.theoraHeadersSize = r.theoraHeaders.length ∧
        S.theoraHeaders = some r.theoraHeaders ∧
        S.videoSize0 = r.videoSize0 ∧ S.videoSize1 = r.videoSize1) ∧
      S.speexPacketBuffer.segmentSize = r.speexPacketSize ∧
      S.speexPacketBuffer.maxQueueSize = r.speexPacketBufferCapacity := by
  obtain ⟨h1, h2, h3, h4⟩ := hv
  have e1 : r.speexFrameSize % 4294967296 = r.speexFrameSize := Nat.mod_eq_of_lt h1
  have e2 : r.speexPacketSize % 4294967296 = r.speexPacketSize := Nat.mod_eq_of_lt h2
  have e3 : r.speexPacketBufferCapacity % 4294967296 = r.speexPacketBufferCapacity :=
    Nat.mod_eq_of_lt h3
  cases hT : r.hasTheora
  · simp [connectRequestBody, hT, length_encodeLE, receiveConnectRequest,
      receiveConnectRequestRead, readUInt_encodeLE, readUInt_one, e1, e2, e3, sizeTBits,
      DropoutBuffer.resize, DropoutBuffer.new]
  · obtain ⟨h5, h6, h7⟩ := h4 hT
    have e4 : r.theoraHeaders.length % 4294967296 = r.theoraHeaders.length := Nat.mod_eq_of_lt h5
    simp only [connectRequestBody, hT, length_encodeLE, if_true, List.length_append,
      List.length_cons] at hlen
    have e5 : (17 + r.theoraHeaders.length + pf.sizeofScalar * 2) % 18446744073709551616 =
        17 + r.theoraHeaders.length + pf.sizeofScalar * 2 := Nat.mod_eq_of_lt (by omega)
    simp [connectRequestBody, hT, length_encodeLE, receiveConnectRequest,
      receiveConnectRequestRead, readUInt_encodeLE, readUInt_one, readBytes_append, readScalar,
      e1, e2, e3, e4, e5, sizeTBits, DropoutBuffer.resize, DropoutBuffer.new,
      Nat.mod_eq_of_lt h6, Nat.mod_eq_of_lt h7]
    rw [if_pos (by omega)]
    exact ⟨_, rfl, rfl, rfl, rfl, ⟨rfl, rfl, rfl, rfl⟩, rfl, rfl⟩

/-- Instance of C2: the sample request, followed on the pipe by one more byte. -/
theorem receiveConnectRequest_roundtrip_witness :
    requestSample.Valid pfSmall ∧ (connectRequestBody pfSmall requestSample).length < 2 ^ 32 ∧
      ∃ S, receiveConnectRequest pfSmall indetSample (connectRequestBody pfSmall requestSample).length
          ⟨connectRequestBody pfSmall requestSample ++ [99], []⟩ =
            (Except.ok (some S), ⟨[99], []⟩) ∧
        S.speexFrameSize = requestSample.speexFrameSize ∧
        S.speexPacketSize = requestSample.speexPacketSize ∧
        S.hasTheora = requestSample.hasTheora ∧
        (requestSample.hasTheora = true →
          S.theoraHeadersSize = requestSample.theoraHeaders.length ∧
          S.theoraHeaders = some requestSample.theoraHeaders ∧
          S.videoSize0 = requestSample.videoSize0 ∧ S.videoSize1 = requestSample.videoSize1) ∧
        S.speexPacketBuffer.segmentSize = requestSample.speexPacketSize ∧
        S.speexPacketBuffer.maxQueueSize = requestSample.speexPacketBufferCapacity :=
  ⟨by decide, by decide,
    receiveConnectRequest_roundtrip pfSmall indetSample requestSample [99] [] (by decide)
      (by decide)⟩

/-! ## The connect forward -/

theorem two_pow_eight_mul (n : Nat) : 2 ^ (8 * n) = 256 ^ n := by
  rw [pow_mul]; norm_num

theorem encodeLE_decodeLE_take (n : Nat) (l : List Byte) (h : n ≤ l.length) :
    encodeLE n (decodeLE (l.take n) % 2 ^ (8 * n)) = l.take n := by
  rw [two_pow_eight_mul, Nat.mod_eq_of_lt (decodeLE_take_lt n l)]
  have hlen : (l.take n).length = n := by simp [h]
  have := encodeLE_decodeLE (l.take n)
  rwa [hlen] at this

@[simp] theorem writeBytes_run (bs : List Byte) (c : ClientState) (l o : List Byte) :
    writeBytes bs ⟨c, ⟨l, o⟩⟩ = (Except.ok (), ⟨c, ⟨l, o ++ bs⟩⟩) := rfl

theorem writeUInt_run (n v : Nat) (c : ClientState) (l o : List Byte) :
    writeUInt n v ⟨c, ⟨l, o⟩⟩ = (Except.ok (), ⟨c, ⟨l, o ++ encodeLE n (v % 2 ^ (8 * n))⟩⟩) := rfl

theorem writeBlock_ok (mem : List Byte) (n : Nat) (c : ClientState) (l o : List Byte)
    (h : n ≤ mem.length) :
    writeBlock mem n ⟨c, ⟨l, o⟩⟩ = (Except.ok (), ⟨c, ⟨l, o ++ mem.take n⟩⟩) := by
  simp [writeBlock, h]

/-- C3: for every client state `S` that a successful `receiveConnectRequest` returns on a
stream `B`, and every destination, `sendClientConnect` appends to the pipe exactly the
connect-forward body of `B`: the bytes of `speexFrameSize` and `speexPacketSize`, the
flag byte as 0 or 1, and when the flag is set the headers length, the whole headers blob
and the two `videoSize` scalars of `B`; nothing follows a clear flag.  The state is left
as it was. -/
theorem sendClientConnect_forwards (pf : Platform) (indet : ClientState) (len : Nat)
    (pin pin1 : Pipe) (S : ClientState) (dest : ProtocolClientState) (out : Pipe)
    (hsc : pf.sizeofScalar < 2 ^ 32)
    (h : receiveConnectRequest pf indet len pin = (Except.ok (some S), pin1)) :
    sendClientConnect pf (ProtocolClientState.agora S) dest out =
      { result := Except.ok (), cs := ProtocolClientState.agora S,
        pipe := { out with outgoing := out.outgoing ++ connectForwardBody pf pin.incoming } } := by
  by_cases havail : connectRequestLength pf pin.incoming ≤ pin.incoming.length
  swap
  · have := receiveConnectRequest_short pf indet len pin havail
    rw [h] at this
    cases this
  rw [receiveConnectRequest_eq pf indet len pin hsc havail] at h
  by_cases hlen : len = connectRequestLength pf pin.incoming
  swap
  · simp [hlen] at h
  simp only [hlen, ne_eq, not_true_eq_false, if_false, Prod.mk.injEq, Except.ok.injEq,
    Option.some.injEq] at h
  obtain ⟨hS, -⟩ := h
  subst hS
  obtain ⟨l, o1⟩ := pin
  obtain ⟨ol, oo⟩ := out
  simp only at havail
  unfold connectRequestLength at havail
  have hl : decodeLE ((l.drop 13).take 4) < 2 ^ 32 := decodeLE_take_lt 4 _
  have e0 : encodeLE 1 (0 % 2 ^ (8 * 1)) = [0] := rfl
  have e1 : encodeLE 1 (1 % 2 ^ (8 * 1)) = [1] := rfl
  by_cases hf : decodeLE ((l.drop 12).take 1) = 0
  · rw [if_pos hf] at havail
    have h1 := encodeLE_decodeLE_take 4 l (by omega)
    have h2 := encodeLE_decodeLE_take 4 (l.drop 4) (by simp; omega)
    simp only [sendClientConnect, withAgoraState, sendClientConnectBody, connectState, hf,
      writeUInt_run, connectForwardBody, Act.bind_run, Act.getCs_run, if_true, h1, h2, e0,
      ne_eq, not_true_eq_false, decide_False, Bool.false_eq_true, if_false,
      List.append_assoc]
  · rw [if_neg hf] at havail
    have h1 := encodeLE_decodeLE_take 4 l (by omega)
    have h2 := encodeLE_decodeLE_take 4 (l.drop 4) (by simp; omega)
    have h3 := encodeLE_decodeLE_take 4 (l.drop 13) (by simp; omega)
    have h4 := encodeLE_decodeLE_take pf.sizeofScalar
      (l.drop (17 + decodeLE ((l.drop 13).take 4))) (by simp; omega)
    have h5 := encodeLE_decodeLE_take pf.sizeofScalar
      (l.drop (17 + decodeLE ((l.drop 13).take 4) + pf.sizeofScalar)) (by simp; omega)
    have h6 : decodeLE ((l.drop 13).take 4) ≤
        ((l.drop 17).take (decodeLE ((l.drop 13).take 4))).length := by simp; omega
    simp only [sendClientConnect, withAgoraState, sendClientConnectBody, connectState, hf,
      writeUInt_run, writeBlock_ok _ _ _ _ _ h6, writeScalar, connectForwardBody, Act.bind_run,
      Act.getCs_run, if_true, h1, h2, h3, h4, h5, e1, ne_eq, not_false_eq_true, decide_True,
      if_false, List.append_assoc, List.take_take, Nat.min_self, Option.getD_some,
      List.singleton_append, List.cons_append, List.nil_append]

/-- Instance of C3: the state parsed from the sample request is forwarded as
frame size 160, packet size 2, flag 1, two header bytes 7 and 8 and the two scalars. -/
theorem sendClientConnect_forwards_witness :
    pfSmall.sizeofScalar < 2 ^ 32 ∧
      ∃ S, receiveConnectRequest pfSmall indetSample 23
            ⟨connectRequestBody pfSmall requestSample, []⟩ = (Except.ok (some S), ⟨[], []⟩) ∧
        sendClientConnect pfSmall (ProtocolClientState.agora S) (ProtocolClientState.other 0)
            ⟨[], []⟩ =
          { result := Except.ok (), cs := ProtocolClientState.agora S,
            pipe := ⟨[], [160, 0, 0, 0, 2, 0, 0, 0, 1, 2, 0, 0, 0, 7, 8, 1, 0, 2, 0]⟩ } :=
  ⟨by decide, connectState pfSmall indetSample (connectRequestBody pfSmall requestSample),
    by decide,
    sendClientConnect_forwards pfSmall indetSample 23
      ⟨connectRequestBody pfSmall requestSample, []⟩ ⟨[], []⟩ _ (ProtocolClientState.other 0)
      ⟨[], []⟩ (by decide) (by decide)⟩

/-! ## The server update -/

/-- The loop over the locked packets writes, for `count` iterations from index `i`, the
first `speexPacketSize` bytes of the segments `i .. i + count - 1` of the queue. -/
theorem writeSpeexPackets_run (S c : ClientState) (l : List Byte) :
    ∀ (count i : Nat) (o : List Byte),
      i + count ≤ S.speexPacketBuffer.numLocked →
      S.speexPacketBuffer.numLocked ≤ S.speexPacketBuffer.queue.length →
      (∀ s ∈ (S.speexPacketBuffer.queue.drop i).take count, S.speexPacketSize ≤ s.length) →
      writeSpeexPackets S i count ⟨c, ⟨l, o⟩⟩ =
        (Except.ok (), ⟨c, ⟨l, o ++ (((S.speexPacketBuffer.queue.drop i).take count).map
          fun s => s.take S.speexPacketSize).flatten⟩⟩)
  | 0, i, o, _, _, _ => by simp [writeSpeexPackets]
  | count + 1, i, o, h1, h2, h3 => by
    have hi : i < S.speexPacketBuffer.queue.length := by omega
    have hcons : (S.speexPacketBuffer.queue.drop i).take (count + 1) =
        S.speexPacketBuffer.queue[i] :: (S.speexPacketBuffer.queue.drop (i + 1)).take count := by
      rw [List.drop_eq_getElem_cons hi, List.take_succ_cons]
    have hseg : S.speexPacketBuffer.getLockedSegment i = some S.speexPacketBuffer.queue[i] := by
      simp [DropoutBuffer.getLockedSegment, hi, show i < S.speexPacketBuffer.numLocked by omega]
    have hlen : S.speexPacketSize ≤ S.speexPacketBuffer.queue[i].length :=
      h3 _ (by rw [hcons]; exact List.mem_cons_self _ _)
    have ih := writeSpeexPackets_run S c l count (i + 1)
      (o ++ S.speexPacketBuffer.queue[i].take S.speexPacketSize) (by omega) h2
      (fun s hs => h3 s (by rw [hcons]; exact List.mem_cons_of_mem _ hs))
    simp only [writeSpeexPackets, Act.bind_run, hseg, writeBlock_ok _ _ _ _ _ hlen, ih, hcons,
      List.map_cons, List.flatten_cons, List.append_assoc]

/-- What `sendServerUpdate` does on an Agora source whose batch is locked. -/
theorem sendServerUpdateBody_run (pf : Platform) (S : ClientState) (l o : List Byte)
    (hb : 0 < S.speexFrameSize → S.BatchLocked) :
    sendServerUpdateBody pf ⟨S, ⟨l, o⟩⟩ = (Except.ok (), ⟨S, ⟨l, o ++ serverUpdateBody pf S⟩⟩) := by
  have e0 : encodeLE 1 0 = [0] := rfl
  have e1 : encodeLE 1 1 = [1] := rfl
  by_cases hF : 0 < S.speexFrameSize
  · obtain ⟨h1, h2, h3⟩ := hb hF
    have hw := fun o => writeSpeexPackets_run S S l S.numSpeexPackets 0 o (by omega) h2
      (by simpa using h3)
    cases hT : S.hasTheora <;> cases hP : S.hasTheoraPacket <;>
      simp [sendServerUpdateBody, serverUpdateBody, audioBatchBytes, headPositionBytes,
        videoPacketBytes, videoTransformBytes, lockedPackets, wireUInt, hF, hT, hP, hw,
        writeUInt_run, writeScalar, writeTrackerState, VideoPacket.write, e0, e1]
  · cases hT : S.hasTheora <;> cases hP : S.hasTheoraPacket <;>
      simp [sendServerUpdateBody, serverUpdateBody, audioBatchBytes, headPositionBytes,
        videoPacketBytes, videoTransformBytes, wireUInt, hF, hT, hP,
        writeUInt_run, writeTrackerState, VideoPacket.write, e0, e1]

/-- The whole of `sendServerUpdate` on an Agora source whose batch is locked. -/
theorem sendServerUpdate_run (pf : Platform) (S : ClientState) (dest : ProtocolClientState)
    (pipe : Pipe) (hb : 0 < S.speexFrameSize → S.BatchLocked) :
    sendServerUpdate pf (ProtocolClientState.agora S) dest pipe =
      { result := Except.ok (), cs := ProtocolClientState.agora S,
        pipe := { pipe with outgoing := pipe.outgoing ++ serverUpdateBody pf S } } := by
  obtain ⟨l, o⟩ := pipe
  simp only [sendServerUpdate, withAgoraState, sendServerUpdateBody_run pf S l o hb]

/-! ## The client update -/

/-- The loop over the received packets commits them in wire order. -/
theorem readSpeexPackets_run (rest o : List Byte) :
    ∀ (packets : List Segment) (c : ClientState),
      (∀ p ∈ packets, p.length = c.speexPacketSize) →
      readSpeexPackets packets.length ⟨c, ⟨packets.flatten ++ rest, o⟩⟩ =
        (Except.ok (), ⟨{ c with speexPacketBuffer := pushPackets c.speexPacketBuffer packets },
          ⟨rest, o⟩⟩)
  | [], c, _ => by simp [readSpeexPackets, pushPackets]
  | p :: ps, c, h => by
    have hp : p.length = c.speexPacketSize := h p (List.mem_cons_self _ _)
    have ih := readSpeexPackets_run rest o ps
      { c with speexPacketBuffer := (c.speexPacketBuffer.setWriteSegment p).pushSegment }
      (fun q hq => h q (List.mem_cons_of_mem _ hq))
    simp only [List.length_cons, readSpeexPackets, Act.bind_run, Act.getCs_run,
      List.flatten_cons, List.append_assoc, readBytes_append _ _ _ _ _ hp, Act.modifyCs_run, ih,
      pushPackets, List.foldl_cons]

/-- What `receiveClientUpdate` does on an Agora state and a pipe that starts with a
client-update body. -/
theorem receiveClientUpdateBody_run (pf : Platform) (S : ClientState) (u : ClientUpdate)
    (rest o : List Byte) (hv : u.Valid pf S) :
    receiveClientUpdateBody pf ⟨S, ⟨clientUpdateBody pf S u ++ rest, o⟩⟩ =
      (Except.ok (), ⟨applyClientUpdate S u, ⟨rest, o⟩⟩) := by
  obtain ⟨hA, hV⟩ := hv
  by_cases hF : 0 < S.speexFrameSize
  · obtain ⟨h1, h2, h3, h4, h5⟩ := hA hF
    have e1 : u.packets.length % 65536 = u.packets.length := Nat.mod_eq_of_lt h1
    have hr := fun r => readSpeexPackets_run r o u.packets S h2
    cases hT : S.hasTheora
    · simp [receiveClientUpdateBody, clientUpdateBody, applyClientUpdate, hF, hT,
        readUInt_encodeLE, readScalar, e1, hr, Nat.mod_eq_of_lt h3, Nat.mod_eq_of_lt h4,
        Nat.mod_eq_of_lt h5]
    · obtain ⟨h6, h7⟩ := hV hT
      have e2 : u.videoPacket.data.length % 4294967296 = u.videoPacket.data.length :=
        Nat.mod_eq_of_lt h6
      by_cases hN : u.hasNewPacket = 0
      · simp [receiveClientUpdateBody, clientUpdateBody, applyClientUpdate, hF, hT, hN,
          readUInt_encodeLE, readUInt_one, readScalar, readTrackerState, e1, hr,
          Nat.mod_eq_of_lt h3, Nat.mod_eq_of_lt h4, Nat.mod_eq_of_lt h5, Nat.mod_eq_of_lt h7]
      · have hN2 : ¬ u.hasNewPacket.val = 0 := fun h => hN (Fin.ext h)
        simp [receiveClientUpdateBody, clientUpdateBody, applyClientUpdate, hF, hT, hN, hN2,
          readUInt_encodeLE, readUInt_one, readScalar, readTrackerState, VideoPacket.read,
          readBytes_append, e1, e2, hr,
          Nat.mod_eq_of_lt h3, Nat.mod_eq_of_lt h4, Nat.mod_eq_of_lt h5, Nat.mod_eq_of_lt h7]
  · cases hT : S.hasTheora
    · simp [receiveClientUpdateBody, clientUpdateBody, applyClientUpdate, hF, hT]
    · obtain ⟨h6, h7⟩ := hV hT
      have e2 : u.videoPacket.data.length % 4294967296 = u.videoPacket.data.length :=
        Nat.mod_eq_of_lt h6
      by_cases hN : u.hasNewPacket = 0
      · simp [receiveClientUpdateBody, clientUpdateBody, applyClientUpdate, hF, hT, hN,
          readUInt_encodeLE, readUInt_one, readTrackerState, Nat.mod_eq_of_lt h7]
      · have hN2 : ¬ u.hasNewPacket.val = 0 := fun h => hN (Fin.ext h)
        simp [receiveClientUpdateBody, clientUpdateBody, applyClientUpdate, hF, hT, hN, hN2,
          readUInt_encodeLE, readUInt_one, readTrackerState, VideoPacket.read,
          readBytes_append, e2, Nat.mod_eq_of_lt h7]

/-- C7: for every client state, `receiveClientUpdate` consumes exactly the client-update
body that the state's `speexFrameSize` and `hasTheora` call for, and what follows it on
the pipe stays there: with `speexFrameSize > 0` the `u16` count, that many packets of
`speexPacketSize` bytes, each committed in wire order, and the three head-position
scalars; with `hasTheora` the flag byte, the video packet only when the flag is non-zero,
posted to the triple buffer, and the tracker state stored as the video transform.  With
`speexFrameSize = 0` and no video it reads nothing and changes nothing. -/
theorem receiveClientUpdate_consumes_body (pf : Platform) (S : ClientState) (u : ClientUpdate)
    (rest o : List Byte) (hv : u.Valid pf S) :
    receiveClientUpdate pf (ProtocolClientState.agora S) ⟨clientUpdateBody pf S u ++ rest, o⟩ =
        { result := Except.ok (), cs := ProtocolClientState.agora (applyClientUpdate S u),
          pipe := ⟨rest, o⟩ } ∧
      (S.speexFrameSize = 0 → S.hasTheora = false → ∀ pipe : Pipe,
        receiveClientUpdate pf (ProtocolClientState.agora S) pipe =
          { result := Except.ok (), cs := ProtocolClientState.agora S, pipe := pipe }) := by
  refine ⟨?_, ?_⟩
  · simp only [receiveClientUpdate, withAgoraState, receiveClientUpdateBody_run pf S u rest o hv]
  · intro hF hT pipe
    simp [receiveClientUpdate, withAgoraState, receiveClientUpdateBody, hF, hT]

/-- Instance of C7: the sample update received by the sample client; the byte 77 that
follows the body stays on the pipe. -/
theorem receiveClientUpdate_consumes_body_witness :
    updateSample.Valid pfSmall connectedSample ∧
      receiveClientUpdate pfSmall (ProtocolClientState.agora connectedSample)
          ⟨[2, 0, 1, 2, 3, 4, 1, 0, 2, 0, 3, 0, 1, 1, 0, 0, 0, 42, 9, 0, 0] ++ [77], []⟩ =
        { result := Except.ok (),
          cs := ProtocolClientState.agora (applyClientUpdate connectedSample updateSample),
          pipe := ⟨[77], []⟩ } :=
  ⟨by decide,
    (receiveClientUpdate_consumes_body pfSmall connectedSample updateSample [77] []
      (by decide)).1⟩

/-! ## Properties kept by the operations -/

theorem Act.keeps_bind {α β : Type} {P : ClientState → Prop} {m : Act α} {f : α → Act β}
    (hm : Act.Keeps P m) (hf : ∀ a, Act.Keeps P (f a)) : Act.Keeps P (m >>= f) := by
  intro w hw
  have h1 := hm w hw
  rw [Act.bind_run]
  match hmw : m w with
  | (Except.ok a, w1) =>
    rw [hmw] at h1
    exact hf a w1 h1
  | (Except.error e, w1) =>
    rw [hmw] at h1
    exact h1

theorem Act.keeps_pure {α : Type} {P : ClientState → Prop} (a : α) :
    Act.Keeps P (pure a : Act α) := fun _ hw => hw

theorem Act.keeps_fail {α : Type} {P : ClientState → Prop} (e : Error) :
    Act.Keeps P (Act.fail e : Act α) := fun _ hw => hw

theorem Act.keeps_getCs {P : ClientState → Prop} : Act.Keeps P Act.getCs := fun _ hw => hw

theorem Act.keeps_modifyCs {P : ClientState → Prop} {f : ClientState → ClientState}
    (hf : ∀ c, P c → P (f c)) : Act.Keeps P (Act.modifyCs f) := fun w hw => hf w.cs hw

theorem Act.keeps_ite {α : Type} {P : ClientState → Prop} (c : Prop) [Decidable c]
    {m1 m2 : Act α} (h1 : Act.Keeps P m1) (h2 : Act.Keeps P m2) :
    Act.Keeps P (if c then m1 else m2) := by
  split
  · exact h1
  · exact h2

theorem keeps_readBytes {P : ClientState → Prop} (n : Nat) : Act.Keeps P (readBytes n) := by
  intro w hw
  unfold readBytes
  split <;> exact hw

theorem keeps_readUInt {P : ClientState → Prop} (n : Nat) : Act.Keeps P (readUInt n) :=
  Act.keeps_bind (keeps_readBytes n) (fun _ => Act.keeps_pure _)

theorem keeps_writeBytes {P : ClientState → Prop} (bs : List Byte) :
    Act.Keeps P (writeBytes bs) := fun _ hw => hw

theorem keeps_writeBlock {P : ClientState → Prop} (mem : List Byte) (n : Nat) :
    Act.Keeps P (writeBlock mem n) := by
  unfold writeBlock
  exact Act.keeps_ite _ (keeps_writeBytes _) (Act.keeps_fail _)

theorem keeps_videoPacketRead {P : ClientState → Prop} : Act.Keeps P VideoPacket.read :=
  Act.keeps_bind (keeps_readUInt 4)
    (fun _ => Act.keeps_bind (keeps_readBytes _) (fun _ => Act.keeps_pure _))

/-- The packet loop of `receiveClientUpdate` keeps every property that committing a
packet keeps. -/
theorem keeps_readSpeexPackets {P : ClientState → Prop}
    (hpush : ∀ (c : ClientState) (p : Segment), P c →
      P { c with speexPacketBuffer := (c.speexPacketBuffer.setWriteSegment p).pushSegment }) :
    ∀ n, Act.Keeps P (readSpeexPackets n)
  | 0 => Act.keeps_pure _
  | n + 1 =>
    Act.keeps_bind Act.keeps_getCs (fun _ =>
      Act.keeps_bind (keeps_readBytes _) (fun p =>
        Act.keeps_bind (Act.keeps_modifyCs (fun c hc => hpush c p hc)) (fun _ =>
          keeps_readSpeexPackets hpush n)))

/-- `receiveClientUpdate` keeps every property of the client state that is kept by
committing a packet, storing a head position, posting a video packet and storing a video
transform. -/
theorem keeps_receiveClientUpdateBody (pf : Platform) {P : ClientState → Prop}
    (hpush : ∀ (c : ClientState) (p : Segment), P c →
      P { c with speexPacketBuffer := (c.speexPacketBuffer.setWriteSegment p).pushSegment })
    (hhead : ∀ (c : ClientState) (h : Point), P c → P { c with headPosition := h })
    (hpost : ∀ (c : ClientState) (v : VideoPacket), P c →
      P { c with theoraPacketBuffer := (c.theoraPacketBuffer.setNewValue v).postNewValue })
    (htrans : ∀ (c : ClientState) (t : Nat), P c → P { c with videoTransform := t }) :
    Act.Keeps P (receiveClientUpdateBody pf) := by
  unfold receiveClientUpdateBody
  dsimp only
  repeat' (first
    | exact Act.keeps_getCs
    | exact Act.keeps_pure _
    | exact keeps_readUInt _
    | exact keeps_videoPacketRead
    | exact keeps_readSpeexPackets hpush _
    | exact Act.keeps_modifyCs (fun c hc => hhead c _ hc)
    | exact Act.keeps_modifyCs (fun c hc => hpost c _ hc)
    | exact Act.keeps_modifyCs (fun c hc => htrans c _ hc)
    | apply Act.keeps_bind
    | apply Act.keeps_ite
    | intro _)

theorem keeps_writeUInt {P : ClientState → Prop} (n v : Nat) : Act.Keeps P (writeUInt n v) :=
  fun _ hw => hw

theorem keeps_writeSpeexPackets {P : ClientState → Prop} (S : ClientState) :
    ∀ (count i : Nat), Act.Keeps P (writeSpeexPackets S i count)
  | 0, _ => Act.keeps_pure _
  | count + 1, i => by
    unfold writeSpeexPackets
    dsimp only
    split
    · exact Act.keeps_bind (keeps_writeBlock _ _) (fun _ => keeps_writeSpeexPackets S count (i + 1))
    · exact Act.keeps_bind (Act.keeps_fail _) (fun _ => keeps_writeSpeexPackets S count (i + 1))

/-- The send operations keep every property of the client state. -/
theorem keeps_sendClientConnectBody (pf : Platform) {P : ClientState → Prop} :
    Act.Keeps P (sendClientConnectBody pf) := by
  unfold sendClientConnectBody
  repeat' (first
    | exact Act.keeps_getCs
    | exact Act.keeps_pure _
    | exact keeps_writeUInt _ _
    | exact keeps_writeBlock _ _
    | apply Act.keeps_bind
    | apply Act.keeps_ite
    | intro _)

theorem keeps_sendServerUpdateBody (pf : Platform) {P : ClientState → Prop} :
    Act.Keeps P (sendServerUpdateBody pf) := by
  unfold sendServerUpdateBody
  dsimp only
  repeat' (first
    | exact Act.keeps_getCs
    | exact Act.keeps_pure _
    | exact keeps_writeUInt _ _
    | exact keeps_writeBytes _
    | exact keeps_writeSpeexPackets _ _ _
    | apply Act.keeps_bind
    | apply Act.keeps_ite
    | intro _)

/-- A hook that enters through the `dynamic_cast` leaves the connect-fixed members of
the state object as they were when its body keeps them. -/
theorem withAgoraState_connectFields (msg : String) (body : Act Unit)
    (hbody : ∀ x, Act.Keeps (fun c => connectFields c = x) body)
    (cs : ProtocolClientState) (pipe : Pipe) :
    (withAgoraState msg body cs pipe).cs.connectFields = cs.connectFields := by
  cases cs with
  | agora S =>
    have h := hbody (connectFields S) ⟨S, pipe⟩ rfl
    simp only [withAgoraState, ProtocolClientState.connectFields]
    exact congrArg some h
  | other t => rfl

/-- C10: every hook that runs after connect leaves `speexFrameSize`, `speexPacketSize`,
`hasTheora`, `theoraHeadersSize`, the headers bytes and both `videoSize` scalars of the
state object as they were, for every state object, destination and pipe content, and
whether the hook returns or throws. -/
theorem connect_fields_fixed (pf : Platform) (cs dest : ProtocolClientState) (pipe : Pipe) :
    (receiveClientUpdate pf cs pipe).cs.connectFields = cs.connectFields ∧
      (sendClientConnect pf cs dest pipe).cs.connectFields = cs.connectFields ∧
      (sendServerUpdate pf cs dest pipe).cs.connectFields = cs.connectFields ∧
      (beforeServerUpdate cs).2.connectFields = cs.connectFields ∧
      (afterServerUpdate cs).2.connectFields = cs.connectFields := by
  refine ⟨?_, ?_, ?_, ?_, ?_⟩
  · exact withAgoraState_connectFields _ _
      (fun x => keeps_receiveClientUpdateBody pf (fun _ _ h => h) (fun _ _ h => h)
        (fun _ _ h => h) (fun _ _ h => h)) cs pipe
  · exact withAgoraState_connectFields _ _ (fun x => keeps_sendClientConnectBody pf) cs pipe
  · exact withAgoraState_connectFields _ _ (fun x => keeps_sendServerUpdateBody pf) cs pipe
  · cases cs with
    | agora S => rfl
    | other t => rfl
  · cases cs with
    | agora S =>
      simp only [afterServerUpdate, afterServerUpdateBody, ProtocolClientState.connectFields]
      split <;> rfl
    | other t => rfl

/-! ## The snapshot of a tick -/

/-- Committing a packet while the queue is locked leaves the lock and the locked
segments as they are. -/
theorem pushSegment_locked (b : DropoutBuffer) (p : Segment) (hl : b.locked = true)
    (hn : b.numLocked ≤ b.queue.length) :
    (b.setWriteSegment p).pushSegment.locked = true ∧
      (b.setWriteSegment p).pushSegment.numLocked = b.numLocked ∧
      b.numLocked ≤ (b.setWriteSegment p).pushSegment.queue.length ∧
      (b.setWriteSegment p).pushSegment.queue.take b.numLocked = b.queue.take b.numLocked := by
  unfold DropoutBuffer.pushSegment DropoutBuffer.setWriteSegment
  by_cases h1 : b.queue.length < b.maxQueueSize
  · simp only [h1, if_true, hl, List.length_append, List.length_singleton, true_and]
    refine ⟨by omega, ?_⟩
    rw [List.take_append_of_le_length hn]
  · by_cases h2 : 0 < b.numLocked
    · simp [h1, h2, hl, hn]
    · have h0 : b.numLocked = 0 := by omega
      simp [h1, hl, h0]

theorem frozen_before (S0 : ClientState) :
    Frozen (beforeServerUpdateBody S0) (beforeServerUpdateBody S0) := by
  refine ⟨rfl, rfl, rfl, rfl, rfl, rfl, ?_⟩
  intro hF
  have hF0 : 0 < S0.speexFrameSize := hF
  simp [beforeServerUpdateBody, hF0, DropoutBuffer.lockQueue]

/-- `receiveClientUpdate` keeps the snapshot, whatever the pipe holds. -/
theorem frozen_receiveClientUpdateBody (pf : Platform) (S1 : ClientState) :
    Act.Keeps (Frozen S1) (receiveClientUpdateBody pf) := by
  apply keeps_receiveClientUpdateBody
  · intro c p ⟨h1, h2, h3, h4, h5, h6, h7⟩
    refine ⟨h1, h2, h3, h4, h5, h6, ?_⟩
    intro hF
    obtain ⟨a1, a2, a3, a4⟩ := h7 hF
    obtain ⟨b1, b2, b3, b4⟩ := pushSegment_locked c.speexPacketBuffer p a1 a3
    exact ⟨b1, b2.trans a2, by rw [b2]; exact b3, by rw [b2, b4]; exact a4⟩
  · intro c h hc; exact hc
  · intro c v hc; exact hc
  · intro c t hc; exact hc

theorem frozen_receiveAll (pf : Platform) (S1 : ClientState) :
    ∀ (pipes : List Pipe) (S : ClientState), Frozen S1 S →
      ∃ S2, receiveAll pf (ProtocolClientState.agora S) pipes = ProtocolClientState.agora S2 ∧
        Frozen S1 S2
  | [], S, h => ⟨S, rfl, h⟩
  | p :: ps, S, h => by
    have hk := frozen_receiveClientUpdateBody pf S1 ⟨S, p⟩ h
    exact frozen_receiveAll pf S1 ps _ hk

/-- A state that carries the snapshot taken on `S0` sends the batch and the video packet
captured on `S0`. -/
theorem frozen_sections (S0 S : ClientState)
    (hseg : 0 < S0.speexFrameSize →
      ∀ s ∈ S0.speexPacketBuffer.queue, S0.speexPacketSize ≤ s.length)
    (h : Frozen (beforeServerUpdateBody S0) S) :
    (0 < S.speexFrameSize → S.BatchLocked) ∧ audioBatchBytes S = capturedAudio S0 ∧
      videoPacketBytes S = capturedVideo S0 := by
  obtain ⟨h1, h2, h3, h4, h5, h6, h7⟩ := h
  have g1 : S.speexFrameSize = S0.speexFrameSize := h1
  have g2 : S.speexPacketSize = S0.speexPacketSize := h2
  have g3 : S.hasTheora = S0.hasTheora := h3
  refine ⟨?_, ?_, ?_⟩
  · intro hF
    have hF0 : 0 < S0.speexFrameSize := by omega
    obtain ⟨a1, a2, a3, a4⟩ := h7 hF0
    simp [beforeServerUpdateBody, hF0, DropoutBuffer.lockQueue] at h4 a2 a4
    refine ⟨by omega, a3, ?_⟩
    rw [h4, ← a2, a4, g2]
    exact hseg hF0
  · unfold audioBatchBytes capturedAudio
    by_cases hF0 : 0 < S0.speexFrameSize
    · obtain ⟨a1, a2, a3, a4⟩ := h7 hF0
      simp [beforeServerUpdateBody, hF0, DropoutBuffer.lockQueue] at h4 a2 a4
      have hF : 0 < S.speexFrameSize := by omega
      simp only [hF, hF0, if_true, lockedPackets, h4, g2]
      rw [← a2, a4]
    · have hF : ¬ 0 < S.speexFrameSize := by omega
      simp [hF, hF0]
  · unfold videoPacketBytes capturedVideo TripleBuffer.getLockedValue
    rw [g3, h5, h6]
    cases hT : S0.hasTheora <;> cases hP : S0.theoraPacketBuffer.posted <;>
      simp [beforeServerUpdateBody, TripleBuffer.lockNewValue, hT, hP]

/-- C5: within one tick every send from a source emits the batch and the video packet
that `beforeServerUpdate` captured.  For every source state `S0` whose committed
segments hold whole packets, any client updates processed after `beforeServerUpdate`
and before the first send (`ins1`), any processed between the two sends (`ins2`),
whatever these updates carry, and any two destinations: both sends succeed and both
bodies consist of the audio batch captured on `S0`, the sender's head position at the
time of the send, the video packet captured on `S0`, and the video transform at the
time of the send. -/
theorem fanout_same_batch (pf : Platform) (S0 : ClientState) (D1 D2 : ProtocolClientState)
    (p1 p2 : Pipe) (ins1 ins2 : List Pipe)
    (hseg : 0 < S0.speexFrameSize →
      ∀ s ∈ S0.speexPacketBuffer.queue, S0.speexPacketSize ≤ s.length) :
    ∃ Sa Sb : ClientState,
      receiveAll pf (beforeServerUpdate (ProtocolClientState.agora S0)).2 ins1 =
        ProtocolClientState.agora Sa ∧
      receiveAll pf (ProtocolClientState.agora Sa) ins2 = ProtocolClientState.agora Sb ∧
      sendServerUpdate pf (ProtocolClientState.agora Sa) D1 p1 =
        { result := Except.ok (), cs := ProtocolClientState.agora Sa,
          pipe := { p1 with outgoing := p1.outgoing ++ (capturedAudio S0 ++
            (headPositionBytes pf Sa ++ (capturedVideo S0 ++ videoTransformBytes pf Sa))) } } ∧
      sendServerUpdate pf (ProtocolClientState.agora Sb) D2 p2 =
        { result := Except.ok (), cs := ProtocolClientState.agora Sb,
          pipe := { p2 with outgoing := p2.outgoing ++ (capturedAudio S0 ++
            (headPositionBytes pf Sb ++ (capturedVideo S0 ++ videoTransformBytes pf Sb))) } } := by
  obtain ⟨Sa, ha, hfa⟩ := frozen_receiveAll pf _ ins1 _ (frozen_before S0)
  obtain ⟨Sb, hb, hfb⟩ := frozen_receiveAll pf _ ins2 Sa hfa
  obtain ⟨a1, a2, a3⟩ := frozen_sections S0 Sa hseg hfa
  obtain ⟨b1, b2, b3⟩ := frozen_sections S0 Sb hseg hfb
  refine ⟨Sa, Sb, ha, hb, ?_, ?_⟩
  · rw [sendServerUpdate_run pf Sa D1 p1 a1, serverUpdateBody, a2, a3]
  · rw [sendServerUpdate_run pf Sb D2 p2 b1, serverUpdateBody, b2, b3]

/-- Instance of C5: the sample client is snapshot after its first update; a second
update, with another audio packet and another video packet, arrives between the sends to
two destinations. -/
theorem fanout_same_batch_witness :
    (0 < updatedSample.speexFrameSize →
        ∀ s ∈ updatedSample.speexPacketBuffer.queue, updatedSample.speexPacketSize ≤ s.length) ∧
      ∃ Sa Sb : ClientState,
        receiveAll pfSmall (beforeServerUpdate (ProtocolClientState.agora updatedSample)).2 [] =
          ProtocolClientState.agora Sa ∧
        receiveAll pfSmall (ProtocolClientState.agora Sa) [secondUpdatePipe] =
          ProtocolClientState.agora Sb ∧
        sendServerUpdate pfSmall (ProtocolClientState.agora Sa) (ProtocolClientState.other 1)
            ⟨[], []⟩ =
          { result := Except.ok (), cs := ProtocolClientState.agora Sa,
            pipe := { (⟨[], []⟩ : Pipe) with
              outgoing := (⟨[], []⟩ : Pipe).outgoing ++ (capturedAudio updatedSample ++
                (headPositionBytes pfSmall Sa ++ (capturedVideo updatedSample ++
                  videoTransformBytes pfSmall Sa))) } } ∧
        sendServerUpdate pfSmall (ProtocolClientState.agora Sb) (ProtocolClientState.other 2)
            ⟨[], []⟩ =
          { result := Except.ok (), cs := ProtocolClientState.agora Sb,
            pipe := { (⟨[], []⟩ : Pipe) with
              outgoing := (⟨[], []⟩ : Pipe).outgoing ++ (capturedAudio updatedSample ++
                (headPositionBytes pfSmall Sb ++ (capturedVideo updatedSample ++
                  videoTransformBytes pfSmall Sb))) } } :=
  ⟨by decide,
    fanout_same_batch pfSmall updatedSample (ProtocolClientState.other 1)
      (ProtocolClientState.other 2) ⟨[], []⟩ ⟨[], []⟩ [] [secondUpdatePipe] (by decide)⟩

/-! ## Audio packets from push to send -/

/-- Committing a packet to an unlocked queue that holds at most its capacity appends the
packet and discards the oldest segment when the capacity is exceeded. -/
theorem pushSegment_unlocked (b : DropoutBuffer) (p : Segment) (hl : b.locked = false)
    (hn : b.queue.length ≤ b.maxQueueSize) :
    (b.setWriteSegment p).pushSegment.queue =
        (b.queue ++ [p]).drop (b.queue.length + 1 - b.maxQueueSize) ∧
      (b.setWriteSegment p).pushSegment.locked = false ∧
      (b.setWriteSegment p).pushSegment.maxQueueSize = b.maxQueueSize ∧
      (b.setWriteSegment p).pushSegment.numLocked = b.numLocked := by
  unfold DropoutBuffer.pushSegment DropoutBuffer.setWriteSegment
  by_cases h1 : b.queue.length < b.maxQueueSize
  · have h0 : b.queue.length + 1 - b.maxQueueSize = 0 := by omega
    simp [h1, hl, h0]
  · have h0 : b.queue.length + 1 - b.maxQueueSize = 1 := by omega
    simp [h1, hl, h0]

/-- Committing packets one after the other to an unlocked queue leaves the newest
segments, as many as the capacity allows, in push order. -/
theorem pushPackets_unlocked :
    ∀ (ps : List Segment) (b : DropoutBuffer), b.locked = false →
      b.queue.length ≤ b.maxQueueSize →
      (pushPackets b ps).queue =
          (b.queue ++ ps).drop ((b.queue ++ ps).length - b.maxQueueSize) ∧
        (pushPackets b ps).locked = false ∧
        (pushPackets b ps).maxQueueSize = b.maxQueueSize ∧
        (pushPackets b ps).numLocked = b.numLocked
  | [], b, hl, hn => by
    have h0 : b.queue.length - b.maxQueueSize = 0 := by omega
    simp [pushPackets, h0, hl]
  | p :: ps, b, hl, hn => by
    obtain ⟨a1, a2, a3, a4⟩ := pushSegment_unlocked b p hl hn
    have hlen : (b.setWriteSegment p).pushSegment.queue.length ≤
        (b.setWriteSegment p).pushSegment.maxQueueSize := by
      rw [a1, a3]; simp; omega
    obtain ⟨c1, c2, c3, c4⟩ := pushPackets_unlocked ps _ a2 hlen
    have e : pushPackets b (p :: ps) = pushPackets (b.setWriteSegment p).pushSegment ps := rfl
    rw [e]
    refine ⟨?_, c2, c3.trans a3, c4.trans a4⟩
    rw [c1, a3, a1]
    have hd : b.queue.length + 1 - b.maxQueueSize ≤ (b.queue ++ [p]).length := by simp
    rw [← List.drop_append_of_le_length hd, List.drop_drop, List.append_assoc,
      List.singleton_append]
    congr 1
    simp
    omega

theorem pushPackets_append (b : DropoutBuffer) (ps qs : List Segment) :
    pushPackets b (ps ++ qs) = pushPackets (pushPackets b ps) qs := by
  simp [pushPackets]

/-- A client update leaves the members that determine the layout of the next update. -/
theorem applyClientUpdate_layout (S : ClientState) (u : ClientUpdate) :
    (applyClientUpdate S u).speexFrameSize = S.speexFrameSize ∧
      (applyClientUpdate S u).speexPacketSize = S.speexPacketSize ∧
      (applyClientUpdate S u).hasTheora = S.hasTheora := by
  unfold applyClientUpdate
  by_cases hF : 0 < S.speexFrameSize <;> cases hT : S.hasTheora <;> simp [hF, hT]

theorem clientUpdateBody_congr (pf : Platform) (S T : ClientState) (u : ClientUpdate)
    (h1 : T.speexFrameSize = S.speexFrameSize) (h3 : T.hasTheora = S.hasTheora) :
    clientUpdateBody pf T u = clientUpdateBody pf S u := by
  simp [clientUpdateBody, h1, h3]

theorem valid_congr (pf : Platform) (S T : ClientState) (u : ClientUpdate)
    (h1 : T.speexFrameSize = S.speexFrameSize) (h2 : T.speexPacketSize = S.speexPacketSize)
    (h3 : T.hasTheora = S.hasTheora) (hv : u.Valid pf S) : u.Valid pf T := by
  simpa [ClientUpdate.Valid, h1, h2, h3] using hv

/-- Receiving the bodies of a list of updates, one call for each, applies the updates in
order. -/
theorem receiveAll_bodies (pf : Platform) (S : ClientState) :
    ∀ (us : List ClientUpdate) (T : ClientState),
      T.speexFrameSize = S.speexFrameSize → T.speexPacketSize = S.speexPacketSize →
      T.hasTheora = S.hasTheora → (∀ u ∈ us, u.Valid pf S) →
      receiveAll pf (ProtocolClientState.agora T)
          (updatePipes pf S us) =
        ProtocolClientState.agora (us.foldl applyClientUpdate T)
  | [], _, _, _, _, _ => rfl
  | u :: us, T, h1, h2, h3, hv => by
    have hu : u.Valid pf T := valid_congr pf S T u h1 h2 h3 (hv u (List.mem_cons_self _ _))
    have hrun := receiveClientUpdateBody_run pf T u [] [] hu
    rw [List.append_nil, clientUpdateBody_congr pf S T u h1 h3] at hrun
    obtain ⟨a1, a2, a3⟩ := applyClientUpdate_layout T u
    have ih := receiveAll_bodies pf S us (applyClientUpdate T u) (a1.trans h1) (a2.trans h2)
      (a3.trans h3) (fun v hv2 => hv v (List.mem_cons_of_mem _ hv2))
    simp only [receiveAll, updatePipes, List.map_cons, List.foldl_cons, receiveClientUpdate,
      withAgoraState, hrun] at ih ⊢
    exact ih

/-- With audio, the packet buffer after a list of updates is the buffer before them with
all their packets committed in order. -/
theorem foldl_applyClientUpdate_buffer :
    ∀ (us : List ClientUpdate) (T : ClientState), 0 < T.speexFrameSize →
      (us.foldl applyClientUpdate T).speexPacketBuffer =
          pushPackets T.speexPacketBuffer (us.map fun u => u.packets).flatten ∧
        (us.foldl applyClientUpdate T).speexFrameSize = T.speexFrameSize ∧
        (us.foldl applyClientUpdate T).speexPacketSize = T.speexPacketSize
  | [], T, _ => by simp [pushPackets]
  | u :: us, T, hF => by
    obtain ⟨a1, a2, a3⟩ := applyClientUpdate_layout T u
    obtain ⟨b1, b2, b3⟩ := foldl_applyClientUpdate_buffer us (applyClientUpdate T u)
      (by omega)
    have hb : (applyClientUpdate T u).speexPacketBuffer =
        pushPackets T.speexPacketBuffer u.packets := by
      unfold applyClientUpdate
      cases hT : T.hasTheora <;> simp [hF, hT]
    simp only [List.foldl_cons, List.map_cons, List.flatten_cons, pushPackets_append]
    exact ⟨by rw [b1, hb], b2.trans a1, b3.trans a2⟩

theorem pushedPackets_length (pf : Platform) (S : ClientState) (us : List ClientUpdate)
    (hF : 0 < S.speexFrameSize) (hv : ∀ u ∈ us, u.Valid pf S) :
    ∀ s ∈ pushedPackets us, s.length = S.speexPacketSize := by
  intro s hs
  simp only [pushedPackets, List.mem_flatten, List.mem_map] at hs
  obtain ⟨l, ⟨u, hu, rfl⟩, hsl⟩ := hs
  exact ((hv u hu).1 hF).2.1 s hsl

/-- The audio section sent after `beforeServerUpdate` on a state whose packet buffer is
unlocked: the count of committed segments and the segments themselves. -/
theorem audio_after_before (Sn : ClientState) (hF : 0 < Sn.speexFrameSize)
    (hlen : ∀ s ∈ Sn.speexPacketBuffer.queue, s.length = Sn.speexPacketSize) :
    (beforeServerUpdateBody Sn).BatchLocked ∧
      audioBatchBytes (beforeServerUpdateBody Sn) =
        wireUInt 2 Sn.speexPacketBuffer.queue.length ++ Sn.speexPacketBuffer.queue.flatten := by
  have hmap : (Sn.speexPacketBuffer.queue.map fun s => s.take Sn.speexPacketSize) =
      Sn.speexPacketBuffer.queue := by
    rw [List.map_congr_left (g := id) (fun s hs => by
      rw [← hlen s hs]; exact List.take_length s)]
    exact List.map_id _
  refine ⟨?_, ?_⟩
  · simp only [ClientState.BatchLocked, beforeServerUpdateBody, hF, if_true,
      DropoutBuffer.lockQueue, List.take_length, le_refl, true_and]
    intro s hs
    exact (hlen s hs).ge
  · simp only [audioBatchBytes, lockedPackets, beforeServerUpdateBody, hF, if_true,
      DropoutBuffer.lockQueue, List.take_length, hmap]

/-- What `sendServerUpdate` writes after `beforeServerUpdate` when the updates `us` were
applied to a state with audio whose packet buffer was empty and unlocked. -/
theorem send_after_updates (pf : Platform) (S : ClientState) (us : List ClientUpdate)
    (dest : ProtocolClientState) (out : Pipe)
    (hF : 0 < S.speexFrameSize) (hq : S.speexPacketBuffer.queue = [])
    (hl : S.speexPacketBuffer.locked = false) (hv : ∀ u ∈ us, u.Valid pf S) :
    sendServerUpdate pf
        (ProtocolClientState.agora (beforeServerUpdateBody (us.foldl applyClientUpdate S)))
        dest out =
      { result := Except.ok (),
        cs := ProtocolClientState.agora (beforeServerUpdateBody (us.foldl applyClientUpdate S)),
        pipe := { out with outgoing := out.outgoing ++
          (wireUInt 2 (min (pushedPackets us).length S.speexPacketBuffer.maxQueueSize) ++
            (((pushedPackets us).drop
                ((pushedPackets us).length - S.speexPacketBuffer.maxQueueSize)).flatten ++
              (headPositionBytes pf (beforeServerUpdateBody (us.foldl applyClientUpdate S)) ++
                (videoPacketBytes (beforeServerUpdateBody (us.foldl applyClientUpdate S)) ++
                  videoTransformBytes pf
                    (beforeServerUpdateBody (us.foldl applyClientUpdate S)))))) } } := by
  obtain ⟨b1, b2, b3⟩ := foldl_applyClientUpdate_buffer us S hF
  obtain ⟨c1, c2, c3, c4⟩ := pushPackets_unlocked (pushedPackets us) S.speexPacketBuffer hl
    (by rw [hq]; exact Nat.zero_le _)
  rw [hq, List.nil_append] at c1
  have hFn : 0 < (us.foldl applyClientUpdate S).speexFrameSize := by omega
  have hqn : (us.foldl applyClientUpdate S).speexPacketBuffer.queue =
      (pushedPackets us).drop ((pushedPackets us).length - S.speexPacketBuffer.maxQueueSize) := by
    rw [b1]; exact c1
  have hlen : ∀ s ∈ (us.foldl applyClientUpdate S).speexPacketBuffer.queue,
      s.length = (us.foldl applyClientUpdate S).speexPacketSize := by
    intro s hs
    rw [hqn] at hs
    rw [b3]
    exact pushedPackets_length pf S us hF hv s (List.mem_of_mem_drop hs)
  obtain ⟨d1, d2⟩ := audio_after_before _ hFn hlen
  rw [sendServerUpdate_run pf _ dest out (fun _ => d1), serverUpdateBody, d2, hqn,
    List.length_drop, List.append_assoc]
  have hmin : (pushedPackets us).length -
      ((pushedPackets us).length - S.speexPacketBuffer.maxQueueSize) =
      min (pushedPackets us).length S.speexPacketBuffer.maxQueueSize := by omega
  rw [hmin]

/-- C6: a source with `speexFrameSize > 0` whose packet buffer of capacity `N` is empty
and unlocked receives client updates that push `p` packets in all; after
`beforeServerUpdate`, `sendServerUpdate` emits, behind the count field written from
`min p N`, the last `min p N` packets pushed, oldest first: all of them when `p ≤ N`, the
newest `N` when `p > N`. -/
theorem audio_newest_kept_in_order (pf : Platform) (S : ClientState) (us : List ClientUpdate)
    (dest : ProtocolClientState) (out : Pipe)
    (hF : 0 < S.speexFrameSize) (hq : S.speexPacketBuffer.queue = [])
    (hl : S.speexPacketBuffer.locked = false) (hv : ∀ u ∈ us, u.Valid pf S) :
    ∃ Sn Sb : ClientState,
      receiveAll pf (ProtocolClientState.agora S) (updatePipes pf S us) =
        ProtocolClientState.agora Sn ∧
      (beforeServerUpdate (ProtocolClientState.agora Sn)).2 = ProtocolClientState.agora Sb ∧
      sendServerUpdate pf (ProtocolClientState.agora Sb) dest out =
        { result := Except.ok (), cs := ProtocolClientState.agora Sb,
          pipe := { out with outgoing := out.outgoing ++
            (wireUInt 2 (min (pushedPackets us).length S.speexPacketBuffer.maxQueueSize) ++
              (((pushedPackets us).drop
                  ((pushedPackets us).length - S.speexPacketBuffer.maxQueueSize)).flatten ++
                (headPositionBytes pf Sb ++ (videoPacketBytes Sb ++
                  videoTransformBytes pf Sb)))) } } :=
  ⟨_, _, receiveAll_bodies pf S us S rfl rfl rfl hv, rfl,
    send_after_updates pf S us dest out hF hq hl hv⟩

/-- Instance of C6: five packets pushed by four updates into the sample client's buffer
of capacity three; the three newest are sent, oldest first. -/
theorem audio_newest_kept_in_order_witness :
    0 < connectedSample.speexFrameSize ∧ connectedSample.speexPacketBuffer.queue = [] ∧
      connectedSample.speexPacketBuffer.locked = false ∧
      (∀ u ∈ updatesSample, u.Valid pfSmall connectedSample) ∧
      (pushedPackets updatesSample).drop
          ((pushedPackets updatesSample).length - connectedSample.speexPacketBuffer.maxQueueSize) =
        [[3, 3], [4, 4], [5, 5]] ∧
      ∃ Sn Sb : ClientState,
        receiveAll pfSmall (ProtocolClientState.agora connectedSample)
            (updatePipes pfSmall connectedSample updatesSample) =
          ProtocolClientState.agora Sn ∧
        (beforeServerUpdate (ProtocolClientState.agora Sn)).2 = ProtocolClientState.agora Sb ∧
        sendServerUpdate pfSmall (ProtocolClientState.agora Sb) (ProtocolClientState.other 1)
            ⟨[], []⟩ =
          { result := Except.ok (), cs := ProtocolClientState.agora Sb,
            pipe := { (⟨[], []⟩ : Pipe) with outgoing := (⟨[], []⟩ : Pipe).outgoing ++
              (wireUInt 2 (min (pushedPackets updatesSample).length
                  connectedSample.speexPacketBuffer.maxQueueSize) ++
                (((pushedPackets updatesSample).drop ((pushedPackets updatesSample).length -
                    connectedSample.speexPacketBuffer.maxQueueSize)).flatten ++
                  (headPositionBytes pfSmall Sb ++ (videoPacketBytes Sb ++
                    videoTransformBytes pfSmall Sb)))) } } :=
  ⟨by decide, by decide, by decide, by decide, by decide,
    audio_newest_kept_in_order pfSmall connectedSample updatesSample
      (ProtocolClientState.other 1) ⟨[], []⟩ (by decide) (by decide) (by decide) (by decide)⟩

/-! ## The video packet from post to send -/

theorem latestVideoFrom_eq_none :
    ∀ (us : List ClientUpdate) (acc : Option VideoPacket),
      latestVideoFrom acc us = none ↔ acc = none ∧ ∀ u ∈ us, u.hasNewPacket = 0
  | [], acc => by simp [latestVideoFrom]
  | u :: us, acc => by
    have ih := latestVideoFrom_eq_none us
      (if u.hasNewPacket ≠ 0 then some u.videoPacket else acc)
    simp only [latestVideoFrom, List.foldl_cons] at ih ⊢
    rw [ih]
    by_cases hN : u.hasNewPacket = 0 <;> simp [hN]

/-- Committing a packet adds at most that packet to the queue. -/
theorem mem_pushSegment (b : DropoutBuffer) (p s : Segment)
    (hs : s ∈ (b.setWriteSegment p).pushSegment.queue) : s ∈ b.queue ∨ s = p := by
  unfold DropoutBuffer.pushSegment DropoutBuffer.setWriteSegment at hs
  split at hs
  · simpa using hs
  · split at hs
    · exact Or.inl hs
    · have := List.mem_of_mem_drop hs
      simpa using this

theorem mem_pushPackets :
    ∀ (ps : List Segment) (b : DropoutBuffer) (s : Segment),
      s ∈ (pushPackets b ps).queue → s ∈ b.queue ∨ s ∈ ps
  | [], _, _, hs => Or.inl hs
  | p :: ps, b, s, hs => by
    have e : pushPackets b (p :: ps) = pushPackets (b.setWriteSegment p).pushSegment ps := rfl
    rw [e] at hs
    rcases mem_pushPackets ps _ s hs with h | h
    · rcases mem_pushSegment b p s h with h2 | h2
      · exact Or.inl h2
      · exact Or.inr (h2 ▸ List.mem_cons_self _ _)
    · exact Or.inr (List.mem_cons_of_mem _ h)

/-- Client updates leave a queue of whole packets a queue of whole packets. -/
theorem foldl_applyClientUpdate_sizes (pf : Platform) (S : ClientState)
    (us : List ClientUpdate) (hv : ∀ u ∈ us, u.Valid pf S)
    (hseg : ∀ s ∈ S.speexPacketBuffer.queue, s.length = S.speexPacketSize) :
    ∀ s ∈ (us.foldl applyClientUpdate S).speexPacketBuffer.queue,
      s.length = (us.foldl applyClientUpdate S).speexPacketSize := by
  by_cases hF : 0 < S.speexFrameSize
  · obtain ⟨b1, b2, b3⟩ := foldl_applyClientUpdate_buffer us S hF
    intro s hs
    rw [b1] at hs
    rw [b3]
    rcases mem_pushPackets _ _ s hs with h | h
    · exact hseg s h
    · exact pushedPackets_length pf S us hF hv s h
  · have hfix : ∀ (vs : List ClientUpdate) (T : ClientState), ¬ 0 < T.speexFrameSize →
        (vs.foldl applyClientUpdate T).speexPacketBuffer = T.speexPacketBuffer ∧
        (vs.foldl applyClientUpdate T).speexPacketSize = T.speexPacketSize := by
      intro vs
      induction vs with
      | nil => intro T _; exact ⟨rfl, rfl⟩
      | cons v vs ih =>
        intro T hT
        obtain ⟨a1, a2, a3⟩ := applyClientUpdate_layout T v
        obtain ⟨c1, c2⟩ := ih (applyClientUpdate T v) (by omega)
        have hb : (applyClientUpdate T v).speexPacketBuffer = T.speexPacketBuffer := by
          unfold applyClientUpdate
          cases hTh : T.hasTheora <;> simp [hT, hTh]
        exact ⟨by rw [List.foldl_cons, c1, hb], by rw [List.foldl_cons, c2, a2]⟩
    obtain ⟨e1, e2⟩ := hfix us S hF
    rw [e1, e2]
    exact hseg

/-- With video, the triple buffer after a list of updates has a packet posted exactly
when one of the updates, or an earlier one not yet locked, carried a packet, and the
posted packet is the most recent one. -/
theorem foldl_applyClientUpdate_video :
    ∀ (us : List ClientUpdate) (T : ClientState) (acc : Option VideoPacket),
      T.hasTheora = true → T.theoraPacketBuffer.posted = acc.isSome →
      (∀ v, acc = some v → T.theoraPacketBuffer.ready = v) →
      (us.foldl applyClientUpdate T).hasTheora = true ∧
        (us.foldl applyClientUpdate T).theoraPacketBuffer.posted =
          (latestVideoFrom acc us).isSome ∧
        ∀ v, latestVideoFrom acc us = some v →
          (us.foldl applyClientUpdate T).theoraPacketBuffer.ready = v
  | [], T, acc, hT, hp, hr => ⟨hT, hp, hr⟩
  | u :: us, T, acc, hT, hp, hr => by
    obtain ⟨a1, a2, a3⟩ := applyClientUpdate_layout T u
    have hstep : (applyClientUpdate T u).theoraPacketBuffer.posted =
          (if u.hasNewPacket ≠ 0 then some u.videoPacket else acc).isSome ∧
        ∀ v, (if u.hasNewPacket ≠ 0 then some u.videoPacket else acc) = some v →
          (applyClientUpdate T u).theoraPacketBuffer.ready = v := by
      unfold applyClientUpdate
      by_cases hF : 0 < T.speexFrameSize <;> by_cases hN : u.hasNewPacket = 0 <;>
        simp [hF, hT, hN, hp, TripleBuffer.setNewValue, TripleBuffer.postNewValue] <;>
        exact hr
    exact foldl_applyClientUpdate_video us (applyClientUpdate T u) _ (a3.trans hT) hstep.1
      hstep.2

/-- The reads of `receiveConnectRequest` leave the video triple buffer of the new state
as constructed. -/
theorem keeps_receiveConnectRequestRead (pf : Platform) :
    Act.Keeps (fun c => c.theoraPacketBuffer.posted = false) (receiveConnectRequestRead pf) := by
  unfold receiveConnectRequestRead
  dsimp only
  repeat' (first
    | exact Act.keeps_getCs
    | exact Act.keeps_pure _
    | exact keeps_readUInt _
    | exact keeps_readBytes _
    | exact Act.keeps_modifyCs (fun c hc => hc)
    | apply Act.keeps_bind
    | apply Act.keeps_ite
    | intro _)

/-- No video packet is posted in a state that `receiveConnectRequest` returns. -/
theorem receiveConnectRequest_posted (pf : Platform) (indet : ClientState) (len : Nat)
    (pin pin1 : Pipe) (S : ClientState)
    (h : receiveConnectRequest pf indet len pin = (Except.ok (some S), pin1)) :
    S.theoraPacketBuffer.posted = false := by
  have hk := keeps_receiveConnectRequestRead pf ⟨ClientState.new indet, pin⟩ rfl
  unfold receiveConnectRequest at h
  split at h
  · rename_i n w heq
    rw [heq] at hk
    split at h
    · cases h
    · simp only [Prod.mk.injEq, Except.ok.injEq, Option.some.injEq] at h
      rw [← h.1]
      exact hk
  · cases h

/-- No video packet is posted in a video-enabled state that `beforeServerUpdate` leaves. -/
theorem beforeServerUpdateBody_posted (S0 : ClientState)
    (hT : (beforeServerUpdateBody S0).hasTheora = true) :
    (beforeServerUpdateBody S0).theoraPacketBuffer.posted = false := by
  have hT0 : S0.hasTheora = true := hT
  cases hP : S0.theoraPacketBuffer.posted <;>
    simp [beforeServerUpdateBody, TripleBuffer.lockNewValue, hT0, hP]

/-- The video packet section sent after `beforeServerUpdate` on a video-enabled state. -/
theorem video_after_before (Sn : ClientState) (hT : Sn.hasTheora = true) :
    videoPacketBytes (beforeServerUpdateBody Sn) =
      if Sn.theoraPacketBuffer.posted then
        1 :: (wireUInt 4 Sn.theoraPacketBuffer.ready.data.length ++
          Sn.theoraPacketBuffer.ready.data)
      else [0] := by
  cases hP : Sn.theoraPacketBuffer.posted <;>
    simp [videoPacketBytes, beforeServerUpdateBody, TripleBuffer.lockNewValue,
      TripleBuffer.getLockedValue, hT, hP]

/-- C8: a video-enabled source is in the state `S` that the previous `beforeServerUpdate`
or the connect request left; the client updates `us` are received; `beforeServerUpdate`
runs.  The `hasNewPacket` byte that `sendServerUpdate` then writes is 1 exactly when one
of the updates carried a video packet, the packet that follows it is the packet of the
most recent such update, and when no update carried one the byte is 0 and no packet is
written. -/
theorem video_newest_wins (pf : Platform) (S : ClientState) (us : List ClientUpdate)
    (dest : ProtocolClientState) (out : Pipe) (hT : S.hasTheora = true)
    (hstart : (∃ S0, S = beforeServerUpdateBody S0) ∨
      ∃ indet len pin pin1, receiveConnectRequest pf indet len pin = (Except.ok (some S), pin1))
    (hseg : 0 < S.speexFrameSize →
      ∀ s ∈ S.speexPacketBuffer.queue, s.length = S.speexPacketSize)
    (hv : ∀ u ∈ us, u.Valid pf S) :
    (latestVideo us = none ↔ ∀ u ∈ us, u.hasNewPacket = 0) ∧
      ∃ Sn Sb : ClientState,
        receiveAll pf (ProtocolClientState.agora S) (updatePipes pf S us) =
          ProtocolClientState.agora Sn ∧
        (beforeServerUpdate (ProtocolClientState.agora Sn)).2 = ProtocolClientState.agora Sb ∧
        sendServerUpdate pf (ProtocolClientState.agora Sb) dest out =
          { result := Except.ok (), cs := ProtocolClientState.agora Sb,
            pipe := { out with outgoing := out.outgoing ++
              (audioBatchBytes Sb ++ (headPositionBytes pf Sb ++
                ((match latestVideo us with
                  | some v => 1 :: (wireUInt 4 v.data.length ++ v.data)
                  | none => [0]) ++ videoTransformBytes pf Sb))) } } := by
  refine ⟨?_, ?_⟩
  · rw [latestVideo, latestVideoFrom_eq_none]
    simp
  have hposted : S.theoraPacketBuffer.posted = false := by
    rcases hstart with ⟨S0, rfl⟩ | ⟨indet, len, pin, pin1, h⟩
    · exact beforeServerUpdateBody_posted S0 hT
    · exact receiveConnectRequest_posted pf indet len pin pin1 S h
  have hrecv := receiveAll_bodies pf S us S rfl rfl rfl hv
  obtain ⟨v1, v2, v3⟩ := foldl_applyClientUpdate_video us S none hT (by simp [hposted])
    (fun v hv2 => by cases hv2)
  have hbatch : 0 < (beforeServerUpdateBody (us.foldl applyClientUpdate S)).speexFrameSize →
      (beforeServerUpdateBody (us.foldl applyClientUpdate S)).BatchLocked := by
    intro hFb
    have hFn : 0 < (us.foldl applyClientUpdate S).speexFrameSize := hFb
    by_cases hF : 0 < S.speexFrameSize
    · exact (audio_after_before _ hFn
        (foldl_applyClientUpdate_sizes pf S us hv (hseg hF))).1
    · exfalso
      have hfix : ∀ (vs : List ClientUpdate) (T : ClientState),
          (vs.foldl applyClientUpdate T).speexFrameSize = T.speexFrameSize := by
        intro vs
        induction vs with
        | nil => intro T; rfl
        | cons v vs ih => intro T; rw [List.foldl_cons, ih, (applyClientUpdate_layout T v).1]
      rw [hfix] at hFn
      exact hF hFn
  refine ⟨_, _, hrecv, rfl, ?_⟩
  rw [sendServerUpdate_run pf _ dest out hbatch, serverUpdateBody, video_after_before _ v1, v2]
  cases hlv : latestVideoFrom none us with
  | none => simp [latestVideo, hlv]
  | some v => simp [latestVideo, hlv, v3 v hlv]

/-- Instance of C8: of the four updates received by the sample client since connect, the
second and the third carry a video packet; the packet of the third is sent. -/
theorem video_newest_wins_witness :
    connectedSample.hasTheora = true ∧
      ((∃ S0, connectedSample = beforeServerUpdateBody S0) ∨
        ∃ indet len pin pin1,
          receiveConnectRequest pfSmall indet len pin =
            (Except.ok (some connectedSample), pin1)) ∧
      (0 < connectedSample.speexFrameSize →
        ∀ s ∈ connectedSample.speexPacketBuffer.queue,
          s.length = connectedSample.speexPacketSize) ∧
      (∀ u ∈ updatesSample, u.Valid pfSmall connectedSample) ∧
      latestVideo updatesSample = some ⟨[43, 44]⟩ ∧
      (latestVideo updatesSample = none ↔ ∀ u ∈ updatesSample, u.hasNewPacket = 0) ∧
      ∃ Sn Sb : ClientState,
        receiveAll pfSmall (ProtocolClientState.agora connectedSample)
            (updatePipes pfSmall connectedSample updatesSample) =
          ProtocolClientState.agora Sn ∧
        (beforeServerUpdate (ProtocolClientState.agora Sn)).2 = ProtocolClientState.agora Sb ∧
        sendServerUpdate pfSmall (ProtocolClientState.agora Sb) (ProtocolClientState.other 1)
            ⟨[], []⟩ =
          { result := Except.ok (), cs := ProtocolClientState.agora Sb,
            pipe := { (⟨[], []⟩ : Pipe) with outgoing := (⟨[], []⟩ : Pipe).outgoing ++
              (audioBatchBytes Sb ++ (headPositionBytes pfSmall Sb ++
                ((match latestVideo updatesSample with
                  | some v => 1 :: (wireUInt 4 v.data.length ++ v.data)
                  | none => [0]) ++ videoTransformBytes pfSmall Sb))) } } :=
  ⟨by decide,
    Or.inr ⟨indetSample, 23, ⟨connectRequestBody pfSmall requestSample, []⟩, ⟨[], []⟩,
      by decide⟩,
    by decide, by decide, by decide,
    video_newest_wins pfSmall connectedSample updatesSample (ProtocolClientState.other 1)
      ⟨[], []⟩ (by decide)
      (Or.inr ⟨indetSample, 23, ⟨connectRequestBody pfSmall requestSample, []⟩, ⟨[], []⟩,
        by decide⟩)
      (by decide) (by decide)⟩

/-! ## The packet count on the wire -/

theorem flatten_replicate_singleton {α : Type} (a : α) :
    ∀ n : Nat, (List.replicate n [a]).flatten = List.replicate n a
  | 0 => rfl
  | n + 1 => by
    rw [List.replicate_succ, List.flatten_cons, flatten_replicate_singleton a n]
    rfl

/-- With audio, `beforeServerUpdate` sets `numSpeexPackets` to the number of committed
segments. -/
theorem beforeServerUpdateBody_numSpeexPackets (X : ClientState) (hF : 0 < X.speexFrameSize) :
    (beforeServerUpdateBody X).numSpeexPackets = X.speexPacketBuffer.queue.length := by
  simp only [beforeServerUpdateBody, hF, if_true, DropoutBuffer.lockQueue]

/-- With audio, the committed segments after updates applied to an empty unlocked
buffer. -/
theorem queue_after_updates (S : ClientState) (us : List ClientUpdate)
    (hF : 0 < S.speexFrameSize) (hq : S.speexPacketBuffer.queue = [])
    (hl : S.speexPacketBuffer.locked = false) :
    (us.foldl applyClientUpdate S).speexPacketBuffer.queue =
      (pushedPackets us).drop ((pushedPackets us).length - S.speexPacketBuffer.maxQueueSize) := by
  obtain ⟨b1, -, -⟩ := foldl_applyClientUpdate_buffer us S hF
  obtain ⟨c1, -, -, -⟩ := pushPackets_unlocked (pushedPackets us) S.speexPacketBuffer hl
    (by rw [hq]; exact Nat.zero_le _)
  rw [hq, List.nil_append] at c1
  rw [b1]
  exact c1

theorem overflowUpdate_valid : overflowUpdate.Valid pfSmall overflowClient := by
  refine ⟨fun _ => ⟨?_, ?_, by decide, by decide, by decide⟩, fun h => ?_⟩
  · show (List.replicate 32768 ([7] : Segment)).length < 2 ^ 16
    rw [List.length_replicate]
    decide
  · intro p hp
    rw [List.eq_of_mem_replicate hp]
    rfl
  · exact absurd h (by decide)

theorem overflowUpdates_valid :
    ∀ u ∈ [overflowUpdate, overflowUpdate], u.Valid pfSmall overflowClient := by
  intro u hu
  simp only [List.mem_cons, List.mem_singleton, List.not_mem_nil, or_false, or_self] at hu
  rw [hu]
  exact overflowUpdate_valid

theorem overflowUpdates_pushed :
    pushedPackets [overflowUpdate, overflowUpdate] =
      List.replicate 32768 [7] ++ List.replicate 32768 [7] := by
  simp only [pushedPackets, List.map_cons, List.map_nil, List.flatten_cons, List.flatten_nil,
    List.append_nil, overflowUpdate]

theorem overflowUpdates_length :
    (pushedPackets [overflowUpdate, overflowUpdate]).length = 65536 := by
  rw [overflowUpdates_pushed, List.length_append, List.length_replicate]

/-- C9, the code at the failing input: a client connects with a packet buffer capacity of
65536 and one-byte packets, sends two client updates of 32768 packets each before the
next tick, and `beforeServerUpdate` locks 65536 packets.  The server-update body that
`sendServerUpdate` then writes starts with the count field 0 and goes on with 65536
packets. -/
theorem count_field_wraps :
    receiveConnectRequest pfSmall indetSample 13
        ⟨connectRequestBody pfSmall overflowRequest, []⟩ =
      (Except.ok (some overflowClient), ⟨[], []⟩) ∧
    ∃ Sn Sb : ClientState,
      receiveAll pfSmall (ProtocolClientState.agora overflowClient)
          (updatePipes pfSmall overflowClient [overflowUpdate, overflowUpdate]) =
        ProtocolClientState.agora Sn ∧
      (beforeServerUpdate (ProtocolClientState.agora Sn)).2 = ProtocolClientState.agora Sb ∧
      Sb.numSpeexPackets = 65536 ∧
      sendServerUpdate pfSmall (ProtocolClientState.agora Sb) (ProtocolClientState.other 0)
          ⟨[], []⟩ =
        { result := Except.ok (), cs := ProtocolClientState.agora Sb,
          pipe := ⟨[], [0, 0] ++ ((List.replicate 32768 7 ++ List.replicate 32768 7) ++
            [1, 0, 2, 0, 3, 0])⟩ } := by
  have hF : 0 < overflowClient.speexFrameSize := by decide
  have hq : overflowClient.speexPacketBuffer.queue = [] := by decide
  have hl : overflowClient.speexPacketBuffer.locked = false := by decide
  have hN : overflowClient.speexPacketBuffer.maxQueueSize = 65536 := by decide
  have hFn : 0 < ([overflowUpdate, overflowUpdate].foldl applyClientUpdate
      overflowClient).speexFrameSize := by decide
  refine ⟨by decide, _, _,
    receiveAll_bodies pfSmall overflowClient _ overflowClient rfl rfl rfl overflowUpdates_valid,
    rfl, ?_, ?_⟩
  · rw [beforeServerUpdateBody_numSpeexPackets _ hFn, queue_after_updates _ _ hF hq hl,
      List.length_drop, overflowUpdates_length, hN]
  · have h1 : wireUInt 2 (min 65536 65536) = [0, 0] := by decide
    have h2 : headPositionBytes pfSmall (beforeServerUpdateBody
        ([overflowUpdate, overflowUpdate].foldl applyClientUpdate overflowClient)) =
        [1, 0, 2, 0, 3, 0] := rfl
    have h3 : videoPacketBytes (beforeServerUpdateBody
        ([overflowUpdate, overflowUpdate].foldl applyClientUpdate overflowClient)) = [] := rfl
    have h4 : videoTransformBytes pfSmall (beforeServerUpdateBody
        ([overflowUpdate, overflowUpdate].foldl applyClientUpdate overflowClient)) = [] := rfl
    rw [send_after_updates pfSmall overflowClient [overflowUpdate, overflowUpdate]
      (ProtocolClientState.other 0) ⟨[], []⟩ hF hq hl overflowUpdates_valid,
      overflowUpdates_length, hN, h1, h2, h3, h4, overflowUpdates_pushed, Nat.sub_self,
      List.drop_zero, List.flatten_append, flatten_replicate_singleton, List.append_nil]
    simp only [List.nil_append, List.append_nil]

/-- A field of `n` bytes holds `v` exactly when its `n` bytes read back as `v`. -/
theorem wireField_eq_some (n v : Nat) (bs : List Byte) :
    wireField n v = some bs ↔ bs.length = n ∧ decodeLE bs = v := by
  unfold wireField
  constructor
  · intro h
    by_cases hv : v < 256 ^ n
    · rw [if_pos hv] at h
      have hb : encodeLE n v = bs := Option.some.inj h
      rw [← hb]
      exact ⟨length_encodeLE n v, (decodeLE_encodeLE n v).trans (Nat.mod_eq_of_lt hv)⟩
    · rw [if_neg hv] at h
      cases h
  · rintro ⟨hl, hd⟩
    have hv : v < 256 ^ n := by
      rw [← hd, ← hl]
      exact decodeLE_lt bs
    rw [if_pos hv, ← hd, ← hl, encodeLE_decodeLE]

/-- Below 65536 packets the bytes that `sendServerUpdate` writes are the body of the
wire format. -/
theorem serverUpdateWire_of_lt (pf : Platform) (S : ClientState)
    (hn : 0 < S.speexFrameSize → S.numSpeexPackets < 2 ^ 16) :
    serverUpdateWire pf S = some (serverUpdateBody pf S) := by
  unfold serverUpdateWire serverUpdateBody audioBatchBytes wireField wireUInt
  by_cases hF : 0 < S.speexFrameSize
  · have h1 : S.numSpeexPackets < 256 ^ 2 := hn hF
    have h2 : S.numSpeexPackets % 2 ^ (8 * 2) = S.numSpeexPackets := Nat.mod_eq_of_lt (hn hF)
    simp only [hF, if_true, h1, h2, Option.map_some', List.append_assoc]
  · simp [hF, headPositionBytes]

/-- From 65536 packets on there is no body of the wire format. -/
theorem serverUpdateWire_of_ge (pf : Platform) (S : ClientState)
    (hF : 0 < S.speexFrameSize) (hn : 2 ^ 16 ≤ S.numSpeexPackets) :
    serverUpdateWire pf S = none := by
  unfold serverUpdateWire wireField
  have h1 : ¬ S.numSpeexPackets < 256 ^ 2 := by
    have : (256 : Nat) ^ 2 = 2 ^ 16 := by norm_num
    omega
  simp only [hF, if_true, h1, if_false, Option.map_none']

/-- The batch is locked after `beforeServerUpdate` when the updates `us` were applied to
a state with audio whose packet buffer was empty and unlocked. -/
theorem batch_after_updates (pf : Platform) (S : ClientState) (us : List ClientUpdate)
    (hF : 0 < S.speexFrameSize) (hq : S.speexPacketBuffer.queue = [])
    (hl : S.speexPacketBuffer.locked = false) (hv : ∀ u ∈ us, u.Valid pf S) :
    (beforeServerUpdateBody (us.foldl applyClientUpdate S)).BatchLocked := by
  obtain ⟨b1, b2, b3⟩ := foldl_applyClientUpdate_buffer us S hF
  have hFn : 0 < (us.foldl applyClientUpdate S).speexFrameSize := by omega
  have hlen : ∀ s ∈ (us.foldl applyClientUpdate S).speexPacketBuffer.queue,
      s.length = (us.foldl applyClientUpdate S).speexPacketSize := by
    intro s hs
    rw [queue_after_updates S us hF hq hl] at hs
    rw [b3]
    exact pushedPackets_length pf S us hF hv s (List.mem_of_mem_drop hs)
  exact (audio_after_before _ hFn hlen).1

/-- C4, the code against the wire format.  For every source state whose batch is locked
and whose `numSpeexPackets` is below 65536, `sendServerUpdate` appends exactly the
server-update body of the wire format and leaves the state as it was, and a source with
`speexFrameSize = 0` and no video yields the empty body; the sample source sends the
count 2, two packets, its head position, the flag 1 with the video packet 42 and its
video transform.  At the failing input the claim breaks: a client connects with a packet
buffer capacity of 65536 and one-byte packets and sends two client updates of 32768
packets each before the next tick; `beforeServerUpdate` locks 65536 packets, no `u16`
field holds that count, so the wire format has no body for this state, and
`sendServerUpdate` writes the count field 0 followed by 65536 packets. -/
theorem sendServerUpdate_writes_wire_body :
    (∀ (pf : Platform) (S : ClientState) (dest : ProtocolClientState) (pipe : Pipe),
      (0 < S.speexFrameSize → S.BatchLocked ∧ S.numSpeexPackets < 2 ^ 16) →
        ∃ body : List Byte, serverUpdateWire pf S = some body ∧
          sendServerUpdate pf (ProtocolClientState.agora S) dest pipe =
            { result := Except.ok (), cs := ProtocolClientState.agora S,
              pipe := { pipe with outgoing := pipe.outgoing ++ body } } ∧
          (S.speexFrameSize = 0 → S.hasTheora = false → body = [])) ∧
    (serverUpdateWire pfSmall sourceSample =
        some [2, 0, 1, 2, 3, 4, 1, 0, 2, 0, 3, 0, 1, 1, 0, 0, 0, 42, 9, 0, 0] ∧
      sendServerUpdate pfSmall (ProtocolClientState.agora sourceSample)
          (ProtocolClientState.other 0) ⟨[], []⟩ =
        { result := Except.ok (), cs := ProtocolClientState.agora sourceSample,
          pipe := ⟨[], [2, 0, 1, 2, 3, 4, 1, 0, 2, 0, 3, 0, 1, 1, 0, 0, 0, 42, 9, 0, 0]⟩ }) ∧
    (receiveConnectRequest pfSmall indetSample 13
        ⟨connectRequestBody pfSmall overflowRequest, []⟩ =
      (Except.ok (some overflowClient), ⟨[], []⟩) ∧
    ∃ Sn Sb : ClientState,
      receiveAll pfSmall (ProtocolClientState.agora overflowClient)
          (updatePipes pfSmall overflowClient [overflowUpdate, overflowUpdate]) =
        ProtocolClientState.agora Sn ∧
      (beforeServerUpdate (ProtocolClientState.agora Sn)).2 = ProtocolClientState.agora Sb ∧
      0 < Sb.speexFrameSize ∧ Sb.BatchLocked ∧ Sb.numSpeexPackets = 65536 ∧
      (∀ field : List Byte, field.length = 2 → decodeLE field ≠ Sb.numSpeexPackets) ∧
      serverUpdateWire pfSmall Sb = none ∧
      sendServerUpdate pfSmall (ProtocolClientState.agora Sb) (ProtocolClientState.other 0)
          ⟨[], []⟩ =
        { result := Except.ok (), cs := ProtocolClientState.agora Sb,
          pipe := ⟨[], [0, 0] ++ ((List.replicate 32768 7 ++ List.replicate 32768 7) ++
            [1, 0, 2, 0, 3, 0])⟩ }) := by
  refine ⟨?_, ⟨by decide, by decide⟩, ?_⟩
  · intro pf S dest pipe h
    refine ⟨serverUpdateBody pf S, serverUpdateWire_of_lt pf S (fun hF => (h hF).2),
      sendServerUpdate_run pf S dest pipe (fun hF => (h hF).1), ?_⟩
    intro hF hT
    simp [serverUpdateBody, audioBatchBytes, headPositionBytes, videoPacketBytes,
      videoTransformBytes, hF, hT]
  · have hF : 0 < overflowClient.speexFrameSize := by decide
    have hq : overflowClient.speexPacketBuffer.queue = [] := by decide
    have hl : overflowClient.speexPacketBuffer.locked = false := by decide
    have hN : overflowClient.speexPacketBuffer.maxQueueSize = 65536 := by decide
    have hFn : 0 < ([overflowUpdate, overflowUpdate].foldl applyClientUpdate
        overflowClient).speexFrameSize := by decide
    have hcount : (beforeServerUpdateBody ([overflowUpdate, overflowUpdate].foldl
        applyClientUpdate overflowClient)).numSpeexPackets = 65536 := by
      rw [beforeServerUpdateBody_numSpeexPackets _ hFn, queue_after_updates _ _ hF hq hl,
        List.length_drop, overflowUpdates_length, hN]
    refine ⟨by decide, _, _,
      receiveAll_bodies pfSmall overflowClient _ overflowClient rfl rfl rfl
        overflowUpdates_valid,
      rfl, hFn, batch_after_updates pfSmall overflowClient _ hF hq hl overflowUpdates_valid,
      hcount, ?_, serverUpdateWire_of_ge pfSmall _ hFn (by rw [hcount]; decide), ?_⟩
    · intro field hlen heq
      have hlt := decodeLE_lt field
      rw [hlen, heq, hcount] at hlt
      exact absurd hlt (by decide)
    · have h1 : wireUInt 2 (min 65536 65536) = [0, 0] := by decide
      have h2 : headPositionBytes pfSmall (beforeServerUpdateBody
          ([overflowUpdate, overflowUpdate].foldl applyClientUpdate overflowClient)) =
          [1, 0, 2, 0, 3, 0] := rfl
      have h3 : videoPacketBytes (beforeServerUpdateBody
          ([overflowUpdate, overflowUpdate].foldl applyClientUpdate overflowClient)) = [] := rfl
      have h4 : videoTransformBytes pfSmall (beforeServerUpdateBody
          ([overflowUpdate, overflowUpdate].foldl applyClientUpdate overflowClient)) = [] := rfl
      rw [send_after_updates pfSmall overflowClient [overflowUpdate, overflowUpdate]
        (ProtocolClientState.other 0) ⟨[], []⟩ hF hq hl overflowUpdates_valid,
        overflowUpdates_length, hN, h1, h2, h3, h4, overflowUpdates_pushed, Nat.sub_self,
        List.drop_zero, List.flatten_append, flatten_replicate_singleton, List.append_nil]
      simp only [List.nil_append, List.append_nil]

/-! ## Video in a session of three -/

/-- C11 as stated fails: the source `sourceSample` has video and a locked video packet,
the destination `audioOnlySample` has no video, and the body sent to that destination
carries the video packet 42. -/
theorem video_to_videoless_destination :
    sourceSample.hasTheora = true ∧ audioOnlySample.hasTheora = false ∧
      sendServerUpdate pfSmall (ProtocolClientState.agora sourceSample)
          (ProtocolClientState.agora audioOnlySample) ⟨[], []⟩ =
        { result := Except.ok (), cs := ProtocolClientState.agora sourceSample,
          pipe := ⟨[], [2, 0, 1, 2, 3, 4, 1, 0, 2, 0, 3, 0, 1, 1, 0, 0, 0, 42, 9, 0, 0]⟩ } ∧
      ¬ NoVideoPacket pfSmall sourceSample
        [2, 0, 1, 2, 3, 4, 1, 0, 2, 0, 3, 0, 1, 1, 0, 0, 0, 42, 9, 0, 0] := by
  decide

/-- C11 as amended: in a session of three where the sources `A` and `C` have video and `B`
has none, the body sent for source `C` carries the video section of `C` (the
`hasNewPacket` byte, the packet when one is locked, the video transform) whether the
destination is `A` or `B`, and so does the body sent to `B` for source `A`; the body
sent for source `B` carries no video section.  The video section follows the source, not
the destination. -/
theorem video_section_follows_source (pf : Platform) (A B C : ClientState) (pA pB : Pipe)
    (hA : A.hasTheora = true) (hC : C.hasTheora = true) (hB : B.hasTheora = false)
    (hlA : 0 < A.speexFrameSize → A.BatchLocked) (hlB : 0 < B.speexFrameSize → B.BatchLocked)
    (hlC : 0 < C.speexFrameSize → C.BatchLocked) :
    sendServerUpdate pf (ProtocolClientState.agora C) (ProtocolClientState.agora A) pA =
        { result := Except.ok (), cs := ProtocolClientState.agora C,
          pipe := { pA with outgoing := pA.outgoing ++ (audioBatchBytes C ++
            (headPositionBytes pf C ++ ((if C.hasTheoraPacket then
                1 :: (wireUInt 4 C.theoraPacketBuffer.getLockedValue.data.length ++
                  C.theoraPacketBuffer.getLockedValue.data)
              else [0]) ++ wireUInt pf.trackerStateSize C.videoTransform))) } } ∧
      sendServerUpdate pf (ProtocolClientState.agora C) (ProtocolClientState.agora B) pB =
        { result := Except.ok (), cs := ProtocolClientState.agora C,
          pipe := { pB with outgoing := pB.outgoing ++ (audioBatchBytes C ++
            (headPositionBytes pf C ++ ((if C.hasTheoraPacket then
                1 :: (wireUInt 4 C.theoraPacketBuffer.getLockedValue.data.length ++
                  C.theoraPacketBuffer.getLockedValue.data)
              else [0]) ++ wireUInt pf.trackerStateSize C.videoTransform))) } } ∧
      sendServerUpdate pf (ProtocolClientState.agora A) (ProtocolClientState.agora B) pB =
        { result := Except.ok (), cs := ProtocolClientState.agora A,
          pipe := { pB with outgoing := pB.outgoing ++ (audioBatchBytes A ++
            (headPositionBytes pf A ++ ((if A.hasTheoraPacket then
                1 :: (wireUInt 4 A.theoraPacketBuffer.getLockedValue.data.length ++
                  A.theoraPacketBuffer.getLockedValue.data)
              else [0]) ++ wireUInt pf.trackerStateSize A.videoTransform))) } } ∧
      sendServerUpdate pf (ProtocolClientState.agora B) (ProtocolClientState.agora A) pA =
        { result := Except.ok (), cs := ProtocolClientState.agora B,
          pipe := { pA with outgoing := pA.outgoing ++
            (audioBatchBytes B ++ headPositionBytes pf B) } } := by
  refine ⟨?_, ?_, ?_, ?_⟩
  · rw [sendServerUpdate_run pf C _ pA hlC]
    simp [serverUpdateBody, videoPacketBytes, videoTransformBytes, hC]
  · rw [sendServerUpdate_run pf C _ pB hlC]
    simp [serverUpdateBody, videoPacketBytes, videoTransformBytes, hC]
  · rw [sendServerUpdate_run pf A _ pB hlA]
    simp [serverUpdateBody, videoPacketBytes, videoTransformBytes, hA]
  · rw [sendServerUpdate_run pf B _ pA hlB]
    simp [serverUpdateBody, videoPacketBytes, videoTransformBytes, hB]

/-- Instance of the amended C11: `videoSample` as `A`, `audioOnlySample` as `B` and
`sourceSample` as `C`. -/
theorem video_section_follows_source_witness :
    videoSample.hasTheora = true ∧ sourceSample.hasTheora = true ∧
      audioOnlySample.hasTheora = false ∧
      (0 < videoSample.speexFrameSize → videoSample.BatchLocked) ∧
      (0 < audioOnlySample.speexFrameSize → audioOnlySample.BatchLocked) ∧
      (0 < sourceSample.speexFrameSize → sourceSample.BatchLocked) ∧
      sendServerUpdate pfSmall (ProtocolClientState.agora sourceSample)
          (ProtocolClientState.agora audioOnlySample) ⟨[], []⟩ =
        { result := Except.ok (), cs := ProtocolClientState.agora sourceSample,
          pipe := ⟨[], [2, 0, 1, 2, 3, 4, 1, 0, 2, 0, 3, 0, 1, 1, 0, 0, 0, 42, 9, 0, 0]⟩ } ∧
      sendServerUpdate pfSmall (ProtocolClientState.agora audioOnlySample)
          (ProtocolClientState.agora videoSample) ⟨[], []⟩ =
        { result := Except.ok (), cs := ProtocolClientState.agora audioOnlySample,
          pipe := ⟨[], [1, 0, 8, 9, 7, 0, 7, 0, 7, 0]⟩ } :=
  ⟨by decide, by decide, by decide, by decide, by decide, by decide,
    (video_section_follows_source pfSmall videoSample audioOnlySample sourceSample ⟨[], []⟩
      ⟨[], []⟩ (by decide) (by decide) (by decide) (by decide) (by decide) (by decide)).2.1,
    (video_section_follows_source pfSmall videoSample audioOnlySample sourceSample ⟨[], []⟩
      ⟨[], []⟩ (by decide) (by decide) (by decide) (by decide) (by decide) (by decide)).2.2.2⟩

/-! ## The type check at the entry of the hooks -/

theorem Act.neverStdErr_bind {α β : Type} {m : Act α} {f : α → Act β}
    (hm : Act.NeverStdErr m) (hf : ∀ a, Act.NeverStdErr (f a)) :
    Act.NeverStdErr (m >>= f) := by
  intro w msg
  rw [Act.bind_run]
  split
  · rename_i a w1 heq
    exact hf a w1 msg
  · rename_i e w1 heq
    intro hc
    have he : e = Error.stdErr msg := Except.error.inj hc
    have h1 := hm w msg
    rw [heq] at h1
    exact h1 (congrArg Except.error he)

theorem Act.neverStdErr_pure {α : Type} (a : α) : Act.NeverStdErr (pure a : Act α) :=
  fun _ _ h => nomatch h

theorem Act.neverStdErr_outOfRange {α : Type} :
    Act.NeverStdErr (Act.fail Error.outOfRange : Act α) :=
  fun _ _ h => nomatch h

theorem Act.neverStdErr_getCs : Act.NeverStdErr Act.getCs := fun _ _ h => nomatch h

theorem Act.neverStdErr_modifyCs (f : ClientState → ClientState) :
    Act.NeverStdErr (Act.modifyCs f) := fun _ _ h => nomatch h

theorem Act.neverStdErr_ite {α : Type} (c : Prop) [Decidable c] {m1 m2 : Act α}
    (h1 : Act.NeverStdErr m1) (h2 : Act.NeverStdErr m2) :
    Act.NeverStdErr (if c then m1 else m2) := by
  split
  · exact h1
  · exact h2

theorem neverStdErr_readBytes (n : Nat) : Act.NeverStdErr (readBytes n) := by
  intro w msg
  unfold readBytes
  split <;> exact fun h => nomatch h

theorem neverStdErr_readUInt (n : Nat) : Act.NeverStdErr (readUInt n) :=
  Act.neverStdErr_bind (neverStdErr_readBytes n) (fun _ => Act.neverStdErr_pure _)

theorem neverStdErr_writeBytes (bs : List Byte) : Act.NeverStdErr (writeBytes bs) :=
  fun _ _ h => nomatch h

theorem neverStdErr_writeUInt (n v : Nat) : Act.NeverStdErr (writeUInt n v) :=
  fun _ _ h => nomatch h

theorem neverStdErr_writeBlock (mem : List Byte) (n : Nat) :
    Act.NeverStdErr (writeBlock mem n) := by
  unfold writeBlock
  exact Act.neverStdErr_ite _ (neverStdErr_writeBytes _) Act.neverStdErr_outOfRange

theorem neverStdErr_videoPacketRead : Act.NeverStdErr VideoPacket.read :=
  Act.neverStdErr_bind (neverStdErr_readUInt 4)
    (fun _ => Act.neverStdErr_bind (neverStdErr_readBytes _) (fun _ => Act.neverStdErr_pure _))

theorem neverStdErr_readSpeexPackets : ∀ n, Act.NeverStdErr (readSpeexPackets n)
  | 0 => Act.neverStdErr_pure _
  | n + 1 =>
    Act.neverStdErr_bind Act.neverStdErr_getCs (fun _ =>
      Act.neverStdErr_bind (neverStdErr_readBytes _) (fun _ =>
        Act.neverStdErr_bind (Act.neverStdErr_modifyCs _) (fun _ =>
          neverStdErr_readSpeexPackets n)))

theorem neverStdErr_writeSpeexPackets (S : ClientState) :
    ∀ (count i : Nat), Act.NeverStdErr (writeSpeexPackets S i count)
  | 0, _ => Act.neverStdErr_pure _
  | count + 1, i => by
    unfold writeSpeexPackets
    dsimp only
    split
    · exact Act.neverStdErr_bind (neverStdErr_writeBlock _ _)
        (fun _ => neverStdErr_writeSpeexPackets S count (i + 1))
    · exact Act.neverStdErr_bind Act.neverStdErr_outOfRange
        (fun _ => neverStdErr_writeSpeexPackets S count (i + 1))

theorem neverStdErr_receiveClientUpdateBody (pf : Platform) :
    Act.NeverStdErr (receiveClientUpdateBody pf) := by
  unfold receiveClientUpdateBody
  dsimp only
  repeat' (first
    | exact Act.neverStdErr_getCs
    | exact Act.neverStdErr_pure _
    | exact neverStdErr_readUInt _
    | exact neverStdErr_videoPacketRead
    | exact neverStdErr_readSpeexPackets _
    | exact Act.neverStdErr_modifyCs _
    | apply Act.neverStdErr_bind
    | apply Act.neverStdErr_ite
    | intro _)

theorem neverStdErr_sendClientConnectBody (pf : Platform) :
    Act.NeverStdErr (sendClientConnectBody pf) := by
  unfold sendClientConnectBody
  repeat' (first
    | exact Act.neverStdErr_getCs
    | exact Act.neverStdErr_pure _
    | exact neverStdErr_writeUInt _ _
    | exact neverStdErr_writeBlock _ _
    | apply Act.neverStdErr_bind
    | apply Act.neverStdErr_ite
    | intro _)

theorem neverStdErr_sendServerUpdateBody (pf : Platform) :
    Act.NeverStdErr (sendServerUpdateBody pf) := by
  unfold sendServerUpdateBody
  dsimp only
  repeat' (first
    | exact Act.neverStdErr_getCs
    | exact Act.neverStdErr_pure _
    | exact neverStdErr_writeUInt _ _
    | exact neverStdErr_writeBytes _
    | exact neverStdErr_writeSpeexPackets _ _ _
    | apply Act.neverStdErr_bind
    | apply Act.neverStdErr_ite
    | intro _)

theorem withAgoraState_neverStdErr (msg : String) (body : Act Unit)
    (hbody : Act.NeverStdErr body) (S : ClientState) (pipe : Pipe) (msg2 : String) :
    (withAgoraState msg body (ProtocolClientState.agora S) pipe).result ≠
      Except.error (Error.stdErr msg2) :=
  hbody ⟨S, pipe⟩ msg2

/-- C12: handed a state object that is not an Agora `ClientState` (as the source, for
the two send operations), each of the five hooks throws the error that names it, and
the state object and the pipe are left as they were: nothing is read, written or
changed.  Handed an Agora `ClientState`, none of them throws this error.  The two send
operations do the same whatever the destination state object is. -/
theorem type_mismatch_throws (pf : Platform) (t : Nat) (S : ClientState)
    (src dest dest2 : ProtocolClientState) (pipe : Pipe) :
    (receiveClientUpdate pf (ProtocolClientState.other t) pipe =
        { result := Except.error (Error.stdErr
            "AgoraServer::receiveClientUpdate: Client state object has mismatching type"),
          cs := ProtocolClientState.other t, pipe := pipe } ∧
      sendClientConnect pf (ProtocolClientState.other t) dest pipe =
        { result := Except.error (Error.stdErr
            "AgoraServer::sendClientConnect: Client state object has mismatching type"),
          cs := ProtocolClientState.other t, pipe := pipe } ∧
      sendServerUpdate pf (ProtocolClientState.other t) dest pipe =
        { result := Except.error (Error.stdErr
            "AgoraServer::sendServerUpdate: Client state object has mismatching type"),
          cs := ProtocolClientState.other t, pipe := pipe } ∧
      beforeServerUpdate (ProtocolClientState.other t) =
        (Except.error (Error.stdErr
            "AgoraServer::beforeServerUpdate: Client state object has mismatching type"),
          ProtocolClientState.other t) ∧
      afterServerUpdate (ProtocolClientState.other t) =
        (Except.error (Error.stdErr
            "AgoraServer::afterServerUpdate: Client state object has mismatching type"),
          ProtocolClientState.other t)) ∧
    (∀ msg : String,
      (receiveClientUpdate pf (ProtocolClientState.agora S) pipe).result ≠
          Except.error (Error.stdErr msg) ∧
        (sendClientConnect pf (ProtocolClientState.agora S) dest pipe).result ≠
          Except.error (Error.stdErr msg) ∧
        (sendServerUpdate pf (ProtocolClientState.agora S) dest pipe).result ≠
          Except.error (Error.stdErr msg) ∧
        (beforeServerUpdate (ProtocolClientState.agora S)).1 = Except.ok () ∧
        (afterServerUpdate (ProtocolClientState.agora S)).1 = Except.ok ()) ∧
    sendClientConnect pf src dest pipe = sendClientConnect pf src dest2 pipe ∧
    sendServerUpdate pf src dest pipe = sendServerUpdate pf src dest2 pipe := by
  refine ⟨⟨rfl, rfl, rfl, rfl, rfl⟩, fun msg => ⟨?_, ?_, ?_, rfl, rfl⟩, rfl, rfl⟩
  · exact withAgoraState_neverStdErr _ _ (neverStdErr_receiveClientUpdateBody pf) S pipe msg
  · exact withAgoraState_neverStdErr _ _ (neverStdErr_sendClientConnectBody pf) S pipe msg
  · exact withAgoraState_neverStdErr _ _ (neverStdErr_sendServerUpdateBody pf) S pipe msg

/-! ## Locking across ticks -/

/-- Committing a packet leaves the lock flag as it is. -/
theorem pushSegment_locked_eq (b : DropoutBuffer) (p : Segment) :
    (b.setWriteSegment p).pushSegment.locked = b.locked := by
  unfold DropoutBuffer.pushSegment DropoutBuffer.setWriteSegment
  split
  · rfl
  · split <;> rfl

/-- `receiveClientUpdate` and `sendServerUpdate` leave `speexFrameSize` and the lock
flag of the packet buffer as they are. -/
theorem run_transfer (pf : Platform) (cs : ProtocolClientState) (h : Hook)
    (ht : h.isTransfer = true) :
    (h.run pf cs).audio = cs.audio ∧ (h.run pf cs).queueLocked = cs.queueLocked := by
  cases cs with
  | other t => cases h <;> exact ⟨rfl, rfl⟩
  | agora S =>
    cases h with
    | receive pipe =>
      have hk := keeps_receiveClientUpdateBody pf
        (P := fun c => c.speexFrameSize = S.speexFrameSize ∧
          c.speexPacketBuffer.locked = S.speexPacketBuffer.locked)
        (fun c p hc => ⟨hc.1, (pushSegment_locked_eq c.speexPacketBuffer p).trans hc.2⟩)
        (fun _ _ hc => hc) (fun _ _ hc => hc) (fun _ _ hc => hc) ⟨S, pipe⟩ ⟨rfl, rfl⟩
      simp only [Hook.run, receiveClientUpdate, withAgoraState,
        ProtocolClientState.audio, ProtocolClientState.queueLocked]
      exact ⟨by rw [hk.1], hk.2⟩
    | send dest pipe =>
      have hk := keeps_sendServerUpdateBody pf
        (P := fun c => c.speexFrameSize = S.speexFrameSize ∧
          c.speexPacketBuffer.locked = S.speexPacketBuffer.locked) ⟨S, pipe⟩ ⟨rfl, rfl⟩
      simp only [Hook.run, sendServerUpdate, withAgoraState,
        ProtocolClientState.audio, ProtocolClientState.queueLocked]
      exact ⟨by rw [hk.1], hk.2⟩
    | before => cases ht
    | after => cases ht

/-- `beforeServerUpdate` locks the queue of a client with audio and of no other. -/
theorem run_before (pf : Platform) (cs : ProtocolClientState) :
    (Hook.before.run pf cs).audio = cs.audio ∧
      (Hook.before.run pf cs).queueLocked = (cs.audio || cs.queueLocked) := by
  cases cs with
  | other t => exact ⟨rfl, rfl⟩
  | agora S =>
    refine ⟨rfl, ?_⟩
    by_cases hF : 0 < S.speexFrameSize <;>
      simp [Hook.run, beforeServerUpdate, beforeServerUpdateBody, DropoutBuffer.lockQueue,
        ProtocolClientState.audio, ProtocolClientState.queueLocked, hF]

/-- `afterServerUpdate` unlocks the queue of a client with audio and of no other. -/
theorem run_after (pf : Platform) (cs : ProtocolClientState) :
    (Hook.after.run pf cs).audio = cs.audio ∧
      (Hook.after.run pf cs).queueLocked = (!cs.audio && cs.queueLocked) := by
  cases cs with
  | other t => exact ⟨rfl, rfl⟩
  | agora S =>
    by_cases hF : 0 < S.speexFrameSize <;>
      simp [Hook.run, afterServerUpdate, afterServerUpdateBody, DropoutBuffer.unlockQueue,
        ProtocolClientState.audio, ProtocolClientState.queueLocked, hF]

/-- The calls between `beforeServerUpdate` and `afterServerUpdate` make no lock or
unlock call and leave the lock flag as it is. -/
theorem transfers_paired (pf : Platform) (rest : List Hook) :
    ∀ (mid : List Hook) (cs : ProtocolClientState), (∀ h ∈ mid, h.isTransfer = true) →
      lockCallsPaired pf cs (mid ++ rest) = lockCallsPaired pf (runHooks pf cs mid) rest ∧
        (runHooks pf cs mid).audio = cs.audio ∧
        (runHooks pf cs mid).queueLocked = cs.queueLocked
  | [], _, _ => ⟨rfl, rfl, rfl⟩
  | h :: mid, cs, hm => by
    have ht : h.isTransfer = true := hm h (List.mem_cons_self _ _)
    obtain ⟨a1, a2⟩ := run_transfer pf cs h ht
    obtain ⟨b1, b2, b3⟩ := transfers_paired pf rest mid (h.run pf cs)
      (fun k hk => hm k (List.mem_cons_of_mem _ hk))
    refine ⟨?_, b2.trans a1, b3.trans a2⟩
    cases h with
    | receive pipe => simpa [lockCallsPaired, runHooks] using b1
    | send dest pipe => simpa [lockCallsPaired, runHooks] using b1
    | before => cases ht
    | after => cases ht

/-- A complete tick that starts with the queue unlocked makes its lock and unlock calls
in order and ends with the queue unlocked. -/
theorem tick_paired (pf : Platform) (rest : List Hook) (mid : List Hook)
    (cs : ProtocolClientState) (hun : cs.queueLocked = false)
    (hm : ∀ h ∈ mid, h.isTransfer = true) :
    lockCallsPaired pf cs (tick mid ++ rest) =
        lockCallsPaired pf (runHooks pf cs (tick mid)) rest ∧
      (runHooks pf cs (tick mid)).audio = cs.audio ∧
      (runHooks pf cs (tick mid)).queueLocked = false := by
  obtain ⟨a1, a2⟩ := run_before pf cs
  obtain ⟨b1, b2, b3⟩ := transfers_paired pf (Hook.after :: rest) mid (Hook.before.run pf cs) hm
  obtain ⟨c1, c2⟩ := run_after pf (runHooks pf (Hook.before.run pf cs) mid)
  have hrun : runHooks pf cs (tick mid) =
      Hook.after.run pf (runHooks pf (Hook.before.run pf cs) mid) := by
    simp [runHooks, tick, List.foldl_append]
  have hlist : tick mid ++ rest = Hook.before :: (mid ++ Hook.after :: rest) := by
    simp [tick]
  rw [hrun, hlist]
  refine ⟨?_, by rw [c1, b2, a1], ?_⟩
  · simp only [lockCallsPaired, b1, hun, b3, a2, b2, a1]
    cases cs.audio <;> simp
  · rw [c2, b3, a2, b2, a1, hun]
    cases cs.audio <;> rfl

theorem ticks_paired (pf : Platform) :
    ∀ (ticks : List (List Hook)) (cs : ProtocolClientState), cs.queueLocked = false →
      (∀ mid ∈ ticks, ∀ h ∈ mid, h.isTransfer = true) →
      lockCallsPaired pf cs (ticks.map tick).flatten = true ∧
        (runHooks pf cs (ticks.map tick).flatten).queueLocked = false
  | [], _, hun, _ => ⟨rfl, hun⟩
  | mid :: ticks, cs, hun, hm => by
    obtain ⟨a1, a2, a3⟩ := tick_paired pf (ticks.map tick).flatten mid cs hun
      (hm mid (List.mem_cons_self _ _))
    obtain ⟨b1, b2⟩ := ticks_paired pf ticks (runHooks pf cs (tick mid)) a3
      (fun m hm2 => hm m (List.mem_cons_of_mem _ hm2))
    simp only [List.map_cons, List.flatten_cons]
    refine ⟨by rw [a1]; exact b1, ?_⟩
    simpa [runHooks, List.foldl_append] using b2

/-- The queue of a client without audio stays unlocked under every sequence of hook
calls. -/
theorem never_locked_without_audio (pf : Platform) :
    ∀ (hooks : List Hook) (cs : ProtocolClientState), cs.audio = false →
      cs.queueLocked = false → (runHooks pf cs hooks).queueLocked = false
  | [], _, _, hun => hun
  | h :: hooks, cs, ha, hun => by
    have hstep : (h.run pf cs).audio = false ∧ (h.run pf cs).queueLocked = false := by
      cases h with
      | receive pipe =>
        obtain ⟨a1, a2⟩ := run_transfer pf cs (Hook.receive pipe) rfl
        exact ⟨a1.trans ha, a2.trans hun⟩
      | send dest pipe =>
        obtain ⟨a1, a2⟩ := run_transfer pf cs (Hook.send dest pipe) rfl
        exact ⟨a1.trans ha, a2.trans hun⟩
      | before =>
        obtain ⟨a1, a2⟩ := run_before pf cs
        exact ⟨a1.trans ha, by rw [a2, ha, hun]; rfl⟩
      | after =>
        obtain ⟨a1, a2⟩ := run_after pf cs
        exact ⟨a1.trans ha, by rw [a2, ha, hun]; rfl⟩
    exact never_locked_without_audio pf hooks (h.run pf cs) hstep.1 hstep.2

/-- C13: `beforeServerUpdate` calls `lockQueue` exactly when `speexFrameSize > 0`, and
`afterServerUpdate` calls `unlockQueue` exactly then; with `speexFrameSize = 0`
`numSpeexPackets` is set to 0.  So over every sequence of complete ticks
(`beforeServerUpdate`, any sends and client updates, `afterServerUpdate`) on a state
whose queue is unlocked, every lock call finds the queue unlocked, every unlock call
finds it locked, and the queue is unlocked after the last tick; and the queue of a client
with `speexFrameSize = 0` is not locked under any sequence of hook calls. -/
theorem lock_unlock_paired (pf : Platform) (S : ClientState) (ticks : List (List Hook))
    (hun : S.speexPacketBuffer.locked = false)
    (hmid : ∀ mid ∈ ticks, ∀ h ∈ mid, h.isTransfer = true) :
    (∀ T : ClientState,
      (beforeServerUpdateBody T).speexPacketBuffer =
          (if 0 < T.speexFrameSize then T.speexPacketBuffer.lockQueue.2
            else T.speexPacketBuffer) ∧
        (afterServerUpdateBody T).speexPacketBuffer =
          (if 0 < T.speexFrameSize then T.speexPacketBuffer.unlockQueue
            else T.speexPacketBuffer) ∧
        (afterServerUpdateBody T).speexFrameSize = T.speexFrameSize ∧
        (beforeServerUpdateBody T).speexFrameSize = T.speexFrameSize ∧
        (T.speexFrameSize = 0 → (beforeServerUpdateBody T).numSpeexPackets = 0)) ∧
      lockCallsPaired pf (ProtocolClientState.agora S) (ticks.map tick).flatten = true ∧
      (runHooks pf (ProtocolClientState.agora S) (ticks.map tick).flatten).queueLocked = false ∧
      (S.speexFrameSize = 0 → ∀ hooks : List Hook,
        (runHooks pf (ProtocolClientState.agora S) hooks).queueLocked = false) := by
  obtain ⟨a1, a2⟩ := ticks_paired pf ticks (ProtocolClientState.agora S) hun hmid
  refine ⟨fun T => ?_, a1, a2, fun hF hooks => ?_⟩
  · by_cases hT : 0 < T.speexFrameSize
    · simp [beforeServerUpdateBody, afterServerUpdateBody, hT]
      omega
    · have h0 : T.speexFrameSize = 0 := by omega
      simp [beforeServerUpdateBody, afterServerUpdateBody, h0]
  · exact never_locked_without_audio pf hooks _ (by simp [ProtocolClientState.audio, hF]) hun

/-- Instance of C13: two ticks on the sample client after its first update. -/
theorem lock_unlock_paired_witness :
    updatedSample.speexPacketBuffer.locked = false ∧
      (∀ mid ∈ ticksSample, ∀ h ∈ mid, h.isTransfer = true) ∧
      lockCallsPaired pfSmall (ProtocolClientState.agora updatedSample)
        (ticksSample.map tick).flatten = true ∧
      (runHooks pfSmall (ProtocolClientState.agora updatedSample)
        (ticksSample.map tick).flatten).queueLocked = false :=
  ⟨by decide, by decide,
    (lock_unlock_paired pfSmall updatedSample ticksSample (by decide) (by decide)).2.1,
    (lock_unlock_paired pfSmall updatedSample ticksSample (by decide) (by decide)).2.2.1⟩

/-! ## What the snapshot guarantees to the sends -/

/-- Committing a packet to a queue within its capacity leaves it within its capacity. -/
theorem pushSegment_within_capacity (b : DropoutBuffer) (p : Segment)
    (h : b.queue.length ≤ b.maxQueueSize) :
    (b.setWriteSegment p).pushSegment.queue.length ≤
      (b.setWriteSegment p).pushSegment.maxQueueSize := by
  unfold DropoutBuffer.pushSegment DropoutBuffer.setWriteSegment
  by_cases h1 : b.queue.length < b.maxQueueSize
  · simp only [h1, if_true, List.length_append, List.length_singleton]
    omega
  · by_cases h2 : (b.locked && decide (0 < b.numLocked)) = true
    · simp only [h1, if_false, h2, if_true]
      exact h
    · simp only [h1, if_false, h2, Bool.false_eq_true, List.length_drop, List.length_append,
        List.length_singleton]
      omega

/-- Every hook leaves a packet buffer that holds at most its capacity within its
capacity. -/
theorem run_within_capacity (pf : Platform) (S : ClientState) (h : Hook)
    (hcap : S.speexPacketBuffer.queue.length ≤ S.speexPacketBuffer.maxQueueSize) :
    ∃ T, h.run pf (ProtocolClientState.agora S) = ProtocolClientState.agora T ∧
      T.speexPacketBuffer.queue.length ≤ T.speexPacketBuffer.maxQueueSize := by
  cases h with
  | receive pipe =>
    exact ⟨_, rfl, keeps_receiveClientUpdateBody pf
      (P := fun c => c.speexPacketBuffer.queue.length ≤ c.speexPacketBuffer.maxQueueSize)
      (fun c p hc => pushSegment_within_capacity c.speexPacketBuffer p hc)
      (fun _ _ hc => hc) (fun _ _ hc => hc) (fun _ _ hc => hc) ⟨S, pipe⟩ hcap⟩
  | send dest pipe =>
    exact ⟨_, rfl, keeps_sendServerUpdateBody pf
      (P := fun c => c.speexPacketBuffer.queue.length ≤ c.speexPacketBuffer.maxQueueSize)
      ⟨S, pipe⟩ hcap⟩
  | before =>
    refine ⟨_, rfl, ?_⟩
    by_cases hF : 0 < S.speexFrameSize <;>
      simp [beforeServerUpdateBody, DropoutBuffer.lockQueue, hF, hcap]
  | after =>
    refine ⟨_, rfl, ?_⟩
    by_cases hF : 0 < S.speexFrameSize
    · simp [afterServerUpdateBody, DropoutBuffer.unlockQueue, hF]
      omega
    · simp [afterServerUpdateBody, hF, hcap]

/-- C14: after `beforeServerUpdate` on a client state whose packet buffer holds at most
its capacity, `hasTheoraPacket` implies `hasTheora`, `numSpeexPackets > 0` implies
`speexFrameSize > 0`, `numSpeexPackets` is at most the capacity, and a set
`hasTheoraPacket` means that a posted video packet was locked.  Whatever client updates
are processed afterwards within the tick, in the state `Sx` that a send finds every index
below `numSpeexPackets` is below the locked count and has a locked segment,
`hasTheoraPacket` still means that the locked value is the packet that was posted, and
the send returns without touching anything out of range. -/
theorem snapshot_in_range (pf : Platform) (S0 : ClientState) (ins : List Pipe)
    (dest : ProtocolClientState) (out : Pipe)
    (hcap : 0 < S0.speexFrameSize →
      S0.speexPacketBuffer.queue.length ≤ S0.speexPacketBuffer.maxQueueSize)
    (hseg : 0 < S0.speexFrameSize →
      ∀ s ∈ S0.speexPacketBuffer.queue, S0.speexPacketSize ≤ s.length) :
    ((beforeServerUpdateBody S0).hasTheoraPacket = true →
        (beforeServerUpdateBody S0).hasTheora = true ∧
          S0.theoraPacketBuffer.posted = true) ∧
      (0 < (beforeServerUpdateBody S0).numSpeexPackets →
        0 < (beforeServerUpdateBody S0).speexFrameSize) ∧
      (beforeServerUpdateBody S0).numSpeexPackets ≤
        (beforeServerUpdateBody S0).speexPacketBuffer.maxQueueSize ∧
      ∃ Sx : ClientState,
        receiveAll pf (beforeServerUpdate (ProtocolClientState.agora S0)).2 ins =
          ProtocolClientState.agora Sx ∧
        (∀ i, i < Sx.numSpeexPackets →
          i < Sx.speexPacketBuffer.numLocked ∧
            ∃ seg, Sx.speexPacketBuffer.getLockedSegment i = some seg) ∧
        (Sx.hasTheoraPacket = true →
          Sx.hasTheora = true ∧
            Sx.theoraPacketBuffer.getLockedValue = S0.theoraPacketBuffer.ready) ∧
        (sendServerUpdate pf (ProtocolClientState.agora Sx) dest out).result = Except.ok () := by
  have hb1 : (beforeServerUpdateBody S0).hasTheoraPacket = true →
      (beforeServerUpdateBody S0).hasTheora = true ∧ S0.theoraPacketBuffer.posted = true ∧
        (beforeServerUpdateBody S0).theoraPacketBuffer.consuming =
          S0.theoraPacketBuffer.ready := by
    cases hT : S0.hasTheora <;> cases hP : S0.theoraPacketBuffer.posted <;>
      simp [beforeServerUpdateBody, TripleBuffer.lockNewValue, hT, hP]
  have hb2 : (beforeServerUpdateBody S0).numSpeexPackets =
      if 0 < S0.speexFrameSize then S0.speexPacketBuffer.queue.length else 0 := by
    by_cases hF : 0 < S0.speexFrameSize <;>
      simp [beforeServerUpdateBody, DropoutBuffer.lockQueue, hF]
  have hb3 : 0 < S0.speexFrameSize →
      (beforeServerUpdateBody S0).speexPacketBuffer.numLocked =
          S0.speexPacketBuffer.queue.length ∧
        (beforeServerUpdateBody S0).speexPacketBuffer.maxQueueSize =
          S0.speexPacketBuffer.maxQueueSize := by
    intro hF
    simp [beforeServerUpdateBody, DropoutBuffer.lockQueue, hF]
  have hb4 : (beforeServerUpdateBody S0).speexFrameSize = S0.speexFrameSize := rfl
  refine ⟨fun h => ⟨(hb1 h).1, (hb1 h).2.1⟩, ?_, ?_, ?_⟩
  · rw [hb2, hb4]
    intro h
    by_cases hF : 0 < S0.speexFrameSize
    · exact hF
    · simp [hF] at h
  · rw [hb2]
    by_cases hF : 0 < S0.speexFrameSize
    · rw [if_pos hF, (hb3 hF).2]
      exact hcap hF
    · rw [if_neg hF]
      exact Nat.zero_le _
  · obtain ⟨Sx, hx, hfx⟩ := frozen_receiveAll pf _ ins _ (frozen_before S0)
    obtain ⟨f1, f2, f3, f4, f5, f6, f7⟩ := hfx
    obtain ⟨g1, -, -⟩ := frozen_sections S0 Sx hseg ⟨f1, f2, f3, f4, f5, f6, f7⟩
    refine ⟨Sx, hx, ?_, ?_, ?_⟩
    · intro i hi
      rw [f4, hb2] at hi
      by_cases hF : 0 < S0.speexFrameSize
      · rw [if_pos hF] at hi
        obtain ⟨a1, a2, a3, a4⟩ := f7 hF
        have hnl : Sx.speexPacketBuffer.numLocked = S0.speexPacketBuffer.queue.length :=
          a2.trans (hb3 hF).1
        have hil : i < Sx.speexPacketBuffer.numLocked := by omega
        have hiq : i < Sx.speexPacketBuffer.queue.length := by omega
        exact ⟨hil, Sx.speexPacketBuffer.queue[i], by
          simp [DropoutBuffer.getLockedSegment, hil, hiq]⟩
      · rw [if_neg hF] at hi
        exact absurd hi (Nat.not_lt_zero _)
    · intro h
      rw [f5] at h
      obtain ⟨c1, c2, c3⟩ := hb1 h
      exact ⟨f3.trans c1, f6.trans c3⟩
    · rw [sendServerUpdate_run pf Sx dest out g1]

/-- Instance of C14 on the sample client: two packets and a video packet are captured
from a buffer of capacity three, a client update arrives within the tick, and the send
that follows finds both locked segments and the locked video packet. -/
theorem snapshot_in_range_witness :
    (0 < updatedSample.speexFrameSize →
      updatedSample.speexPacketBuffer.queue.length ≤
        updatedSample.speexPacketBuffer.maxQueueSize) ∧
    (0 < updatedSample.speexFrameSize →
      ∀ s ∈ updatedSample.speexPacketBuffer.queue, updatedSample.speexPacketSize ≤ s.length) ∧
    (beforeServerUpdateBody updatedSample).numSpeexPackets = 2 ∧
    (beforeServerUpdateBody updatedSample).speexPacketBuffer.maxQueueSize = 3 ∧
    (beforeServerUpdateBody updatedSample).hasTheoraPacket = true ∧
    ∃ Sx : ClientState,
      receiveAll pfSmall (beforeServerUpdate (ProtocolClientState.agora updatedSample)).2
          [secondUpdatePipe] = ProtocolClientState.agora Sx ∧
      (∀ i, i < Sx.numSpeexPackets →
        i < Sx.speexPacketBuffer.numLocked ∧
          ∃ seg, Sx.speexPacketBuffer.getLockedSegment i = some seg) ∧
      (Sx.hasTheoraPacket = true →
        Sx.hasTheora = true ∧
          Sx.theoraPacketBuffer.getLockedValue = updatedSample.theoraPacketBuffer.ready) ∧
      (sendServerUpdate pfSmall (ProtocolClientState.agora Sx) (ProtocolClientState.other 1)
        ⟨[], []⟩).result = Except.ok () :=
  ⟨by decide, by decide, by decide, by decide, by decide,
    (snapshot_in_range pfSmall updatedSample [secondUpdatePipe] (ProtocolClientState.other 1)
      ⟨[], []⟩ (by decide) (by decide)).2.2.2⟩

/-! ## Head position and video transform within a tick -/

/-- The head position and the video transform after a list of updates are those of the
most recent update, where the client has audio and video respectively. -/
theorem foldl_applyClientUpdate_latest :
    ∀ (us : List ClientUpdate) (T : ClientState),
      (us.foldl applyClientUpdate T).headPosition =
          (if 0 < T.speexFrameSize then latestHeadPosition T.headPosition us
            else T.headPosition) ∧
        (us.foldl applyClientUpdate T).videoTransform =
          (if T.hasTheora then latestVideoTransform T.videoTransform us
            else T.videoTransform)
  | [], T => by simp [latestHeadPosition, latestVideoTransform]
  | u :: us, T => by
    obtain ⟨a1, a2, a3⟩ := applyClientUpdate_layout T u
    obtain ⟨b1, b2⟩ := foldl_applyClientUpdate_latest us (applyClientUpdate T u)
    rw [List.foldl_cons, b1, b2, a1, a3]
    have h1 : (applyClientUpdate T u).headPosition =
        if 0 < T.speexFrameSize then u.headPosition else T.headPosition := by
      unfold applyClientUpdate
      by_cases hF : 0 < T.speexFrameSize <;> cases hT : T.hasTheora <;> simp [hF, hT]
    have h2 : (applyClientUpdate T u).videoTransform =
        if T.hasTheora then u.videoTransform else T.videoTransform := by
      unfold applyClientUpdate
      by_cases hF : 0 < T.speexFrameSize <;> cases hT : T.hasTheora <;> simp [hF, hT]
    rw [h1, h2]
    by_cases hF : 0 < T.speexFrameSize <;> cases hT : T.hasTheora <;>
      simp [hF, latestHeadPosition, latestVideoTransform]

/-- What a send writes within a tick after the updates `us` were processed since
`beforeServerUpdate` on `S0`. -/
theorem send_in_tick (pf : Platform) (S0 : ClientState) (us : List ClientUpdate)
    (dest : ProtocolClientState) (out : Pipe)
    (hseg : 0 < S0.speexFrameSize →
      ∀ s ∈ S0.speexPacketBuffer.queue, S0.speexPacketSize ≤ s.length)
    (hv : ∀ u ∈ us, u.Valid pf S0) :
    receiveAll pf (ProtocolClientState.agora (beforeServerUpdateBody S0))
        (updatePipes pf S0 us) =
      ProtocolClientState.agora (us.foldl applyClientUpdate (beforeServerUpdateBody S0)) ∧
    sendServerUpdate pf
        (ProtocolClientState.agora (us.foldl applyClientUpdate (beforeServerUpdateBody S0)))
        dest out =
      { result := Except.ok (),
        cs := ProtocolClientState.agora
          (us.foldl applyClientUpdate (beforeServerUpdateBody S0)),
        pipe := { out with outgoing := out.outgoing ++ (capturedAudio S0 ++
          ((if 0 < S0.speexFrameSize then
              pointBytes pf (latestHeadPosition S0.headPosition us) else []) ++
            (capturedVideo S0 ++
              (if S0.hasTheora then
                wireUInt pf.trackerStateSize (latestVideoTransform S0.videoTransform us)
              else [])))) } } := by
  have hrecv := receiveAll_bodies pf S0 us (beforeServerUpdateBody S0) rfl rfl rfl hv
  obtain ⟨S2, h2, hf⟩ := frozen_receiveAll pf _ (updatePipes pf S0 us) _ (frozen_before S0)
  rw [hrecv] at h2
  have hS : us.foldl applyClientUpdate (beforeServerUpdateBody S0) = S2 :=
    ProtocolClientState.agora.inj h2
  rw [← hS] at hf
  obtain ⟨g1, g2, g3⟩ := frozen_sections S0 _ hseg hf
  obtain ⟨l1, l2⟩ := foldl_applyClientUpdate_latest us (beforeServerUpdateBody S0)
  have e1 : (us.foldl applyClientUpdate (beforeServerUpdateBody S0)).speexFrameSize =
      S0.speexFrameSize := hf.1
  have e3 : (us.foldl applyClientUpdate (beforeServerUpdateBody S0)).hasTheora =
      S0.hasTheora := hf.2.2.1
  refine ⟨hrecv, ?_⟩
  rw [sendServerUpdate_run pf _ dest out g1, serverUpdateBody, g2, g3]
  have hh : headPositionBytes pf (us.foldl applyClientUpdate (beforeServerUpdateBody S0)) =
      if 0 < S0.speexFrameSize then pointBytes pf (latestHeadPosition S0.headPosition us)
      else [] := by
    unfold headPositionBytes
    rw [e1, l1]
    by_cases hF : 0 < S0.speexFrameSize
    · have hFb : 0 < (beforeServerUpdateBody S0).speexFrameSize := hF
      simp only [hF, hFb, if_true, pointBytes]
      rfl
    · simp only [hF, if_false]
  have ht : videoTransformBytes pf (us.foldl applyClientUpdate (beforeServerUpdateBody S0)) =
      if S0.hasTheora then
        wireUInt pf.trackerStateSize (latestVideoTransform S0.videoTransform us)
      else [] := by
    unfold videoTransformBytes
    rw [e3, l2]
    cases hT : S0.hasTheora
    · simp
    · have hTb : (beforeServerUpdateBody S0).hasTheora = true := hT
      simp only [hTb, if_true]
      rfl
  rw [hh, ht]

/-- Without audio, `receiveClientUpdate` leaves the head position as it is, whatever the
pipe holds. -/
theorem receive_head_without_audio (pf : Platform) (S : ClientState) (pipe : Pipe)
    (h0 : S.speexFrameSize = 0) :
    (receiveClientUpdateBody pf ⟨S, pipe⟩).2.cs.speexFrameSize = 0 ∧
      (receiveClientUpdateBody pf ⟨S, pipe⟩).2.cs.headPosition = S.headPosition := by
  unfold receiveClientUpdateBody
  dsimp only
  rw [Act.bind_run, Act.getCs_run]
  simp only [h0, Nat.lt_irrefl, if_false]
  refine (?_ : Act.Keeps
    (fun c => c.speexFrameSize = 0 ∧ c.headPosition = S.headPosition) _) ⟨S, pipe⟩ ⟨h0, rfl⟩
  repeat' (first
    | exact Act.keeps_getCs
    | exact Act.keeps_pure _
    | exact keeps_readUInt _
    | exact keeps_videoPacketRead
    | exact Act.keeps_modifyCs (fun c hc => hc)
    | apply Act.keeps_bind
    | apply Act.keeps_ite
    | intro _)

/-- Without audio, no hook changes the stored head position. -/
theorem run_head_without_audio (pf : Platform) (S : ClientState) (h : Hook)
    (h0 : S.speexFrameSize = 0) :
    ∃ T, h.run pf (ProtocolClientState.agora S) = ProtocolClientState.agora T ∧
      T.speexFrameSize = 0 ∧ T.headPosition = S.headPosition := by
  cases h with
  | receive pipe => exact ⟨_, rfl, receive_head_without_audio pf S pipe h0⟩
  | send dest pipe =>
    exact ⟨_, rfl, keeps_sendServerUpdateBody pf
      (P := fun c => c.speexFrameSize = 0 ∧ c.headPosition = S.headPosition)
      ⟨S, pipe⟩ ⟨h0, rfl⟩⟩
  | before => exact ⟨_, rfl, h0, rfl⟩
  | after =>
    refine ⟨_, rfl, ?_⟩
    simp [afterServerUpdateBody, h0]

theorem runHooks_head_without_audio (pf : Platform) :
    ∀ (hooks : List Hook) (S : ClientState), S.speexFrameSize = 0 →
      ∃ T, runHooks pf (ProtocolClientState.agora S) hooks = ProtocolClientState.agora T ∧
        T.speexFrameSize = 0 ∧ T.headPosition = S.headPosition
  | [], S, h0 => ⟨S, rfl, h0, rfl⟩
  | h :: hooks, S, h0 => by
    obtain ⟨T, hT, t0, th⟩ := run_head_without_audio pf S h h0
    obtain ⟨U, hU, u0, uh⟩ := runHooks_head_without_audio pf hooks T t0
    refine ⟨U, ?_, u0, uh.trans th⟩
    simp only [runHooks, List.foldl_cons] at hU ⊢
    rw [hT]
    exact hU

/-- C15: the head position and the video transform are not part of the snapshot.  After
`beforeServerUpdate` on `S0`, a send that follows the client updates `us1` writes, next
to the captured audio batch and video packet, the head position (when
`speexFrameSize > 0`) and the video transform (when `hasTheora`) of the most recent
update of `us1`; a send to a later destination of the same tick, after the further
updates `us2`, writes those of the most recent update of `us1 ++ us2`.  For a source
with `speexFrameSize = 0` no sequence of hook calls changes the stored head position,
and a send writes the video section alone, without a head position. -/
theorem head_and_transform_not_latched (pf : Platform) (S0 : ClientState)
    (us1 us2 : List ClientUpdate) (D1 D2 : ProtocolClientState) (p1 p2 : Pipe)
    (hseg : 0 < S0.speexFrameSize →
      ∀ s ∈ S0.speexPacketBuffer.queue, S0.speexPacketSize ≤ s.length)
    (hv1 : ∀ u ∈ us1, u.Valid pf S0) (hv2 : ∀ u ∈ us2, u.Valid pf S0) :
    (∃ Sa Sb : ClientState,
      receiveAll pf (beforeServerUpdate (ProtocolClientState.agora S0)).2
          (updatePipes pf S0 us1) = ProtocolClientState.agora Sa ∧
      receiveAll pf (ProtocolClientState.agora Sa) (updatePipes pf S0 us2) =
        ProtocolClientState.agora Sb ∧
      sendServerUpdate pf (ProtocolClientState.agora Sa) D1 p1 =
        { result := Except.ok (), cs := ProtocolClientState.agora Sa,
          pipe := { p1 with outgoing := p1.outgoing ++ (capturedAudio S0 ++
            ((if 0 < S0.speexFrameSize then
                pointBytes pf (latestHeadPosition S0.headPosition us1) else []) ++
              (capturedVideo S0 ++
                (if S0.hasTheora then
                  wireUInt pf.trackerStateSize (latestVideoTransform S0.videoTransform us1)
                else [])))) } } ∧
      sendServerUpdate pf (ProtocolClientState.agora Sb) D2 p2 =
        { result := Except.ok (), cs := ProtocolClientState.agora Sb,
          pipe := { p2 with outgoing := p2.outgoing ++ (capturedAudio S0 ++
            ((if 0 < S0.speexFrameSize then
                pointBytes pf (latestHeadPosition S0.headPosition (us1 ++ us2)) else []) ++
              (capturedVideo S0 ++
                (if S0.hasTheora then
                  wireUInt pf.trackerStateSize
                    (latestVideoTransform S0.videoTransform (us1 ++ us2))
                else [])))) } }) ∧
    (S0.speexFrameSize = 0 → ∀ hooks : List Hook,
      ∃ T, runHooks pf (ProtocolClientState.agora S0) hooks = ProtocolClientState.agora T ∧
        T.headPosition = S0.headPosition ∧
        sendServerUpdate pf (ProtocolClientState.agora T) D1 p1 =
          { result := Except.ok (), cs := ProtocolClientState.agora T,
            pipe := { p1 with outgoing := p1.outgoing ++
              (videoPacketBytes T ++ videoTransformBytes pf T) } }) := by
  refine ⟨?_, ?_⟩
  · obtain ⟨r1, s1⟩ := send_in_tick pf S0 us1 D1 p1 hseg hv1
    have hv12 : ∀ u ∈ us1 ++ us2, u.Valid pf S0 := by
      intro u hu
      rcases List.mem_append.mp hu with h | h
      · exact hv1 u h
      · exact hv2 u h
    obtain ⟨r12, s12⟩ := send_in_tick pf S0 (us1 ++ us2) D2 p2 hseg hv12
    refine ⟨_, _, r1, ?_, s1, s12⟩
    have hsplit : receiveAll pf (ProtocolClientState.agora (beforeServerUpdateBody S0))
        (updatePipes pf S0 (us1 ++ us2)) =
        receiveAll pf (receiveAll pf (ProtocolClientState.agora (beforeServerUpdateBody S0))
          (updatePipes pf S0 us1)) (updatePipes pf S0 us2) := by
      simp [receiveAll, updatePipes, List.foldl_append]
    rw [hsplit, r1] at r12
    exact r12
  · intro h0 hooks
    obtain ⟨T, hT, t0, th⟩ := runHooks_head_without_audio pf hooks S0 h0
    refine ⟨T, hT, th, ?_⟩
    rw [sendServerUpdate_run pf T D1 p1 (fun h => absurd h (by omega))]
    simp [serverUpdateBody, audioBatchBytes, headPositionBytes, t0]

/-- Instance of C15 on the sample client: the snapshot holds the packets `[1, 2]`,
`[3, 4]` and the video packet 42; the destination served after the first update gets the
head position (4, 5, 6) and the transform 8, the one served after the second update gets
(7, 8, 9) and 7, both with the same batch and video packet; the video-only client is
sent its video section alone. -/
theorem head_and_transform_not_latched_witness :
    (0 < updatedSample.speexFrameSize →
      ∀ s ∈ updatedSample.speexPacketBuffer.queue, updatedSample.speexPacketSize ≤ s.length) ∧
    (∀ u ∈ [headUpdateFirst], u.Valid pfSmall updatedSample) ∧
    (∀ u ∈ [headUpdateLater], u.Valid pfSmall updatedSample) ∧
    capturedAudio updatedSample ++
        ((if 0 < updatedSample.speexFrameSize then
            pointBytes pfSmall (latestHeadPosition updatedSample.headPosition [headUpdateFirst])
          else []) ++
          (capturedVideo updatedSample ++
            (if updatedSample.hasTheora then
              wireUInt pfSmall.trackerStateSize
                (latestVideoTransform updatedSample.videoTransform [headUpdateFirst])
            else []))) =
      [2, 0, 1, 2, 3, 4, 4, 0, 5, 0, 6, 0, 1, 1, 0, 0, 0, 42, 8, 0, 0] ∧
    capturedAudio updatedSample ++
        ((if 0 < updatedSample.speexFrameSize then
            pointBytes pfSmall (latestHeadPosition updatedSample.headPosition
              ([headUpdateFirst] ++ [headUpdateLater]))
          else []) ++
          (capturedVideo updatedSample ++
            (if updatedSample.hasTheora then
              wireUInt pfSmall.trackerStateSize
                (latestVideoTransform updatedSample.videoTransform
                  ([headUpdateFirst] ++ [headUpdateLater]))
            else []))) =
      [2, 0, 1, 2, 3, 4, 7, 0, 8, 0, 9, 0, 1, 1, 0, 0, 0, 42, 7, 0, 0] ∧
    (∃ Sa Sb : ClientState,
      receiveAll pfSmall (beforeServerUpdate (ProtocolClientState.agora updatedSample)).2
          (updatePipes pfSmall updatedSample [headUpdateFirst]) = ProtocolClientState.agora Sa ∧
      receiveAll pfSmall (ProtocolClientState.agora Sa)
          (updatePipes pfSmall updatedSample [headUpdateLater]) = ProtocolClientState.agora Sb ∧
      sendServerUpdate pfSmall (ProtocolClientState.agora Sa) (ProtocolClientState.other 1)
          ⟨[], []⟩ =
        { result := Except.ok (), cs := ProtocolClientState.agora Sa,
          pipe := { (⟨[], []⟩ : Pipe) with outgoing := (⟨[], []⟩ : Pipe).outgoing ++
            (capturedAudio updatedSample ++
            ((if 0 < updatedSample.speexFrameSize then
                pointBytes pfSmall
                  (latestHeadPosition updatedSample.headPosition [headUpdateFirst])
              else []) ++
              (capturedVideo updatedSample ++
                (if updatedSample.hasTheora then
                  wireUInt pfSmall.trackerStateSize
                    (latestVideoTransform updatedSample.videoTransform [headUpdateFirst])
                else [])))) } } ∧
      sendServerUpdate pfSmall (ProtocolClientState.agora Sb) (ProtocolClientState.other 2)
          ⟨[], [255]⟩ =
        { result := Except.ok (), cs := ProtocolClientState.agora Sb,
          pipe := { (⟨[], [255]⟩ : Pipe) with outgoing := (⟨[], [255]⟩ : Pipe).outgoing ++
            (capturedAudio updatedSample ++
            ((if 0 < updatedSample.speexFrameSize then
                pointBytes pfSmall
                  (latestHeadPosition updatedSample.headPosition
                    ([headUpdateFirst] ++ [headUpdateLater]))
              else []) ++
              (capturedVideo updatedSample ++
                (if updatedSample.hasTheora then
                  wireUInt pfSmall.trackerStateSize
                    (latestVideoTransform updatedSample.videoTransform
                      ([headUpdateFirst] ++ [headUpdateLater]))
                else [])))) } }) ∧
    videoOnlySample.speexFrameSize = 0 ∧
    (sendServerUpdate pfSmall (runHooks pfSmall (ProtocolClientState.agora videoOnlySample)
      videoOnlyHooks) (ProtocolClientState.other 1) ⟨[], []⟩).pipe.outgoing =
        [1, 1, 0, 0, 0, 42, 9, 0, 0] ∧
    ∃ T, runHooks pfSmall (ProtocolClientState.agora videoOnlySample) videoOnlyHooks =
        ProtocolClientState.agora T ∧
      T.headPosition = videoOnlySample.headPosition ∧
      sendServerUpdate pfSmall (ProtocolClientState.agora T) (ProtocolClientState.other 1)
          ⟨[], []⟩ =
        { result := Except.ok (), cs := ProtocolClientState.agora T,
          pipe := { (⟨[], []⟩ : Pipe) with outgoing := (⟨[], []⟩ : Pipe).outgoing ++
            (videoPacketBytes T ++ videoTransformBytes pfSmall T) } } :=
  ⟨by decide, by decide, by decide, by decide, by decide,
    (head_and_transform_not_latched pfSmall updatedSample [headUpdateFirst] [headUpdateLater]
      (ProtocolClientState.other 1) (ProtocolClientState.other 2) ⟨[], []⟩ ⟨[], [255]⟩
      (by decide) (by decide) (by decide)).1,
    by decide, by decide,
    (head_and_transform_not_latched pfSmall videoOnlySample [] []
      (ProtocolClientState.other 1) (ProtocolClientState.other 2) ⟨[], []⟩ ⟨[], []⟩
      (by decide) (by decide) (by decide)).2 (by decide) videoOnlyHooks⟩

end Agora
